import Mathlib

/-!
Verification development for the protect/restore pipeline of a Twig/Melody
prettier plugin.  The JavaScript source (src/parser.js and the printer
modules) is shallowly embedded: strings are lists of characters, the
regular expressions of the source are represented by a small regex AST
together with a backtracking matcher that mirrors JavaScript regex
semantics (leftmost match, ordered alternation, greedy/lazy repetition,
capture groups, backreferences, lookarounds, word boundaries), and each
`String.prototype.replace(pattern, callback)` call becomes a fuelled scan
`runREPass` over the input.  Stateful pieces (the replacement `Map` and the
counters seeding placeholder ids) are threaded explicitly through a
`PipeState`.
-/

namespace TwigMelody

set_option maxRecDepth 100000

/-- Characters of the working text; the JavaScript code operates on strings. -/
abbrev Str := List Char

/-- Coerce a Lean string literal to the character-list representation. -/
def S (s : String) : Str := s.data

/-- JavaScript whitespace test used by `\s`, `String.prototype.trim` and the
whitespace checks of the source (the common ASCII whitespace characters plus
NBSP and the BOM; the exotic Unicode space characters never occur in the
inputs this development evaluates). -/
def isSpaceJS (c : Char) : Bool :=
  c = ' ' || c = '\t' || c = '\n' || c = '\r' || c = '\x0b' || c = '\x0c' ||
  c = ' ' || c = '﻿'

/-- `[0-9]`. -/
def isDigitC (c : Char) : Bool := '0' ≤ c && c ≤ '9'

/-- `[a-z]` or `[A-Z]`. -/
def isAlphaC (c : Char) : Bool := ('a' ≤ c && c ≤ 'z') || ('A' ≤ c && c ≤ 'Z')

/-- `\w`, i.e. `[A-Za-z0-9_]`. -/
def isWordC (c : Char) : Bool := isAlphaC c || isDigitC c || c = '_'

/-- ASCII lower-casing, used for the case-insensitive (`/i`) regexes. -/
def lowerC (c : Char) : Char :=
  if 'A' ≤ c && c ≤ 'Z' then Char.ofNat (c.toNat + 32) else c

/-- Lower-case a whole string (JavaScript `toLowerCase` on the ASCII inputs
that occur here). -/
def toLowerStr (s : Str) : Str := s.map lowerC

/-- `s.trim()`. -/
def trimJS (s : Str) : Str :=
  ((s.dropWhile isSpaceJS).reverse.dropWhile isSpaceJS).reverse

/-- The substring `w` occurs in `s` starting at index `i`. -/
def substrAt (s : Str) (i : Nat) (w : Str) : Bool :=
  decide (((s.drop i).take w.length) = w)

/-- `s.includes(w)`. -/
def hasSubstr (s : Str) (w : Str) : Bool :=
  (List.range (s.length + 1)).any (fun i => substrAt s i w)

/-- `s.startsWith(w)`. -/
def strStarts (s : Str) (w : Str) : Bool := substrAt s 0 w

/-- `s.includes(c)` for a single character. -/
def hasChar (s : Str) (c : Char) : Bool := s.contains c

/-- Case-insensitive variant of `substrAt` (ASCII). -/
def substrAtCI (s : Str) (i : Nat) (w : Str) : Bool :=
  decide ((toLowerStr ((s.drop i).take w.length)) = toLowerStr w)

/-- First index at which `w` occurs in `s` (`s.indexOf(w)` as an `Option`). -/
def firstOcc (s : Str) (w : Str) : Option Nat :=
  (List.range (s.length + 1)).find? (fun i => substrAt s i w)

/-- `s.lastIndexOf(w)`: `-1` when absent, mirroring the integer comparisons
of the source. -/
def lastOccSub (s : Str) (w : Str) : Int :=
  match ((List.range (s.length + 1)).filter (fun i => substrAt s i w)).getLast? with
  | none => -1
  | some i => (i : Int)

/-- Segment `s[a..b)`. -/
def seg (s : Str) (a b : Nat) : Str := (s.drop a).take (b - a)

/-- Replace the first occurrence of `pat` in `s` by `rep`
(JavaScript `String.prototype.replace` with a string pattern). -/
def replaceFirst (s pat rep : Str) : Str :=
  match firstOcc s pat with
  | none => s
  | some i => s.take i ++ rep ++ s.drop (i + pat.length)

/-- Replace every (non-overlapping, left-to-right) occurrence of `pat` by
`rep` (JavaScript `replace` with a `g`-flagged literal pattern). -/
def replaceAllGo (pat rep : Str) : Nat → Str → Str
  | 0, s => s
  | _ + 1, [] => []
  | fuel + 1, c :: rest =>
      if pat ≠ [] ∧ substrAt (c :: rest) 0 pat then
        rep ++ replaceAllGo pat rep fuel ((c :: rest).drop pat.length)
      else
        c :: replaceAllGo pat rep fuel rest

/-- All-occurrence replacement wrapper. -/
def replaceAllSub (s pat rep : Str) : Str := replaceAllGo pat rep s.length s

/-! ### Decimal printing of the placeholder counters

The source interpolates counters into template strings (``` `kind-${n}` ```);
`natStr` is the decimal representation, fuelled so that it reduces inside the
kernel. -/

/-- Decimal digit character of `n % 10`. -/
def digitChar10 (n : Nat) : Char := Char.ofNat (48 + n % 10)

/-- Fuelled decimal printer. -/
def natStrGo : Nat → Nat → Str
  | 0, _ => []
  | fuel + 1, n =>
      if n < 10 then [digitChar10 n]
      else natStrGo fuel (n / 10) ++ [digitChar10 (n % 10)]

/-- Decimal representation of a natural number. -/
def natStr (n : Nat) : Str := natStrGo (n + 1) n

/-- Value of a digit string, the inverse of `natStr`. -/
def digitsVal (s : Str) : Nat :=
  s.foldl (fun a c => 10 * a + (c.toNat - 48)) 0

theorem digitsVal_append (a b : Str) :
    digitsVal (a ++ b) = b.foldl (fun x c => 10 * x + (c.toNat - 48)) (digitsVal a) := by
  simp [digitsVal, List.foldl_append]

theorem digitChar10_toNat (n : Nat) : (digitChar10 n).toNat = 48 + n % 10 := by
  have hbound : ∀ m, m < 10 → (Char.ofNat (48 + m)).toNat = 48 + m := by decide
  have h := hbound (n % 10) (Nat.mod_lt n (by norm_num))
  simpa [digitChar10] using h

theorem digitsVal_natStrGo (fuel n : Nat) (h : n < fuel) :
    digitsVal (natStrGo fuel n) = n := by
  induction fuel generalizing n with
  | zero => omega
  | succ fuel ih =>
      by_cases hn : n < 10
      · simp only [natStrGo, hn, if_true, digitsVal, List.foldl_cons, List.foldl_nil]
        rw [digitChar10_toNat]
        omega
      · have hrec : n / 10 < fuel := by omega
        rw [natStrGo, if_neg hn, digitsVal_append]
        simp only [List.foldl_cons, List.foldl_nil]
        rw [show digitsVal (natStrGo fuel (n / 10)) = n / 10 from ih (n / 10) hrec,
            digitChar10_toNat]
        omega

theorem digitsVal_natStr (n : Nat) : digitsVal (natStr n) = n :=
  digitsVal_natStrGo (n + 1) n (Nat.lt_succ_self n)

theorem natStr_injective : Function.Injective natStr := by
  intro a b h
  have := digitsVal_natStr a
  rw [h, digitsVal_natStr] at this
  omega

theorem natStrGo_digits (fuel n : Nat) :
    ∀ c ∈ natStrGo fuel n, 48 ≤ c.toNat ∧ c.toNat ≤ 57 := by
  induction fuel generalizing n with
  | zero => simp [natStrGo]
  | succ fuel ih =>
      intro c hc
      have hd : ∀ m : Nat, 48 ≤ (digitChar10 m).toNat ∧ (digitChar10 m).toNat ≤ 57 := by
        intro m
        rw [digitChar10_toNat]
        have := Nat.mod_lt m (show 0 < 10 by norm_num)
        omega
      by_cases hn : n < 10
      · simp [natStrGo, hn] at hc
        subst hc
        exact hd n
      · simp [natStrGo, hn] at hc
        rcases hc with hc | hc
        · exact ih _ c hc
        · subst hc
          exact hd _

theorem natStr_digits (n : Nat) : ∀ c ∈ natStr n, 48 ≤ c.toNat ∧ c.toNat ≤ 57 :=
  natStrGo_digits (n + 1) n

theorem natStr_no_dash (n : Nat) : '-' ∉ natStr n := by
  intro h
  have := natStr_digits n '-' h
  simp at this

theorem natStr_ne_nil (n : Nat) : natStr n ≠ [] := by
  unfold natStr natStrGo
  by_cases h : n < 10 <;> simp [h]

/-! ### A small regex AST with a backtracking matcher

Each regular expression of the JavaScript source is transcribed into this
AST; `reM` enumerates the candidate match ends in the same preference order
as a JavaScript backtracking engine (ordered alternation, greedy/lazy
repetition, leftmost-first), so the head of the list is the JavaScript
match. -/

/-- The character classes occurring in the source regexes. -/
inductive Cls where
  | digit        -- \d
  | wordChar     -- \w
  | wordDash     -- [\w-]
  | alphaChar    -- [a-zA-Z]
  | alnumChar    -- [a-zA-Z0-9]
  | alnumDash    -- [a-zA-Z0-9-]
  | alnumDotDash -- [a-zA-Z0-9.-]
  | spaceChar    -- \s
  | notGt        -- [^>]
  | notLtGt      -- [^<>]
  | notDq        -- [^"]
  | notSq        -- [^']
  | notRbrace    -- [^}]
  | anyChar      -- [^] and [\s\S]
  | notEqSpace   -- [^=\s]
  | symRun       -- [;:|&=><(){}[\]]
  | notParen     -- [^()]
  | notCloseParen -- [^)]
  | notArrowStop -- [^%}|,)]
  | pipeStop     -- [|),}]
  | quoteCls     -- ["']
  | notQuoteCls  -- [^"']
  | spaceOrLt    -- \s|< (the lookbehind of the colon pattern)
  deriving DecidableEq, Repr

/-- Membership test of the character classes. -/
def clsFn : Cls → Char → Bool
  | .digit, c => isDigitC c
  | .wordChar, c => isWordC c
  | .wordDash, c => isWordC c || c = '-'
  | .alphaChar, c => isAlphaC c
  | .alnumChar, c => isAlphaC c || isDigitC c
  | .alnumDash, c => isAlphaC c || isDigitC c || c = '-'
  | .alnumDotDash, c => isAlphaC c || isDigitC c || c = '.' || c = '-'
  | .spaceChar, c => isSpaceJS c
  | .notGt, c => c ≠ '>'
  | .notLtGt, c => c ≠ '<' && c ≠ '>'
  | .notDq, c => c ≠ '"'
  | .notSq, c => c ≠ '\''
  | .notRbrace, c => c ≠ '\x7d'
  | .anyChar, _ => true
  | .notEqSpace, c => c ≠ '=' && !isSpaceJS c
  | .symRun, c => c = ';' || c = ':' || c = '|' || c = '&' || c = '=' || c = '>' ||
      c = '<' || c = '(' || c = ')' || c = '\x7b' || c = '\x7d' || c = '[' || c = ']'
  | .notParen, c => c ≠ '(' && c ≠ ')'
  | .notCloseParen, c => c ≠ ')'
  | .notArrowStop, c => c ≠ '%' && c ≠ '\x7d' && c ≠ '|' && c ≠ ',' && c ≠ ')'
  | .pipeStop, c => c = '|' || c = ')' || c = ',' || c = '\x7d'
  | .quoteCls, c => c = '"' || c = '\''
  | .notQuoteCls, c => c ≠ '"' && c ≠ '\''
  | .spaceOrLt, c => isSpaceJS c || c = '<'

/-- Regex AST. -/
inductive RE where
  | eps
  | lit (c : Char)
  | litCI (c : Char)
  | cls (k : Cls)
  | seq (a b : RE)
  | alt (a b : RE)
  | star (r : RE) (lazyRep : Bool)
  | group (idx : Nat) (r : RE)
  | backref (idx : Nat) (ci : Bool)
  | look (neg : Bool) (r : RE)
  | behindCls (k : Cls)
  | wordB
  | eosA
  deriving Repr

/-- Captured group spans: `(index, start, end)`, most recent first. -/
abbrev Caps := List (Nat × Nat × Nat)

/-- Look up the most recent span of a group. -/
def capLookup : Caps → Nat → Option (Nat × Nat)
  | [], _ => none
  | (j, s, e) :: rest, i => if j = i then some (s, e) else capLookup rest i

/-- Character at an index. -/
def charAt (o : Str) (i : Nat) : Option Char := o.get? i

/-- Word-boundary test (`\b`). -/
def wordBAt (o : Str) (i : Nat) : Bool :=
  let before := if i = 0 then false else
    match charAt o (i - 1) with
    | some c => isWordC c
    | none => false
  let after :=
    match charAt o i with
    | some c => isWordC c
    | none => false
  before ≠ after

/-- The text `o[i..i+(e-s))` equals `o[s..e)`, optionally case-insensitively
(backreference matching). -/
def matchSegAt (o : Str) (i s e : Nat) (ci : Bool) : Bool :=
  if ci then substrAtCI o i (seg o s e) else substrAt o i (seg o s e)

/-- Backtracking matcher.  `reM o fuel r i caps` lists the candidate
`(end, captures)` pairs of matching `r` at index `i` of `o`, in the
preference order of a JavaScript engine; the head is the JavaScript match. -/
def reM (o : Str) : Nat → RE → Nat → Caps → List (Nat × Caps)
  | 0, _, _, _ => []
  | fuel + 1, r, i, caps =>
    match r with
    | .eps => [(i, caps)]
    | .lit c =>
        match charAt o i with
        | some d => if d = c then [(i + 1, caps)] else []
        | none => []
    | .litCI c =>
        match charAt o i with
        | some d => if lowerC d = lowerC c then [(i + 1, caps)] else []
        | none => []
    | .cls k =>
        match charAt o i with
        | some d => if clsFn k d then [(i + 1, caps)] else []
        | none => []
    | .seq a b =>
        (reM o fuel a i caps).flatMap (fun p => reM o fuel b p.1 p.2)
    | .alt a b => reM o fuel a i caps ++ reM o fuel b i caps
    | .star r lz =>
        let stop := [(i, caps)]
        let go := (reM o fuel r i caps).flatMap (fun p =>
          if p.1 = i then [] else reM o fuel (.star r lz) p.1 p.2)
        if lz then stop ++ go else go ++ stop
    | .group idx r =>
        (reM o fuel r i caps).map (fun p => (p.1, (idx, i, p.1) :: p.2))
    | .backref idx ci =>
        match capLookup caps idx with
        | none => [(i, caps)]
        | some (s, e) =>
            if matchSegAt o i s e ci then [(i + (e - s), caps)] else []
    | .look neg r =>
        if neg then (if (reM o fuel r i caps).isEmpty then [(i, caps)] else [])
        else (if (reM o fuel r i caps).isEmpty then [] else [(i, caps)])
    | .behindCls k =>
        if i = 0 then []
        else
          match charAt o (i - 1) with
          | some d => if clsFn k d then [(i, caps)] else []
          | none => []
    | .wordB => if wordBAt o i then [(i, caps)] else []
    | .eosA => if i = o.length then [(i, caps)] else []

/-- Structural size of a regex, used to bound the fuel. -/
def reSize : RE → Nat
  | .eps | .lit _ | .litCI _ | .cls _ | .backref _ _ | .behindCls _
  | .wordB | .eosA => 1
  | .seq a b | .alt a b => reSize a + reSize b + 1
  | .star r _ => reSize r + 1
  | .group _ r => reSize r + 1
  | .look _ r => reSize r + 1

/-- Fuel that suffices for any match attempt of `r` against `o`. -/
def reFuel (r : RE) (o : Str) : Nat := (reSize r + 2) * (o.length + 2)

/-- The JavaScript match of `r` at index `i` of `o`: first candidate. -/
def reFirst (r : RE) (o : Str) (i : Nat) : Option (Nat × Caps) :=
  (reM o (reFuel r o) r i []).head?

/-- Captured substring of group `idx` (empty when the group is unset, as the
callbacks of the source only read set groups). -/
def capStr (o : Str) (caps : Caps) (idx : Nat) : Str :=
  match capLookup caps idx with
  | none => []
  | some (s, e) => seg o s e

/-- One `text.replace(re, callback)` with a `g` flag: a fuelled left-to-right
scan.  On a match the callback `act` receives the whole input (the JS
callbacks read `processedText`, which is the pre-pass text), the match
offset, the matched text and the captures, and returns the replacement plus
the updated state.  Empty matches emit the replacement and advance one
character, as JavaScript does. -/
def runREPassGo {σ : Type} (r : RE)
    (act : Str → Nat → Str → Caps → σ → Str × σ) (o : Str) :
    Nat → Nat → σ → Str × σ
  | 0, _, st => ([], st)
  | fuel + 1, i, st =>
    if i < o.length then
      match reFirst r o i with
      | some (j, caps) =>
          let m := seg o i j
          let res := act o i m caps st
          if i < j then
            let rest := runREPassGo r act o fuel j res.2
            (res.1 ++ rest.1, rest.2)
          else
            let rest := runREPassGo r act o fuel (i + 1) res.2
            (res.1 ++ [o.getD i ' '] ++ rest.1, rest.2)
      | none =>
          let rest := runREPassGo r act o fuel (i + 1) st
          (o.getD i ' ' :: rest.1, rest.2)
    else ([], st)

/-- Top-level wrapper of the global-replace scan. -/
def runREPass {σ : Type} (r : RE)
    (act : Str → Nat → Str → Caps → σ → Str × σ) (o : Str) (st : σ) : Str × σ :=
  runREPassGo r act o (o.length + 1) 0 st

/-- Search for the first match of `r` anywhere in `o` at or after `i`
(JavaScript `String.prototype.match` without `g`). -/
def reSearchGo (r : RE) (o : Str) : Nat → Nat → Option (Nat × Nat × Caps)
  | 0, _ => none
  | fuel + 1, i =>
    if i < o.length then
      match reFirst r o i with
      | some (j, caps) => some (i, j, caps)
      | none => reSearchGo r o fuel (i + 1)
    else none

/-- First-match search wrapper. -/
def reSearch (r : RE) (o : Str) : Option (Nat × Nat × Caps) :=
  reSearchGo r o (o.length + 1) 0

/-- `lits w` is the regex matching the literal string `w`. -/
def lits : Str → RE
  | [] => .eps
  | c :: cs => .seq (.lit c) (lits cs)

/-- Literal-string regex from a Lean string literal. -/
def litsS (s : String) : RE := lits s.data

/-- Case-insensitive literal-string regex. -/
def litsCI : Str → RE
  | [] => .eps
  | c :: cs => .seq (.litCI c) (litsCI cs)

/-- `r+` (greedy) or `r+?` (lazy): one copy then a star. -/
def rplus (r : RE) (lz : Bool) : RE := .seq r (.star r lz)

/-- `r?` (greedy: try the branch with `r` first). -/
def ropt (r : RE) : RE := .alt r .eps

/-- Ordered alternation of a list of regexes. -/
def altList : List RE → RE
  | [] => .eps
  | [r] => r
  | r :: rest => .alt r (altList rest)

/-! ### Ledger, placeholder ids and pipeline state

The source keeps a `Map` of placeholder id to payload plus integer counters
(`replacementCounter` shared by the Vue/Alpine passes, `entityCounter` local
to the entity pass, and the arrow pass's own counter).  `GenId` is the
structured form of a generated id, `idStr` its concrete string. -/

/-- The id kinds seeded by the shared `replacementCounter`. -/
inductive SharedKind where
  | mixedAttr | alpineMixedName | alpineAttr | alpinePureName
  | vPreContent | scriptContent | styleContent
  | twigComment | twigConditional | twigAttrValue
  | vueAlpineName | vueAlpineValue | vueExpression
  deriving DecidableEq, Repr

/-- The string prefixes of the shared-counter kinds. -/
def sharedKindStr : SharedKind → Str
  | .mixedAttr => S "mixed-attr-"
  | .alpineMixedName => S "data-alpine-mixed-"
  | .alpineAttr => S "alpine-attr-"
  | .alpinePureName => S "data-alpine-pure-"
  | .vPreContent => S "v-pre-content-"
  | .scriptContent => S "script-content-"
  | .styleContent => S "style-content-"
  | .twigComment => S "data-twig-comment-"
  | .twigConditional => S "data-twig-conditional-"
  | .twigAttrValue => S "twig-attr-value-"
  | .vueAlpineName => S "data-vue-alpine-"
  | .vueAlpineValue => S "vue-alpine-value-"
  | .vueExpression => S "vue-expression-"

/-- A generated placeholder id in structured form. -/
inductive GenId where
  | shared (k : SharedKind) (n : Nat)
  | entity (n : Nat)
  | arrow (n : Nat)
  deriving DecidableEq, Repr

/-- The concrete id string of a generated placeholder. -/
def idStr : GenId → Str
  | .shared k n => sharedKindStr k ++ natStr n
  | .entity n => S "__HTML_ENTITY_" ++ natStr n ++ S "__"
  | .arrow n => S "__TWIG_ARROW_FUNC_" ++ natStr n ++ S "__"

/-- Ledger payloads: the plain strings and the structured records the source
stores in its replacement `Map`. -/
inductive Payload where
  | text (s : Str)
  | quoted (value : Str) (quote : Char)
  | mixedAttr (attrName processedValue : Str) (twigExprs : List Str)
      (originalValue : Str)
  | alpineAttr (attrName originalValue : Str)
  deriving DecidableEq, Repr

/-- Pipeline state: the counter, the insertion-ordered replacement map, and
the (ghost) list of every id generated so far, in allocation order. -/
structure PipeState where
  ctr : Nat
  entries : List (Str × Payload)
  log : List GenId
  deriving Repr

/-- `Map.prototype.set`: update in place or append. -/
def mapSet : List (Str × Payload) → Str → Payload → List (Str × Payload)
  | [], k, v => [(k, v)]
  | (k0, v0) :: rest, k, v =>
      if k0 = k then (k0, v) :: rest else (k0, v0) :: mapSet rest k v

/-- `Map.prototype.get`. -/
def mapGet : List (Str × Payload) → Str → Option Payload
  | [], _ => none
  | (k0, v0) :: rest, k => if k0 = k then some v0 else mapGet rest k

/-- `Map.prototype.has`. -/
def mapHas (es : List (Str × Payload)) (k : Str) : Bool := (mapGet es k).isSome

/-- Allocate the next shared-counter id (``` `kind-${counter.value++}` ```). -/
def allocShared (k : SharedKind) (st : PipeState) : Str × PipeState :=
  (idStr (.shared k st.ctr),
   { ctr := st.ctr + 1, entries := st.entries, log := st.log ++ [.shared k st.ctr] })

/-- Allocate the next entity id (``` `__HTML_ENTITY_${entityCounter++}__` ```). -/
def allocEntity (st : PipeState) : Str × PipeState :=
  (idStr (.entity st.ctr),
   { ctr := st.ctr + 1, entries := st.entries, log := st.log ++ [.entity st.ctr] })

/-- Allocate the next arrow-function id. -/
def allocArrow (st : PipeState) : Str × PipeState :=
  (idStr (.arrow st.ctr),
   { ctr := st.ctr + 1, entries := st.entries, log := st.log ++ [.arrow st.ctr] })

/-- `replacements.set(id, payload)`. -/
def store (st : PipeState) (k : Str) (v : Payload) : PipeState :=
  { st with entries := mapSet st.entries k v }

/-! ### First pass: `preprocessAlpineJSAttributes` (src/parser.js 253-344) -/

/-- `="([^"]*)"` — the shared tail of the Alpine attribute patterns. -/
def reEqQuotedVal : RE :=
  .seq (.lit '=') (.seq (.lit '"')
    (.seq (.group 2 (.star (.cls .notDq) false)) (.lit '"')))

/-- `\.[a-zA-Z][a-zA-Z0-9.-]*` — one dotted modifier. -/
def reDotMod : RE :=
  .seq (.lit '.') (.seq (.cls .alphaChar) (.star (.cls .alnumDotDash) false))

/-- `(x-bind:[a-zA-Z][a-zA-Z0-9-]*)="([^"]*)"`. -/
def reAlpineBind : RE :=
  .seq (.group 1 (.seq (litsS "x-bind:")
    (.seq (.cls .alphaChar) (.star (.cls .alnumDash) false)))) reEqQuotedVal

/-- `(@[a-zA-Z][a-zA-Z0-9-]*(?:\.[a-zA-Z][a-zA-Z0-9.-]*)*)="([^"]*)"`. -/
def reAlpineAt : RE :=
  .seq (.group 1 (.seq (.lit '@') (.seq (.cls .alphaChar)
    (.seq (.star (.cls .alnumDash) false) (.star reDotMod false))))) reEqQuotedVal

/-- `(:(?!xmlns)[a-zA-Z][a-zA-Z0-9-]*)="([^"]*)"`. -/
def reAlpineColon : RE :=
  .seq (.group 1 (.seq (.lit ':') (.seq (.look true (litsS "xmlns"))
    (.seq (.cls .alphaChar) (.star (.cls .alnumDash) false))))) reEqQuotedVal

/-- The Alpine attribute list of lines 262-275 (in source order). -/
def alpineAttrNames : List Str :=
  [S "x-data", S "x-show", S "x-if", S "x-for", S "x-model", S "x-text",
   S "x-html", S "x-bind", S "x-on", S "x-transition", S "x-effect", S "x-init"]

/-- `(attr(?:\.[a-zA-Z][a-zA-Z0-9.-]*)?)="([^"]*)"` for a listed attribute. -/
def reAlpineStd (attr : Str) : RE :=
  .seq (.group 1 (.seq (lits attr) (ropt reDotMod))) reEqQuotedVal

/-- All patterns of the first pass, in source order. -/
def alpinePatterns : List RE :=
  [reAlpineBind, reAlpineAt, reAlpineColon] ++ alpineAttrNames.map reAlpineStd

/-- `\{\{([^}]+)\}\}` — the embedded Twig expression pattern. -/
def reTwigExpr : RE :=
  .seq (litsS "\x7b\x7b")
    (.seq (.group 1 (rplus (.cls .notRbrace) false)) (litsS "\x7d\x7d"))

/-- Replace `{{ … }}` by local `__TWIG_EXPR_k__` markers, collecting the
trimmed expressions (mixed-attribute branch, lines 303-311). -/
def twigExprCb (o : Str) (_i : Nat) (_m : Str) (caps : Caps) (exprs : List Str) :
    Str × List Str :=
  (S "__TWIG_EXPR_" ++ natStr exprs.length ++ S "__",
   exprs ++ [trimJS (capStr o caps 1)])

/-- The callback shared by every first-pass pattern (lines 296-341). -/
def alpineCb (o : Str) (_i : Nat) (_m : Str) (caps : Caps) (st : PipeState) :
    Str × PipeState :=
  let attrName := capStr o caps 1
  let attrValue := capStr o caps 2
  if hasSubstr attrValue (S "\x7b\x7b") && hasSubstr attrValue (S "\x7d\x7d") then
    let pv := runREPass reTwigExpr twigExprCb attrValue []
    let a1 := allocShared .mixedAttr st
    let a2 := allocShared .alpineMixedName a1.2
    let st2 := store (store a2.2 a1.1 (.mixedAttr attrName pv.1 pv.2 attrValue))
      a2.1 (.text attrName)
    (a2.1 ++ S "=\"" ++ a1.1 ++ S "\"", st2)
  else
    let a1 := allocShared .alpineAttr st
    let a2 := allocShared .alpinePureName a1.2
    let st2 := store (store a2.2 a1.1 (.alpineAttr attrName attrValue))
      a2.1 (.text attrName)
    (a2.1 ++ S "=\"" ++ a1.1 ++ S "\"", st2)

/-- `preprocessAlpineJSAttributes`: apply every pattern in order. -/
def preprocessAlpineJSAttributes (text : Str) (st : PipeState) : Str × PipeState :=
  alpinePatterns.foldl (fun acc re => runREPass re alpineCb acc.1 acc.2) (text, st)

/-! ### Second pass: v-pre isolation (lines 359-383) -/

/-- `<([a-zA-Z][a-zA-Z0-9-]*)([^>]*?\bv-pre\b[^>]*)>([\s\S]*?)<\/\1\s*>` with
the `i` flag. -/
def reVPre : RE :=
  .seq (.lit '<')
  (.seq (.group 1 (.seq (.cls .alphaChar) (.star (.cls .alnumDash) false)))
  (.seq (.group 2 (.seq (.star (.cls .notGt) true)
    (.seq .wordB (.seq (litsCI (S "v-pre"))
      (.seq .wordB (.star (.cls .notGt) false))))))
  (.seq (.lit '>')
  (.seq (.group 3 (.star (.cls .anyChar) true))
  (.seq (litsS "</") (.seq (.backref 1 true)
    (.seq (.star (.cls .spaceChar) false) (.lit '>'))))))))

/-- Store v-pre content as-is and put the placeholder between the tags. -/
def vPreCb (o : Str) (_i : Nat) (_m : Str) (caps : Caps) (st : PipeState) :
    Str × PipeState :=
  let elementName := capStr o caps 1
  let attributes := capStr o caps 2
  let content := capStr o caps 3
  let a := allocShared .vPreContent st
  (S "<" ++ elementName ++ attributes ++ S ">" ++ a.1 ++ S "</" ++ elementName ++ S ">",
   store a.2 a.1 (.text content))

/-! ### Entity protection: `preprocessUnicodeCharacters` (lines 86-112) -/

/-- `&#\d+;`. -/
def reEntityNum : RE :=
  .seq (.lit '&') (.seq (.lit '#') (.seq (rplus (.cls .digit) false) (.lit ';')))

/-- `&[a-zA-Z][a-zA-Z0-9]*;`. -/
def reEntityName : RE :=
  .seq (.lit '&') (.seq (.cls .alphaChar)
    (.seq (.star (.cls .alnumChar) false) (.lit ';')))

/-- Replace one entity occurrence by a fresh entity placeholder. -/
def entityCb (_o : Str) (_i : Nat) (m : Str) (_caps : Caps) (st : PipeState) :
    Str × PipeState :=
  let a := allocEntity st
  (a.1, store a.2 a.1 (.text m))

/-- `preprocessUnicodeCharacters`: numeric entities then named entities, with
a fresh local map and a counter starting at zero. -/
def preprocessUnicodeCharacters (text : Str) : Str × PipeState :=
  let r1 := runREPass reEntityNum entityCb text ⟨0, [], []⟩
  runREPass reEntityName entityCb r1.1 r1.2

/-! ### Fourth pass: script/style isolation (lines 395-458) -/

/-- `<(script|style)\b([^>]*)>([\s\S]*?)<\/\1>` with the `i` flag. -/
def reScriptStyle : RE :=
  .seq (.lit '<')
  (.seq (.group 1 (.alt (litsCI (S "script")) (litsCI (S "style"))))
  (.seq .wordB
  (.seq (.group 2 (.star (.cls .notGt) false))
  (.seq (.lit '>')
  (.seq (.group 3 (.star (.cls .anyChar) true))
  (.seq (litsS "</") (.seq (.backref 1 true) (.lit '>'))))))))

/-- `type\s*=\s*["']([^"']+)["']` with the `i` flag. -/
def reTypeAttr : RE :=
  .seq (litsCI (S "type"))
  (.seq (.star (.cls .spaceChar) false)
  (.seq (.lit '=')
  (.seq (.star (.cls .spaceChar) false)
  (.seq (.cls .quoteCls)
  (.seq (.group 1 (rplus (.cls .notQuoteCls) false)) (.cls .quoteCls))))))

/-- The script/style callback, parametric in the external sub-formatters
(`formatJavaScriptWithTwig` / `formatCSSWithTwig`, spec §6 collaborators:
`none` models a thrown exception, which the stage catches, keeping the
original content). -/
def scriptStyleCb (fmtJS fmtCSS : Str → Option Str) (o : Str) (_i : Nat)
    (_m : Str) (caps : Caps) (st : PipeState) : Str × PipeState :=
  let tagName := capStr o caps 1
  let attributes := capStr o caps 2
  let content := capStr o caps 3
  let isScript := toLowerStr tagName = S "script"
  let a := allocShared (if isScript then .scriptContent else .styleContent) st
  let rebuilt := S "<" ++ tagName ++ attributes ++ S ">" ++ a.1 ++ S "</" ++
    tagName ++ S ">"
  if trimJS content = [] then
    (rebuilt, store a.2 a.1 (.text content))
  else
    let formattedContent :=
      if isScript then
        let typeAttr := reSearch reTypeAttr attributes
        let scriptType :=
          match typeAttr with
          | some r => toLowerStr (capStr attributes r.2.2 1)
          | none => S "text/javascript"
        if scriptType = S "text/javascript" ∨ scriptType = S "application/javascript" ∨
           scriptType = S "module" ∨ typeAttr.isNone then
          match fmtJS (trimJS content) with
          | some f => f
          | none => content
        else content
      else
        match fmtCSS (trimJS content) with
        | some f => f
        | none => content
    (rebuilt, store a.2 a.1 (.text formattedContent))

/-! ### Attribute-value sub-parsers (lines 114-251) -/

/-- Quote/brace scanner state of `parseComplexAttributeValue`. -/
structure PcavSt where
  depth : Int
  inSingleQuote : Bool
  inDoubleQuote : Bool
  deriving DecidableEq, Repr

/-- Initial scanner state. -/
def pcavInit : PcavSt := ⟨0, false, false⟩

/-- One loop iteration of `parseComplexAttributeValue` (lines 121-144): the
quote toggles run first (the double-quote test reads the just-updated
single-quote flag, as in the source), then the brace depth is tracked only
outside quotes. -/
def pcavStep (st : PcavSt) (c : Char) : PcavSt :=
  let st1 := if c = '\'' && !st.inDoubleQuote then
    { st with inSingleQuote := !st.inSingleQuote } else st
  let st2 := if c = '"' && !st1.inSingleQuote then
    { st1 with inDoubleQuote := !st1.inDoubleQuote } else st1
  if !st2.inSingleQuote && !st2.inDoubleQuote then
    if c = '\x7b' then { st2 with depth := st2.depth + 1 }
    else if c = '\x7d' then { st2 with depth := st2.depth - 1 }
    else st2
  else st2

/-- The full loop, accumulating `value` (every character is copied). -/
def pcavLoop : PcavSt → Str → Str → Str × PcavSt
  | st, acc, [] => (acc, st)
  | st, acc, c :: rest => pcavLoop (pcavStep st c) (acc ++ [c]) rest

/-- Scanner state of `parseComplexAttributeValue` after its loop has
consumed the first `n` characters of `s`. -/
def pcavState (s : Str) (n : Nat) : PcavSt :=
  (pcavLoop pcavInit [] (s.take n)).2

/-- `parseComplexAttributeValue` (lines 114-147): runs the scanner over the
whole value and returns `value.trim()`. -/
def parseComplexAttributeValue (_attrName attrValue : Str) : Str :=
  trimJS (pcavLoop pcavInit [] attrValue).1

/-- The loop of `parseStyleAttribute` (lines 149-170); the `inProperty`
flag is tracked but never read back into the output. -/
def styleLoop : Bool → Str → Str → Str
  | _, acc, [] => acc
  | inProp, acc, c :: rest =>
      let inProp1 := if c = ':' then false else inProp
      let inProp2 := if c = ';' then true else inProp1
      styleLoop inProp2 (acc ++ [c]) rest

/-- `parseStyleAttribute`: scanner plus `value.trim()`. -/
def parseStyleAttribute (attrValue : Str) : Str :=
  trimJS (styleLoop true [] attrValue)

/-- The attribute list of `isAlpineAttribute` (lines 173-185). -/
def alpineAttrCheckList : List Str :=
  [S "x-data", S "x-show", S "x-if", S "x-for", S "x-on", S "x-bind",
   S "x-model", S "x-text", S "x-html", S "x-transition", S "x-cloak"]

/-- `isAlpineAttribute` (lines 172-190): the `@` check sits inside the
`some` lambda, exactly as in the source. -/
def isAlpineAttribute (attrName : Str) : Bool :=
  alpineAttrCheckList.any (fun pfx =>
    strStarts attrName pfx || strStarts attrName (S "@"))

/-- Parts of a mixed static/Twig attribute value. -/
inductive MixedPart where
  | staticText (value : Str)
  | twigExpression (expression : Str)
  deriving DecidableEq, Repr

/-- Loop of `parseMixedAttributeContent` (lines 206-237). -/
def mixedGo : Nat → List MixedPart → Str → Bool → Str →
    List MixedPart × Str × Bool
  | 0, parts, cur, inT, _ => (parts, cur, inT)
  | fuel + 1, parts, cur, inT, s =>
      if substrAt s 0 (S "\x7b\x7b") then
        mixedGo fuel (if cur ≠ [] then parts ++ [.staticText cur] else parts)
          [] true (s.drop 2)
      else if substrAt s 0 (S "\x7d\x7d") && inT then
        mixedGo fuel
          (if cur ≠ [] then parts ++ [.twigExpression (trimJS cur)] else parts)
          [] false (s.drop 2)
      else
        match s with
        | [] => (parts, cur, inT)
        | c :: rest => mixedGo fuel parts (cur ++ [c]) inT rest

/-- `parseMixedAttributeContent` (lines 200-251). -/
def parseMixedAttributeContent (attrValue : Str) : List MixedPart :=
  let r := mixedGo (attrValue.length + 1) [] [] false attrValue
  if r.2.1 ≠ [] then
    r.1 ++ [if r.2.2 then MixedPart.twigExpression (trimJS r.2.1)
            else MixedPart.staticText r.2.1]
  else r.1

/-- Result of `parseDataAttribute`. -/
inductive DataAttrRes where
  | mixed (parts : List MixedPart)
  | static (name value : Str)
  deriving DecidableEq, Repr

/-- `parseDataAttribute` (lines 192-198). -/
def parseDataAttribute (attrName attrValue : Str) : DataAttrRes :=
  if hasSubstr attrValue (S "\x7b\x7b") && hasSubstr attrValue (S "\x7d\x7d") then
    .mixed (parseMixedAttributeContent attrValue)
  else .static attrName attrValue

/-! ### Fifth pass: in-tag Twig blocks and attribute values (lines 459-667) -/

/-- The else-if quote tracking of the block scanners (lines 495-501). -/
def quoteStep (inQ : Bool) (qc : Option Char) (c : Char) : Bool × Option Char :=
  if (c = '"' || c = '\'') && !inQ then (true, some c)
  else if some c = qc && inQ then (false, none)
  else (inQ, qc)

/-- A block found by one of the in-tag scanners. -/
structure Block where
  start : Nat
  stop : Nat
  content : Str
  deriving DecidableEq, Repr

/-- Search for the closing `#}` (lines 509-518; the bound is
`length - 1`). -/
def findHashClose (c : Str) : Nat → Nat → Option Nat
  | 0, _ => none
  | fuel + 1, searchPos =>
      if searchPos < c.length - 1 then
        if substrAt c searchPos (S "#\x7d") then some (searchPos + 2)
        else findHashClose c fuel (searchPos + 1)
      else none

/-- The comment-block scanner (lines 487-533). -/
def commentBlocksGo (c : Str) : Nat → Nat → Bool → Option Char → List Block
  | 0, _, _, _ => []
  | fuel + 1, pos, inQ, qc =>
      if pos < c.length then
        let q := quoteStep inQ qc (c.getD pos ' ')
        if !q.1 && substrAt c pos (S "\x7b#") then
          match findHashClose c (c.length + 1) (pos + 2) with
          | some blockEnd =>
              ⟨pos, blockEnd, seg c pos blockEnd⟩ ::
                commentBlocksGo c fuel blockEnd q.1 q.2
          | none => commentBlocksGo c fuel (pos + 1) q.1 q.2
        else commentBlocksGo c fuel (pos + 1) q.1 q.2
      else []

/-- Search for the matching `{% endif %}` tracking nesting
(lines 569-595). -/
def findEndifGo (c : Str) : Nat → Nat → Nat → Option Nat
  | 0, _, _ => none
  | fuel + 1, searchPos, ifCount =>
      if searchPos < c.length ∧ ifCount > 0 then
        if substrAt c searchPos (S "\x7b% if ") then
          findEndifGo c fuel (searchPos + 6) (ifCount + 1)
        else if substrAt c searchPos (S "\x7b% endif %\x7d") then
          if ifCount = 1 then some (searchPos + 11)
          else findEndifGo c fuel (searchPos + 11) (ifCount - 1)
        else findEndifGo c fuel (searchPos + 1) ifCount
      else none

/-- The conditional-block scanner (lines 548-610). -/
def ifBlocksGo (c : Str) : Nat → Nat → Bool → Option Char → List Block
  | 0, _, _, _ => []
  | fuel + 1, pos, inQ, qc =>
      if pos < c.length then
        let q := quoteStep inQ qc (c.getD pos ' ')
        if !q.1 && substrAt c pos (S "\x7b% if ") then
          match findEndifGo c (c.length + 1) (pos + 6) 1 with
          | some blockEnd =>
              ⟨pos, blockEnd, seg c pos blockEnd⟩ ::
                ifBlocksGo c fuel blockEnd q.1 q.2
          | none => ifBlocksGo c fuel (pos + 1) q.1 q.2
        else ifBlocksGo c fuel (pos + 1) q.1 q.2
      else []

/-- Replace the found blocks right-to-left by `id="1"` attributes
(lines 536-543 and 613-620). -/
def spliceBlocks (kind : SharedKind) (blocks : List Block) (c : Str)
    (st : PipeState) : Str × PipeState :=
  blocks.reverse.foldl
    (fun (acc : Str × PipeState) b =>
      let a := allocShared kind acc.2
      (acc.1.take b.start ++ a.1 ++ S "=\"1\"" ++ acc.1.drop b.stop,
       store a.2 a.1 (.text b.content)))
    (c, st)

/-- `\w+(?::[^=\s]*|@[^=\s]*)?|style|x-[^=\s]*|v-[^=\s]*` — the attribute
name part of the fifth-pass value pattern (line 626). -/
def reEAttrName : RE :=
  .alt (.seq (rplus (.cls .wordChar) false)
          (ropt (.alt (.seq (.lit ':') (.star (.cls .notEqSpace) false))
                      (.seq (.lit '@') (.star (.cls .notEqSpace) false)))))
  (.alt (litsS "style")
  (.alt (.seq (litsS "x-") (.star (.cls .notEqSpace) false))
        (.seq (litsS "v-") (.star (.cls .notEqSpace) false))))

/-- `[^"]*(?:\{\{[\s\S]*?\}\}|\{%[\s\S]*?%\}|\{#[\s\S]*?#\}|[;:|&=><(){}[\]]+)[^"]*`
— the value part. -/
def reEAttrVal : RE :=
  .seq (.star (.cls .notDq) false)
  (.seq (.alt (.seq (litsS "\x7b\x7b") (.seq (.star (.cls .anyChar) true) (litsS "\x7d\x7d")))
        (.alt (.seq (litsS "\x7b%") (.seq (.star (.cls .anyChar) true) (litsS "%\x7d")))
        (.alt (.seq (litsS "\x7b#") (.seq (.star (.cls .anyChar) true) (litsS "#\x7d")))
              (rplus (.cls .symRun) false))))
        (.star (.cls .notDq) false))

/-- The whole fifth-pass attribute-value pattern. -/
def reEAttr : RE :=
  .seq (.group 1 reEAttrName)
  (.seq (.lit '=') (.seq (.lit '"') (.seq (.group 2 reEAttrVal) (.lit '"'))))

/-- The attribute-value callback of the fifth pass (lines 627-662). -/
def eAttrCb (o : Str) (_i : Nat) (_m : Str) (caps : Caps) (st : PipeState) :
    Str × PipeState :=
  let attrName := capStr o caps 1
  let attrValue := capStr o caps 2
  let parsedValue :=
    if attrName = S "style" then parseStyleAttribute attrValue
    else if isAlpineAttribute attrName || strStarts attrName (S "@") ||
        strStarts attrName (S ":") then
      parseComplexAttributeValue attrName attrValue
    else if strStarts attrName (S "data-") &&
        (hasSubstr attrValue (S "\x7b\x7b") || hasSubstr attrValue (S "\x7b%")) then
      match parseDataAttribute attrName attrValue with
      | .mixed _ => attrValue
      | .static _ v => v
    else attrValue
  let a := allocShared .twigAttrValue st
  (attrName ++ S "=\"" ++ a.1 ++ S "\"", store a.2 a.1 (.text parsedValue))

/-- `<([^<>]*?)>` — the fifth-pass element pattern (line 463). -/
def reElementTag : RE :=
  .seq (.lit '<') (.seq (.group 1 (.star (.cls .notLtGt) true)) (.lit '>'))

/-- The fifth-pass element callback (lines 464-666). -/
def elementCb (o : Str) (i : Nat) (m : Str) (caps : Caps) (st : PipeState) :
    Str × PipeState :=
  let elementContent := capStr o caps 1
  let beforeElement := o.take i
  if lastOccSub beforeElement (S "\x7b#") > lastOccSub beforeElement (S "#\x7d") then
    (m, st)
  else if !(hasSubstr elementContent (S "\x7b%")) &&
      !(hasSubstr elementContent (S "\x7b#")) then (m, st)
  else
    let blocks := commentBlocksGo elementContent (elementContent.length + 1) 0 false none
    let r1 := spliceBlocks .twigComment blocks elementContent st
    let ifs := ifBlocksGo r1.1 (r1.1.length + 1) 0 false none
    let r2 := spliceBlocks .twigConditional ifs r1.1 r1.2
    let r3 := runREPass reEAttr eAttrCb r2.1 r2.2
    (S "<" ++ r3.1 ++ S ">", r3.2)

/-! ### Sixth pass: directive-name isolation (lines 669-762) -/

/-- `(?=\s*=|\s|>)` — the lookahead shared by the sixth-pass patterns. -/
def reLookAttr : RE :=
  .look false (.alt (.seq (.star (.cls .spaceChar) false) (.lit '='))
                    (.alt (.cls .spaceChar) (.lit '>')))

/-- Pattern 0: `\b(v-on:[a-zA-Z][a-zA-Z0-9-]*(?:\.[a-zA-Z][a-zA-Z0-9.-]*)*)`. -/
def reVOnMods : RE :=
  .seq .wordB (.seq (.group 1 (.seq (litsS "v-on:") (.seq (.cls .alphaChar)
    (.seq (.star (.cls .alnumDash) false) (.star reDotMod false))))) reLookAttr)

/-- Pattern 1: `\b(v-bind:[a-zA-Z][a-zA-Z0-9-]*)`. -/
def reVBindName : RE :=
  .seq .wordB (.seq (.group 1 (.seq (litsS "v-bind:")
    (.seq (.cls .alphaChar) (.star (.cls .alnumDash) false)))) reLookAttr)

/-- The directive names of pattern 2 (in source order; `v-pre` is
deliberately absent). -/
def vDirectiveNames : List Str :=
  [S "if", S "else-if", S "else", S "for", S "show", S "model", S "text",
   S "html", S "cloak", S "once", S "memo", S "slot", S "key", S "ref",
   S "is", S "bind"]

/-- Pattern 2: `\b(v-(?:if|…|bind)(?:\.[a-zA-Z][a-zA-Z0-9.-]*)?)`. -/
def reVStdName : RE :=
  .seq .wordB (.seq (.group 1 (.seq (litsS "v-")
    (.seq (altList (vDirectiveNames.map lits)) (ropt reDotMod)))) reLookAttr)

/-- Pattern 3: `\b(x-on:[a-zA-Z][a-zA-Z0-9-]*\.[a-zA-Z][a-zA-Z0-9.-]*)`. -/
def reXOnMods : RE :=
  .seq .wordB (.seq (.group 1 (.seq (litsS "x-on:") (.seq (.cls .alphaChar)
    (.seq (.star (.cls .alnumDash) false) reDotMod)))) reLookAttr)

/-- Pattern 4: `\b(x-[a-zA-Z][a-zA-Z0-9-]*\.[a-zA-Z][a-zA-Z0-9.-]*)`. -/
def reXDotted : RE :=
  .seq .wordB (.seq (.group 1 (.seq (litsS "x-") (.seq (.cls .alphaChar)
    (.seq (.star (.cls .alnumDash) false) reDotMod)))) reLookAttr)

/-- Pattern 5: `@([a-zA-Z][a-zA-Z0-9-]*(?:\.[a-zA-Z][a-zA-Z0-9-]*)*)`. -/
def reAtName : RE :=
  .seq (.lit '@') (.seq (.group 1 (.seq (.cls .alphaChar)
    (.seq (.star (.cls .alnumDash) false)
      (.star (.seq (.lit '.') (.seq (.cls .alphaChar)
        (.star (.cls .alnumDash) false))) false)))) reLookAttr)

/-- Pattern 6: `(?<=\s|<):([a-zA-Z][a-zA-Z0-9-]*)`. -/
def reColonName : RE :=
  .seq (.behindCls .spaceOrLt) (.seq (.lit ':') (.seq (.group 1
    (.seq (.cls .alphaChar) (.star (.cls .alnumDash) false))) reLookAttr))

/-- The seven sixth-pass patterns in source order. -/
def sixthPassPatterns : List RE :=
  [reVOnMods, reVBindName, reVStdName, reXOnMods, reXDotted, reAtName,
   reColonName]

/-- The comment test of the sixth-pass callback (lines 696-708). -/
def insideCommentRegion (beforeMatch : Str) : Bool :=
  lastOccSub beforeMatch (S "<!--") > lastOccSub beforeMatch (S "-->") ||
  lastOccSub beforeMatch (S "\x7b#") > lastOccSub beforeMatch (S "#\x7d")

/-- `/^\s*=\s*"(alpine-attr-|mixed-attr-)/` applied to the text after the
match (lines 712-720). -/
def alpineProcessedAhead (afterMatch : Str) : Bool :=
  match afterMatch.dropWhile isSpaceJS with
  | '=' :: t2 =>
      match t2.dropWhile isSpaceJS with
      | '"' :: t4 => strStarts t4 (S "alpine-attr-") || strStarts t4 (S "mixed-attr-")
      | _ => false
  | _ => false

/-- The reserved namespace words of the lookback test (lines 747-748). -/
def xmlNamespaceWords : List Str :=
  [S "xmlns", S "xml", S "xlink", S "svg", S "xsi", S "rdf", S "rdfs",
   S "dc", S "xs", S "xsd"]

/-- `/\b(xmlns|xml|xlink|svg|xsi|rdf|rdfs|dc|xs|xsd)$/i.test(t)`. -/
def xmlnsLookback (t : Str) : Bool :=
  xmlNamespaceWords.any (fun w =>
    decide (w.length ≤ t.length) &&
    decide (toLowerStr (t.drop (t.length - w.length)) = w) &&
    (decide (t.length = w.length) ||
     !isWordC (t.getD (t.length - w.length - 1) ' ')))

/-- The sixth-pass callback for pattern `idx` (lines 693-760). -/
def sixthCb (idx : Nat) (o : Str) (i : Nat) (m : Str) (caps : Caps)
    (st : PipeState) : Str × PipeState :=
  if insideCommentRegion (o.take i) then (m, st)
  else if alpineProcessedAhead (o.drop (i + m.length)) then (m, st)
  else
    let captured := capStr o caps 1
    if idx = 6 && xmlnsLookback (seg o (i - 10) i) then (m, st)
    else
      let fullAttributeName :=
        if idx = 5 then S "@" ++ captured
        else if idx = 6 then S ":" ++ captured
        else captured
      let a := allocShared .vueAlpineName st
      (a.1, store a.2 a.1 (.text fullAttributeName))

/-- The sixth pass: each pattern applied in order. -/
def sixthPass (text : Str) (st : PipeState) : Str × PipeState :=
  sixthPassPatterns.enum.foldl
    (fun acc p => runREPass p.2 (sixthCb p.1) acc.1 acc.2) (text, st)

/-! ### Seventh pass: directive-value re-isolation (lines 764-804) -/

/-- `(data-vue-alpine-\d+)=(["'])([^]*?)\2`. -/
def reVueAlpineAttr : RE :=
  .seq (.group 1 (.seq (litsS "data-vue-alpine-") (rplus (.cls .digit) false)))
  (.seq (.lit '=')
  (.seq (.group 2 (.cls .quoteCls))
  (.seq (.group 3 (.star (.cls .anyChar) true)) (.backref 2 false))))

/-- `/^twig-attr-value-\d+$/.test(value)`. -/
def isTwigAttrValueId (v : Str) : Bool :=
  strStarts v (S "twig-attr-value-") &&
  decide ((v.drop 16).length > 0) && (v.drop 16).all isDigitC

/-- The seventh-pass callback with its smart quote selection
(lines 769-803). -/
def seventhCb (o : Str) (_i : Nat) (m : Str) (caps : Caps) (st : PipeState) :
    Str × PipeState :=
  let attrName := capStr o caps 1
  let quote := (capStr o caps 2).getD 0 '"'
  let value := capStr o caps 3
  if isTwigAttrValueId value then (m, st)
  else
    let a := allocShared .vueAlpineValue st
    let fq1 : Char := '"'
    let fq2 := if quote = '\'' && hasChar value '"' && !hasChar value '\'' then
      '\'' else fq1
    let finalQuote := if quote = '"' && hasChar value '\'' && !hasChar value '"' then
      '"' else fq2
    (attrName ++ S "=" ++ [finalQuote] ++ a.1 ++ [finalQuote],
     store a.2 a.1 (.quoted value finalQuote))

/-! ### Vue template expressions (lines 806-821) -/

/-- `normalizeJavaScriptWhitespace` scanner state (lines 14-17). -/
structure NjwSt where
  result : Str
  inString : Bool
  stringChar : Option Char
  escaped : Bool
  deriving DecidableEq, Repr

/-- Initial scanner state. -/
def njwInit : NjwSt := ⟨[], false, none, false⟩

/-- One iteration of the `normalizeJavaScriptWhitespace` loop
(lines 19-69); `next` is the lookahead character. -/
def njwStep (st : NjwSt) (c : Char) (next : Option Char) : NjwSt :=
  if st.escaped then { st with result := st.result ++ [c], escaped := false }
  else if c = '\\' then { st with result := st.result ++ [c], escaped := true }
  else if !st.inString && (c = '"' || c = '\'') then
    { st with inString := true, stringChar := some c, result := st.result ++ [c] }
  else if st.inString && some c = st.stringChar then
    { st with inString := false, stringChar := none, result := st.result ++ [c] }
  else if st.inString then { st with result := st.result ++ [c] }
  else if isSpaceJS c then
    if st.result ≠ [] && st.result.getLast? ≠ some ' ' &&
        next.isSome && !(isSpaceJS (next.getD ' ')) then
      { st with result := st.result ++ [' '] }
    else st
  else { st with result := st.result ++ [c] }

/-- Fold of the loop over the expression. -/
def njwGo : NjwSt → Str → NjwSt
  | st, [] => st
  | st, c :: rest => njwGo (njwStep st c rest.head?) rest

/-- `normalizeJavaScriptWhitespace` (lines 13-72). -/
def normalizeJavaScriptWhitespace (expression : Str) : Str :=
  trimJS (njwGo njwInit expression).result

/-- Scanner state after the first `n` characters.  The string/escape flags
do not depend on the lookahead, so the prefix fold gives the true state at
that point of the full run. -/
def njwState (s : Str) (n : Nat) : NjwSt := njwGo njwInit (s.take n)

/-- `\$\{([^}]*)\}` (line 808). -/
def reVueExpression : RE :=
  .seq (.lit '$') (.seq (.lit '\x7b')
    (.seq (.group 1 (.star (.cls .notRbrace) false)) (.lit '\x7d')))

/-- The Vue-expression callback (lines 810-820). -/
def vueExprCb (o : Str) (_i : Nat) (_m : Str) (caps : Caps) (st : PipeState) :
    Str × PipeState :=
  let expression := capStr o caps 1
  let a := allocShared .vueExpression st
  (a.1, store a.2 a.1
    (.text (S "$\x7b" ++ normalizeJavaScriptWhitespace expression ++ S "\x7d")))

/-! ### Eighth pass: single-quote conversion (lines 823-840) -/

/-- `(\s+)([\w-]+)='([^']*?)'`. -/
def reSingleQuoted : RE :=
  .seq (.group 1 (rplus (.cls .spaceChar) false))
  (.seq (.group 2 (rplus (.cls .wordDash) false))
  (.seq (.lit '=') (.seq (.lit '\'')
  (.seq (.group 3 (.star (.cls .notSq) true)) (.lit '\'')))))

/-- The eighth-pass callback (lines 828-839). -/
def eighthCb (o : Str) (_i : Nat) (m : Str) (caps : Caps) (st : PipeState) :
    Str × PipeState :=
  let whitespace := capStr o caps 1
  let attrName := capStr o caps 2
  let attrValue := capStr o caps 3
  if hasChar attrValue '"' || hasChar attrValue '\x7b' || hasChar attrValue '\x7d' then
    (m, st)
  else
    (whitespace ++ attrName ++ S "=\"" ++ attrValue ++ S "\"", st)

/-! ### The assembled `preprocessVueAlpineAttributes` (lines 346-843) -/

/-- Initial pipeline state. -/
def initPipe : PipeState := ⟨0, [], []⟩

/-- `preprocessVueAlpineAttributes`, parametric in the two external
sub-formatters. -/
def preprocessVueAlpineAttributes (fmtJS fmtCSS : Str → Option Str)
    (text : Str) : Str × PipeState :=
  let r1 := preprocessAlpineJSAttributes text initPipe
  let r2 := runREPass reVPre vPreCb r1.1 r1.2
  let ent := preprocessUnicodeCharacters r2.1
  let stMerged : PipeState :=
    { ctr := r2.2.ctr,
      entries := ent.2.entries.foldl (fun es kv => mapSet es kv.1 kv.2) r2.2.entries,
      log := r2.2.log ++ ent.2.log }
  let r4 := runREPass reScriptStyle (scriptStyleCb fmtJS fmtCSS) ent.1 stMerged
  let r5 := runREPass reElementTag elementCb r4.1 r4.2
  let r6 := sixthPass r5.1 r5.2
  let r7 := runREPass reVueAlpineAttr seventhCb r6.1 r6.2
  let r8 := runREPass reVueExpression vueExprCb r7.1 r7.2
  runREPass reSingleQuoted eighthCb r8.1 r8.2

/-! ### `preprocessTwigArrowFunctions` (lines 845-875) -/

/-- `[^()]*(?:\([^)]*\)[^()]*)*` — one-level balanced chunk. -/
def reParenChunk : RE :=
  .seq (.star (.cls .notParen) false)
       (.star (.seq (.lit '(') (.seq (.star (.cls .notCloseParen) false)
          (.seq (.lit ')') (.star (.cls .notParen) false)))) false)

/-- `(\|\s*\w+\s*\()([^()]*(?:\([^)]*\)[^()]*)*=>[^()]*(?:\([^)]*\)[^()]*)*)\)`. -/
def reArrowInFilter : RE :=
  .seq (.group 1 (.seq (.lit '|') (.seq (.star (.cls .spaceChar) false)
        (.seq (rplus (.cls .wordChar) false)
          (.seq (.star (.cls .spaceChar) false) (.lit '('))))))
  (.seq (.group 2 (.seq reParenChunk (.seq (litsS "=>") reParenChunk)))
        (.lit ')'))

/-- First arrow callback (lines 856-861). -/
def arrowFilterCb (o : Str) (_i : Nat) (_m : Str) (caps : Caps)
    (st : PipeState) : Str × PipeState :=
  let a := allocArrow st
  (capStr o caps 1 ++ a.1 ++ S ")",
   store a.2 a.1 (.text (trimJS (capStr o caps 2))))

/-- `(\w+\s*=>\s*[^%}|,)]+?)(?=\s*[|),}]|$)`. -/
def reArrowSimple : RE :=
  .seq (.group 1 (.seq (rplus (.cls .wordChar) false)
        (.seq (.star (.cls .spaceChar) false)
        (.seq (litsS "=>")
        (.seq (.star (.cls .spaceChar) false) (rplus (.cls .notArrowStop) true))))))
  (.look false (.alt (.seq (.star (.cls .spaceChar) false) (.cls .pipeStop)) .eosA))

/-- Second arrow callback (lines 866-871). -/
def arrowSimpleCb (_o : Str) (_i : Nat) (m : Str) (_caps : Caps)
    (st : PipeState) : Str × PipeState :=
  let a := allocArrow st
  (a.1, store a.2 a.1 (.text (trimJS m)))

/-- `preprocessTwigArrowFunctions`, with its own map and counter. -/
def preprocessTwigArrowFunctions (text : Str) : Str × PipeState :=
  let r1 := runREPass reArrowInFilter arrowFilterCb text initPipe
  runREPass reArrowSimple arrowSimpleCb r1.1 r1.2

/-! ### The whole protect pipeline (`parse`, lines 947-988) -/

/-- Both preprocessors plus the merge of their maps into the combined
replacement map attached to the AST; also returns the concatenated
allocation logs.  Melody parsing itself is an external collaborator. -/
def protectPipeline (fmtJS fmtCSS : Str → Option Str) (text : Str) :
    Str × List (Str × Payload) × List GenId :=
  let v := preprocessVueAlpineAttributes fmtJS fmtCSS text
  let a := preprocessTwigArrowFunctions v.1
  let combined := a.2.entries.foldl (fun es kv => mapSet es kv.1 kv.2)
      (v.2.entries.foldl (fun es kv => mapSet es kv.1 kv.2) [])
  (a.1, combined, v.2.log ++ a.2.log)

/-- The identity sub-formatter (a collaborator that never throws and returns
its input unchanged). -/
def idFormatter : Str → Option Str := fun s => some s

/-- A sub-formatter that always throws. -/
def throwingFormatter : Str → Option Str := fun _ => none

/-! ### Restoration: `decodeHtmlEntities` and `printTextStatement`
(src/unnamed/part_001) -/

/-- `String.fromCharCode(n)`: a UTF-16 code unit.  (For surrogate values the
JS result is a lone surrogate, which `Char` cannot represent; no claim
evaluates the decoder there.) -/
def fromCharCode16 (n : Nat) : Char := Char.ofNat (n % 65536)

/-- The `&#(\d+);` decoding scan of `decodeHtmlEntities`. -/
def decodeGo : Nat → Str → Str
  | 0, s => s
  | _ + 1, [] => []
  | fuel + 1, c :: rest =>
      if c = '&' then
        match rest with
        | '#' :: r2 =>
            let ds := r2.takeWhile isDigitC
            if ds ≠ [] ∧ (r2.drop ds.length).head? = some ';' then
              fromCharCode16 (digitsVal ds) ::
                decodeGo fuel (r2.drop (ds.length + 1))
            else c :: decodeGo fuel rest
        | _ => c :: decodeGo fuel rest
      else c :: decodeGo fuel rest

/-- `decodeHtmlEntities` (part_001 lines 22-31). -/
def decodeHtmlEntities (text : Str) : Str := decodeGo text.length text

/-- The stored payload as the string the printer helpers read; a structured
payload in a string position is stringified by JS (`String(text || "")`). -/
def payloadRaw : Payload → Str
  | .text s => s
  | _ => S "[object Object]"

/-- Modelled from the spec: `isWhitespaceOnly` from the repo's util module
(not included under src/) — every character is whitespace. -/
def isWhitespaceOnly (s : Str) : Bool := s.all isSpaceJS

/-- `/&#\d+;/.test(s)`. -/
def hasNumEntity (s : Str) : Bool := (reSearch reEntityNum s).isSome

/-- What `printTextStatement` returns, constructor per return site: the
layout combinators (`indent`, `hardline`, `createTextGroups`) belong to the
black-box layout engine, so each constructor carries the text it wraps. -/
inductive TextOut where
  | vPreRaw (s : Str)     -- v-pre exact match: the stored content as-is
  | vueExprRaw (s : Str)  -- vue-expression exact match: the stored content
  | embedded (s : Str)    -- indent(concat([hardline, s, hardline]))
  | vueInline (s : Str)   -- concat([replacedString.trim()])
  | newlinesOut (s : Str) -- newlinesOnly(s)
  | grouped (s : Str)     -- join(hardlines, createTextGroups(s, …))
  deriving DecidableEq, Repr

/-- `printTextStatement` (part_001 lines 33-187).  `value` is the raw node
string, `newlinesOnlyFlag` the `NEWLINES_ONLY` annotation. -/
def printTextStatement (value : Str) (entries : List (Str × Payload))
    (newlinesOnlyFlag : Bool) : TextOut :=
  let rawString := if value.head? = some '"' ∧ value.getLast? = some '"' then
      (value.drop 1).dropLast else value
  let t := trimJS rawString
  if mapHas entries t && !(strStarts t (S "__HTML_ENTITY_")) then
    let originalContent := payloadRaw ((mapGet entries t).getD (.text []))
    if strStarts t (S "v-pre-content-") then .vPreRaw originalContent
    else if strStarts t (S "vue-expression-") then .vueExprRaw originalContent
    else .embedded (trimJS (decodeHtmlEntities originalContent))
  else
    let fold := entries.foldl (fun (acc : Str × Bool) kv =>
      if hasSubstr acc.1 kv.1 then
        if strStarts kv.1 (S "v-pre-content-") then
          (replaceFirst acc.1 kv.1 (payloadRaw kv.2), true)
        else if strStarts kv.1 (S "vue-expression-") then
          (replaceFirst acc.1 kv.1 (payloadRaw kv.2), true)
        else if !(strStarts kv.1 (S "__HTML_ENTITY_")) then
          (replaceFirst acc.1 kv.1 (decodeHtmlEntities (payloadRaw kv.2)), true)
        else acc
      else acc) (rawString, false)
    if fold.2 then
      let containsVue := entries.any (fun kv =>
        strStarts kv.1 (S "vue-expression-") && hasSubstr rawString kv.1)
      if containsVue then .vueInline (trimJS fold.1)
      else if isWhitespaceOnly fold.1 && newlinesOnlyFlag then .newlinesOut fold.1
      else .grouped fold.1
    else if isWhitespaceOnly rawString && newlinesOnlyFlag then
      .newlinesOut rawString
    else
      let entFold := entries.foldl (fun (acc : Str × Bool) kv =>
        if strStarts kv.1 (S "__HTML_ENTITY_") then
          if hasSubstr acc.1 kv.1 then
            (replaceAllSub acc.1 kv.1 (payloadRaw kv.2), true)
          else acc
        else acc) (rawString, false)
      let decodedString := if !entFold.2 && hasNumEntity entFold.1 then
          decodeHtmlEntities entFold.1 else entFold.1
      .grouped decodedString

/-! ### Restoration: `printAttribute` (src/unnamed/part_003) -/

/-- `mayCorrectWhitespace` (part_003 lines 11-12). -/
def mayCorrectWhitespace (attrName : Str) : Bool :=
  attrName = S "id" || attrName = S "type" || attrName = S "class"

/-- `s.replace(/\s+/g, " ")`. -/
def collapseWs : Nat → Str → Str
  | 0, s => s
  | _ + 1, [] => []
  | fuel + 1, c :: rest =>
      if isSpaceJS c then ' ' :: collapseWs fuel (rest.dropWhile isSpaceJS)
      else c :: collapseWs fuel rest

/-- `sanitizeWhitespace` (part_003 line 14). -/
def sanitizeWhitespace (s : Str) : Str := trimJS (collapseWs s.length s)

/-- The 29 literal entity restorations of the data-vue-alpine branch
(part_003 lines 244-273), applied in source order. -/
def entityPairs : List (Str × Str) :=
  [(S "&amp;", S "&"), (S "&quot;", S "\""), (S "&#39;", S "'"),
   (S "&#33;", S "!"), (S "&#61;", S "="), (S "&lt;", S "<"),
   (S "&gt;", S ">"), (S "&#123;", S "\x7b"), (S "&#125;", S "\x7d"),
   (S "&#40;", S "("), (S "&#41;", S ")"), (S "&#91;", S "["),
   (S "&#93;", S "]"), (S "&#43;", S "+"), (S "&#45;", S "-"),
   (S "&#42;", S "*"), (S "&#47;", S "/"), (S "&#37;", S "%"),
   (S "&#63;", S "?"), (S "&#58;", S ":"), (S "&#59;", S ";"),
   (S "&#44;", S ","), (S "&#124;", S "|"), (S "&#36;", S "$"),
   (S "&#64;", S "@"), (S "&#35;", S "#"), (S "&#94;", S "^"),
   (S "&#126;", S "~"), (S "&#96;", S "`")]

/-- The chained `.replace(/…/g, …)` calls of that branch. -/
def restoreVueAlpineEntities (s : Str) : Str :=
  entityPairs.foldl (fun acc p => replaceAllSub acc p.1 p.2) s

/-- `storedData.value` when present (`quoted` payloads), else the payload
itself (a plain string stays itself; other object shapes have no `value`
and fall back to the object, which later stringifies). -/
def payloadValueField : Payload → Str
  | .text s => s
  | .quoted v _ => v
  | _ => S "[object Object]"

/-- `.originalValue` of a structured payload (`undefined` otherwise). -/
def payloadOriginalValue : Payload → Str
  | .mixedAttr _ _ _ ov => ov
  | .alpineAttr _ ov => ov
  | _ => S "undefined"

/-- The attribute value node, as far as `printAttribute` inspects it. -/
inductive ValNode where
  | stringLit (v : Str)
  | concatExpr (wasImplicit : Bool)
  | otherNode
  deriving DecidableEq, Repr

/-- An attribute node. -/
structure AttrNode where
  name : Str
  value : Option ValNode
  deriving DecidableEq, Repr

/-- What gets pushed for the value, constructor per push site of
`printAttribute`; `printedString` carries the (possibly mutated) string
handed to the string-literal printer plus the quote override flag. -/
inductive ValOut where
  | mixedRestored (s : Str)
  | alpineRestored (s : Str)
  | mapRestored (s : Str)
  | twigAttrRestored (s : Str)
  | printedString (v : Str) (overrideQ : Option Char)
  | printedConcat
  | printedOther
  | decodedRegular (s : Str)
  deriving DecidableEq, Repr

/-- The overall document of one attribute. -/
inductive AttrOut where
  | twigBlock (s : Str)
  | bare (name : Str)
  | withValue (name : Str) (openQ : Char) (val : ValOut) (closeQ : Char)
  deriving DecidableEq, Repr

/-- The value-branch chain of `printAttribute` (part_003 lines 122-292),
returning the pushed value doc and the final `quoteChar` (the branch for
data-vue-alpine attributes may reassign it). -/
def printAttrValue (attributeName : Str) (vstr : Str) (isStringValue : Bool)
    (quoteChar : Char) (entries : List (Str × Payload)) : ValOut × Char :=
  if isStringValue && strStarts vstr (S "mixed-attr-") then
    if mapHas entries vstr then
      match (mapGet entries vstr).getD (.text []) with
      | .mixedAttr _ processedValue twigExprs _ =>
          let restoredValue := twigExprs.enum.foldl (fun acc p =>
            replaceFirst acc (S "__TWIG_EXPR_" ++ natStr p.1 ++ S "__")
              (S "\x7b\x7b " ++ p.2 ++ S " \x7d\x7d")) processedValue
          (.mixedRestored (decodeHtmlEntities restoredValue), quoteChar)
      | p => (.mixedRestored (decodeHtmlEntities (payloadOriginalValue p)), quoteChar)
    else (.printedString vstr none, quoteChar)
  else if isStringValue && strStarts vstr (S "alpine-attr-") then
    if mapHas entries vstr then
      match (mapGet entries vstr).getD (.text []) with
      | .alpineAttr _ originalValue =>
          (.alpineRestored (decodeHtmlEntities originalValue), quoteChar)
      | _ => (.printedString vstr none, quoteChar)
    else (.printedString vstr none, quoteChar)
  else if isStringValue && mapHas entries vstr then
    (.mapRestored (decodeHtmlEntities
      (payloadValueField ((mapGet entries vstr).getD (.text [])))), quoteChar)
  else if isStringValue && strStarts vstr (S "twig-attr-value-") then
    if mapHas entries vstr then
      (.twigAttrRestored (decodeHtmlEntities
        (payloadValueField ((mapGet entries vstr).getD (.text [])))), quoteChar)
    else (.printedString vstr none, quoteChar)
  else if strStarts attributeName (S "data-vue-alpine-") && isStringValue then
    let stored := if strStarts vstr (S "vue-alpine-value-") then
        mapGet entries vstr else none
    let oqs := match stored with | some (.quoted _ _) => true | _ => false
    let q2 := match stored with | some (.quoted _ q) => q | _ => quoteChar
    let vstr2 := restoreVueAlpineEntities vstr
    (.printedString vstr2 (if oqs then some q2 else none), q2)
  else if isStringValue && hasNumEntity vstr then
    (.decodedRegular (decodeHtmlEntities vstr), quoteChar)
  else if isStringValue then (.printedString vstr none, quoteChar)
  else (.printedOther, quoteChar)

/-- The attribute-name resolution chain of `printAttribute` (part_003 lines
76-89): Alpine name placeholders first, then the general replacement
lookup. -/
def resolveAttrName (n0 : Str) (entries : List (Str × Payload)) : Str :=
  let n1 := if (strStarts n0 (S "data-alpine-pure-") ||
      strStarts n0 (S "data-alpine-mixed-")) && mapHas entries n0 then
      payloadRaw ((mapGet entries n0).getD (.text []))
    else n0
  if mapHas entries n1 then payloadRaw ((mapGet entries n1).getD (.text []))
  else n1

/-- The part of `printAttribute` after the name resolution (part_003 lines
91-297). -/
def printAttributeBody (attributeName : Str) (value : Option ValNode)
    (entries : List (Str × Payload)) : AttrOut :=
  match value with
  | none => .bare attributeName
  | some v =>
      let isStringValue := match v with | .stringLit _ => true | _ => false
      let vstr0 := match v with | .stringLit s => s | _ => []
      let quoteChar1 : Char := if isStringValue &&
          strStarts vstr0 (S "vue-alpine-value-") then
          match mapGet entries vstr0 with
          | some (.quoted _ q) => q
          | _ => '"'
        else '"'
      match v with
      | .concatExpr true => .withValue attributeName quoteChar1 .printedConcat quoteChar1
      | _ =>
          let vstr := if mayCorrectWhitespace attributeName && isStringValue then
              sanitizeWhitespace vstr0 else vstr0
          let r := printAttrValue attributeName vstr isStringValue quoteChar1 entries
          .withValue attributeName quoteChar1 r.1 r.2

/-- `printAttribute` (part_003 lines 53-298). -/
def printAttribute (node : AttrNode) (entries : List (Str × Payload)) : AttrOut :=
  if strStarts node.name (S "data-twig-conditional-") && mapHas entries node.name then
    .twigBlock (payloadRaw ((mapGet entries node.name).getD (.text [])))
  else if strStarts node.name (S "data-twig-comment-") && mapHas entries node.name then
    .twigBlock (payloadRaw ((mapGet entries node.name).getD (.text [])))
  else printAttributeBody (resolveAttrName node.name entries) node.value entries

/-! ### The spec-side quote-selection scan

The string-literal printer module is not included under src/; its
quote-selection scan is modelled from the spec (§4.4). -/

/-- Escape-aware scan for an unmasked occurrence of `q`. -/
def unmaskedScan (q : Char) : Bool → Str → Bool
  | _, [] => false
  | esc, c :: rest =>
      if esc then unmaskedScan q false rest
      else if c = '\\' then unmaskedScan q true rest
      else if c = q then true
      else unmaskedScan q false rest

/-- `s` contains a `q` not preceded by an escape character. -/
def hasUnmaskedQuote (q : Char) (s : Str) : Bool := unmaskedScan q false s

/-- Modelled from the spec: the quote-selection sub-algorithm of §4.4 (the
StringLiteral printer is absent from src/): an ancestor-forced quote wins;
else an unmasked single quote forces double quotes, an unmasked double quote
forces single quotes, and otherwise the caller's default applies. -/
def selectQuote (forced : Option Char) (defaultQ : Char) (s : Str) : Char :=
  match forced with
  | some q => q
  | none =>
      if hasUnmaskedQuote '\'' s then '"'
      else if hasUnmaskedQuote '"' s then '\''
      else defaultQ

/-! ## Claims -/

/-! ### Generic scan lemmas -/

theorem seg_append_drop (o : Str) (i j : Nat) (hij : i ≤ j) :
    seg o i j ++ o.drop j = o.drop i := by
  unfold seg
  have h1 : (o.drop i).drop (j - i) = o.drop j := by
    rw [List.drop_drop]
    congr 1
    omega
  conv_rhs => rw [← List.take_append_drop (j - i) (o.drop i)]
  rw [h1]

theorem getD_cons_drop (o : Str) (i : Nat) (h : i < o.length) :
    o.getD i ' ' :: o.drop (i + 1) = o.drop i := by
  rw [List.getD_eq_getElem o ' ' h]
  exact (List.drop_eq_getElem_cons h).symm

/-- If, at every position where the pattern matches, the callback returns the
matched text and leaves the state alone, the whole scan is the identity (this
also covers patterns that never match). -/
theorem runREPassGo_keep {σ : Type} (re : RE)
    (act : Str → Nat → Str → Caps → σ → Str × σ) (o : Str)
    (h : ∀ i j caps (st : σ), i < o.length → reFirst re o i = some (j, caps) →
         act o i (seg o i j) caps st = (seg o i j, st)) :
    ∀ fuel i (st : σ), o.length - i ≤ fuel →
      runREPassGo re act o fuel i st = (o.drop i, st) := by
  intro fuel
  induction fuel with
  | zero =>
      intro i st hf
      have : o.length ≤ i := by omega
      rw [runREPassGo, List.drop_eq_nil_of_le this]
  | succ fuel ih =>
      intro i st hf
      rw [runREPassGo]
      by_cases hi : i < o.length
      · rw [if_pos hi]
        rcases hm : reFirst re o i with _ | p
        · dsimp only
          rw [ih (i + 1) st (by omega), getD_cons_drop o i hi]
        · obtain ⟨j, caps⟩ := p
          dsimp only
          rw [h i j caps st hi hm]
          by_cases hij : i < j
          · rw [if_pos hij]
            dsimp only
            rw [ih j st (by omega)]
            exact congrArg (fun x => (x, st)) (seg_append_drop o i j (by omega))
          · rw [if_neg hij]
            dsimp only
            rw [ih (i + 1) st (by omega)]
            have hseg : seg o i j = [] := by
              unfold seg
              have h0 : j - i = 0 := by omega
              rw [h0, List.take_zero]
            rw [hseg]
            simp only [List.nil_append, List.singleton_append]
            rw [getD_cons_drop o i hi]
      · rw [if_neg hi, List.drop_eq_nil_of_le (by omega)]

/-- Top-level form of the keep lemma. -/
theorem runREPass_keep {σ : Type} (re : RE)
    (act : Str → Nat → Str → Caps → σ → Str × σ) (o : Str) (st : σ)
    (h : ∀ i j caps (st : σ), i < o.length → reFirst re o i = some (j, caps) →
         act o i (seg o i j) caps st = (seg o i j, st)) :
    runREPass re act o st = (o, st) := by
  unfold runREPass
  rw [runREPassGo_keep re act o h (o.length + 1) 0 st (by omega)]
  rw [List.drop_zero]

/-! ### C4: quote state and escape characters -/

/-- C4 counterexample: in `parseComplexAttributeValue` — the quote/brace
scanner that gates the directive-value rewrites — the input `\'` has its
quote character at index 1 immediately preceded by the escape character at
index 0, yet the scanner's in-quote state changes there: the scanner has no
escape handling at all, contradicting the claim as stated. -/
theorem c4_pcav_escaped_quote_flips :
    (S "\\'").get? 0 = some '\\' ∧ (S "\\'").get? 1 = some '\'' ∧
    (pcavState (S "\\'") 2).inSingleQuote ≠ (pcavState (S "\\'") 1).inSingleQuote := by
  decide

/-- C4 (amended): in the string-literal-aware scanner of
`normalizeJavaScriptWhitespace`, a quote character read immediately after an
effective (unescaped) escape character leaves the in-string state and the
current string character unchanged, from every reachable scanner state and
for every lookahead. -/
theorem c4_njw_escaped_quote_no_flip (st : NjwSt) (q : Char) (n1 n2 : Option Char)
    (hq : q = '"' ∨ q = '\'') (hesc : st.escaped = false) :
    (njwStep (njwStep st '\\' n1) q n2).inString = st.inString ∧
    (njwStep (njwStep st '\\' n1) q n2).stringChar = st.stringChar := by
  simp [njwStep, hesc]

/-- C4 witness: the amended theorem applied at the initial scanner state
and a double quote. -/
theorem c4_njw_escaped_quote_no_flip_witness :
    njwInit.escaped = false ∧
    (njwStep (njwStep njwInit '\\' none) '"' none).inString = njwInit.inString :=
  ⟨by decide, (c4_njw_escaped_quote_no_flip njwInit '"' none none (Or.inl rfl) (by decide)).1⟩

/-! ### C10: opening and closing quotes of a printed attribute agree -/

/-- The second component of `printAttrValue` equals the incoming quote
character whenever the stored-quote lookup would reproduce it. -/
theorem printAttrValue_snd (an vstr : Str) (isv : Bool) (qc : Char)
    (es : List (Str × Payload))
    (hq : strStarts an (S "data-vue-alpine-") = true → isv = true →
          (match (if strStarts vstr (S "vue-alpine-value-") = true then
              mapGet es vstr else none) with
           | some (.quoted _ q) => q
           | _ => qc) = qc) :
    (printAttrValue an vstr isv qc es).2 = qc := by
  unfold printAttrValue
  split_ifs with h1 h2 h3 h4 h5 h6 h7 h8 h9 <;> try rfl
  all_goals try (split <;> rfl)
  · rw [Bool.and_eq_true] at h8
    have hq' := hq h8.1 h8.2
    rw [if_pos h9] at hq'
    exact hq'

/-- A whitespace-corrected attribute name (`id`/`type`/`class`) is not a
directive-name placeholder. -/
theorem mayCorrect_not_dva (an : Str) (h : mayCorrectWhitespace an = true) :
    strStarts an (S "data-vue-alpine-") = false := by
  unfold mayCorrectWhitespace at h
  rcases Bool.or_eq_true_iff.mp h with h' | h'
  · rcases Bool.or_eq_true_iff.mp h' with h'' | h'' <;>
      · rw [show an = _ from by exact_mod_cast decide_eq_true_eq.mp h'']
        decide
  · rw [show an = _ from by exact_mod_cast decide_eq_true_eq.mp h']
    decide

/-- Quote agreement for the body of the attribute printer. -/
theorem printAttributeBody_quotes (an : Str) (value : Option ValNode)
    (es : List (Str × Payload)) (nm : Str) (q1 : Char) (vo : ValOut) (q2 : Char)
    (h : printAttributeBody an value es = .withValue nm q1 vo q2) : q1 = q2 := by
  unfold printAttributeBody at h
  rcases value with _ | v
  · simp at h
  · rcases v with vs | wic | _
    · simp only [] at h
      injection h with _ h1 _ h2
      subst h1; subst h2
      apply Eq.symm
      apply printAttrValue_snd
      intro hdva _
      by_cases hmc : mayCorrectWhitespace an = true
      · exact absurd hdva (by simp [mayCorrect_not_dva an hmc])
      · rw [Bool.not_eq_true] at hmc
        simp only [hmc, Bool.false_and, Bool.true_and, if_neg (by simp : ¬ false = true)]
        by_cases hk : strStarts vs (S "vue-alpine-value-") = true
        · rw [if_pos hk, if_pos hk]
          rcases hm : mapGet es vs with _ | p
          · rfl
          · cases p <;> simp
        · rw [if_neg hk, if_neg hk]
    · cases wic
      · simp only [] at h
        injection h with _ h1 _ h2
        subst h1; subst h2
        apply Eq.symm
        apply printAttrValue_snd
        intro _ hisv
        exact absurd hisv (by simp)
      · simp only [] at h
        injection h with _ h1 _ h2
        subst h1; subst h2
        rfl
    · simp only [] at h
      injection h with _ h1 _ h2
      subst h1; subst h2
      apply Eq.symm
      apply printAttrValue_snd
      intro _ hisv
      exact absurd hisv (by simp)

/-- C10: whenever `printAttribute` emits an attribute with a value, the
quote character emitted immediately after `=` equals the quote character
appended after the printed value — whether it is the default double quote or
a quote recorded with a `vue-alpine-value-` placeholder. -/
theorem c10_printAttribute_quotes_match (node : AttrNode)
    (es : List (Str × Payload)) (nm : Str) (q1 : Char) (vo : ValOut) (q2 : Char)
    (h : printAttribute node es = .withValue nm q1 vo q2) : q1 = q2 := by
  unfold printAttribute at h
  split_ifs at h <;> first
    | exact absurd h (by simp)
    | exact printAttributeBody_quotes _ _ _ _ _ _ _ h

/-- C10 witness: a concrete attribute whose printed open and close quotes
the theorem equates. -/
theorem c10_printAttribute_quotes_match_witness :
    printAttribute ⟨S "class", some (.stringLit (S "a"))⟩ [] =
      .withValue (S "class") '"' (.printedString (S "a") none) '"' ∧
    ('"' : Char) = '"' :=
  ⟨by decide,
   c10_printAttribute_quotes_match ⟨S "class", some (.stringLit (S "a"))⟩ []
     (S "class") '"' (.printedString (S "a") none) '"' (by decide)⟩

/-! ### C9: namespace-prefixed colon attributes -/

/-- C9: on `<svg xmlns:xlink="http://a">` the first-pass colon pattern
`(:(?!xmlns)…)="…"` fires — its negative lookahead inspects the text *after*
the colon (`xlink`, not `xmlns`) instead of the namespace prefix before it —
so the attribute *is* rewritten into the directive-name placeholder
`data-alpine-pure-1` mapped to `:xlink`, contradicting the claim (and the
evident intent of the `(?!xmlns)` guard and of the sixth-pass lookback). -/
theorem c9_xmlns_attribute_is_rewritten :
    (preprocessAlpineJSAttributes (S "<svg xmlns:xlink=\"http://a\">") initPipe).1 =
      S "<svg xmlnsdata-alpine-pure-1=\"alpine-attr-0\">" ∧
    mapGet (preprocessAlpineJSAttributes (S "<svg xmlns:xlink=\"http://a\">")
        initPipe).2.entries (S "data-alpine-pure-1") =
      some (.text (S ":xlink")) := by
  decide

/-! ### C2: raw-content (v-pre) isolation order -/

/-- C2: the v-pre pass is the *second* rewrite stage — the Alpine attribute
pass runs before it — so on `<b v-pre>@c="x"</b>` the directive inside the
v-pre region is rewritten first, and the content stored for the v-pre
placeholder (and returned verbatim at restoration) is the already-rewritten
text, not the original inner content `@c="x"`. -/
theorem c2_vpre_content_not_original :
    mapGet (preprocessVueAlpineAttributes idFormatter idFormatter
        (S "<b v-pre>@c=\"x\"</b>")).2.entries (S "v-pre-content-2") =
      some (.text (S "data-alpine-pure-1=\"alpine-attr-0\"")) ∧
    printTextStatement (S "v-pre-content-2")
        (preprocessVueAlpineAttributes idFormatter idFormatter
          (S "<b v-pre>@c=\"x\"</b>")).2.entries false =
      .vPreRaw (S "data-alpine-pure-1=\"alpine-attr-0\"") ∧
    S "data-alpine-pure-1=\"alpine-attr-0\"" ≠ S "@c=\"x\"" := by
  decide

/-! ### C3: directive-like tokens inside comments -/

/-- C3 counterexample: the first (Alpine) pass has no comment guard — inside
the HTML comment `<!-- @c="x" -->` the directive attribute is rewritten into
placeholders. -/
theorem c3_alpine_pass_rewrites_in_comment :
    (preprocessAlpineJSAttributes (S "<!-- @c=\"x\" -->") initPipe).1 =
      S "<!-- data-alpine-pure-1=\"alpine-attr-0\" -->" := by
  decide

/-- The sixth-pass callback leaves a match alone when its offset lies inside
a comment region. -/
theorem sixthCb_comment_keep (idx : Nat) (o : Str) (i : Nat) (m : Str)
    (caps : Caps) (st : PipeState) (h : insideCommentRegion (o.take i) = true) :
    sixthCb idx o i m caps st = (m, st) := by
  unfold sixthCb
  rw [if_pos h]

/-- C3 (amended): the sixth-pass directive-name patterns skip matches inside
comment regions: whenever every position at which one of the seven patterns
matches lies inside an HTML or Twig comment region (per the code's
`lastIndexOf` test on the preceding text), the whole sixth pass leaves the
text and the ledger unchanged. -/
theorem c3_sixthPass_skips_comments (text : Str) (st : PipeState)
    (h : ∀ p ∈ sixthPassPatterns.enum, ∀ i, i < text.length →
         (reFirst p.2 text i).isSome → insideCommentRegion (text.take i) = true) :
    sixthPass text st = (text, st) := by
  unfold sixthPass
  have hgen : ∀ ps : List (Nat × RE),
      (∀ p ∈ ps, ∀ i, i < text.length → (reFirst p.2 text i).isSome →
        insideCommentRegion (text.take i) = true) →
      ps.foldl (fun acc p => runREPass p.2 (sixthCb p.1) acc.1 acc.2) (text, st) =
        (text, st) := by
    intro ps
    induction ps generalizing st with
    | nil =>
        intro _
        rfl
    | cons p rest ih =>
        intro hps
        rw [List.foldl_cons]
        have hkeep : runREPass p.2 (sixthCb p.1) text st = (text, st) := by
          apply runREPass_keep
          intro i j caps st' hi hm
          exact sixthCb_comment_keep p.1 text i _ caps st'
            (hps p (List.mem_cons_self p rest) i hi (by rw [hm]; rfl))
        rw [hkeep]
        exact ih st (fun q hq => hps q (List.mem_cons_of_mem p hq))
  exact hgen sixthPassPatterns.enum h

/-- C3 witness: a directive attribute inside an HTML comment; every
sixth-pass match lies inside the comment region and the pass leaves the text
and ledger untouched. -/
theorem c3_sixthPass_skips_comments_witness :
    (∀ p ∈ sixthPassPatterns.enum, ∀ i, i < (S "<!-- v-if=\"c\" -->").length →
      (reFirst p.2 (S "<!-- v-if=\"c\" -->") i).isSome →
      insideCommentRegion ((S "<!-- v-if=\"c\" -->").take i) = true) ∧
    sixthPass (S "<!-- v-if=\"c\" -->") initPipe = (S "<!-- v-if=\"c\" -->", initPipe) :=
  ⟨by decide, c3_sixthPass_skips_comments (S "<!-- v-if=\"c\" -->") initPipe (by decide)⟩

/-! ### Map and placeholder-id helper lemmas -/

theorem mapGet_mapSet_self (es : List (Str × Payload)) (k : Str) (v : Payload) :
    mapGet (mapSet es k v) k = some v := by
  induction es with
  | nil => simp [mapSet, mapGet]
  | cons kv rest ih =>
      by_cases h : kv.1 = k
      · obtain ⟨k0, v0⟩ := kv
        simp only [mapSet, mapGet]
        simp at h
        rw [if_pos h]
        simp [mapGet, h]
      · obtain ⟨k0, v0⟩ := kv
        simp only [mapSet, mapGet] at *
        rw [if_neg (by simpa using h)]
        simp [mapGet, (by simpa using h : ¬ k0 = k), ih]

theorem isSpaceJS_false_of_digit (c : Char) (h1 : 48 ≤ c.toNat) (h2 : c.toNat ≤ 57) :
    isSpaceJS c = false := by
  have hc : c = Char.ofNat c.toNat := (Char.ofNat_toNat c).symm
  rw [hc]
  generalize c.toNat = n at h1 h2 ⊢
  interval_cases n <;> decide

theorem dropWhile_eq_self_of_none (p : Char → Bool) (s : Str)
    (h : ∀ c ∈ s, p c = false) : s.dropWhile p = s := by
  cases s with
  | nil => rfl
  | cons c rest =>
      rw [List.dropWhile_cons, h c (by simp)]
      simp

theorem trimJS_eq_self (s : Str) (h : ∀ c ∈ s, isSpaceJS c = false) :
    trimJS s = s := by
  unfold trimJS
  rw [dropWhile_eq_self_of_none _ s h,
      dropWhile_eq_self_of_none _ s.reverse (fun c hc => h c (List.mem_reverse.mp hc)),
      List.reverse_reverse]

theorem strStarts_append_left (a b w : Str) (h : w.length ≤ a.length) :
    strStarts (a ++ b) w = strStarts a w := by
  unfold strStarts substrAt
  rw [List.drop_zero, List.drop_zero, List.take_append_of_le_length h]

theorem decodeGo_eq_self (s : Str) (h : '&' ∉ s) : ∀ fuel, decodeGo fuel s = s := by
  induction s with
  | nil => intro fuel; cases fuel <;> rfl
  | cons c rest ih =>
      intro fuel
      cases fuel with
      | zero => rfl
      | succ fuel =>
          have hc : c ≠ '&' := fun hh => h (by simp [hh])
          simp only [decodeGo, if_neg hc]
          rw [ih (fun hm => h (by simp [hm])) fuel]

theorem decode_eq_self (s : Str) (h : '&' ∉ s) : decodeHtmlEntities s = s :=
  decodeGo_eq_self s h s.length

theorem scriptContent_id_chars (n : Nat) :
    ∀ c ∈ idStr (.shared .scriptContent n), isSpaceJS c = false := by
  intro c hc
  simp only [idStr, sharedKindStr, List.mem_append] at hc
  have hall : ∀ x ∈ S "script-content-", isSpaceJS x = false := by decide
  rcases hc with hc | hc
  · exact hall c hc
  · have hd := natStr_digits n c hc
    exact isSpaceJS_false_of_digit c hd.1 hd.2

/-! ### C7: sub-formatter failure fallback -/

/-- C7: when the embedded-content sub-formatter throws (modelled by `none`),
the script-isolation stage does not propagate the failure: it stores the
*original* content for the placeholder, and restoring that placeholder via
`printTextStatement` yields the original trimmed content (the warning goes
to the console, outside this model).  Hypotheses: a `script` tag without a
`type` attribute, non-blank content, and entity-free content (so the decode
step of the restorer is the identity). -/
theorem c7_throwing_formatter_fallback (o : Str) (i : Nat) (m : Str)
    (caps : Caps) (st : PipeState)
    (htag : toLowerStr (capStr o caps 1) = S "script")
    (hnotype : reSearch reTypeAttr (capStr o caps 2) = none)
    (hne : trimJS (capStr o caps 3) ≠ [])
    (hamp : '&' ∉ capStr o caps 3) :
    mapGet (scriptStyleCb throwingFormatter throwingFormatter o i m caps st).2.entries
        (idStr (.shared .scriptContent st.ctr)) = some (.text (capStr o caps 3)) ∧
    printTextStatement (idStr (.shared .scriptContent st.ctr))
        (scriptStyleCb throwingFormatter throwingFormatter o i m caps st).2.entries false =
      .embedded (trimJS (capStr o caps 3)) := by
  have hid := scriptContent_id_chars st.ctr
  set pid := idStr (.shared .scriptContent st.ctr) with hpid
  have hstep : scriptStyleCb throwingFormatter throwingFormatter o i m caps st =
      (S "<" ++ capStr o caps 1 ++ capStr o caps 2 ++ S ">" ++ pid ++ S "</" ++
        capStr o caps 1 ++ S ">",
       store { ctr := st.ctr + 1, entries := st.entries,
               log := st.log ++ [.shared .scriptContent st.ctr] } pid
         (.text (capStr o caps 3))) := by
    simp only [scriptStyleCb, allocShared, throwingFormatter, htag, hnotype, hne,
      if_true, if_false, Option.isNone_none]
    simp
  rw [hstep]
  constructor
  · exact mapGet_mapSet_self _ _ _
  · have hshape : pid = S "script-content-" ++ natStr st.ctr := rfl
    have hcond : ¬(pid.head? = some '"' ∧ pid.getLast? = some '"') := by
      rintro ⟨h1, _⟩
      rw [show pid.head? = some 's' from rfl] at h1
      exact absurd h1 (by decide)
    have htrim : trimJS pid = pid := trimJS_eq_self pid hid
    have hhas : mapHas (mapSet st.entries pid (.text (capStr o caps 3))) pid = true := by
      simp [mapHas, mapGet_mapSet_self]
    have hent : strStarts pid (S "__HTML_ENTITY_") = false := by
      rw [hshape, strStarts_append_left _ _ _ (by decide)]
      decide
    have hvpre : strStarts pid (S "v-pre-content-") = false := by
      rw [hshape, strStarts_append_left _ _ _ (by decide)]
      decide
    have hvue : strStarts pid (S "vue-expression-") = false := by
      rw [hshape, strStarts_append_left _ _ _ (by decide)]
      decide
    simp only [printTextStatement, store]
    rw [if_neg hcond]
    rw [htrim]
    rw [hhas, hent, hvpre, hvue]
    simp only [Bool.not_false, Bool.and_true, if_true, if_false, Bool.false_eq_true,
      mapGet_mapSet_self, Option.getD_some, payloadRaw]
    rw [decode_eq_self _ hamp]

/-- C7 witness: a concrete `<script>var a</script>` match with the throwing
formatter. -/
theorem c7_throwing_formatter_fallback_witness :
    trimJS (capStr (S "<script>var a</script>") [(1, 1, 7), (2, 7, 7), (3, 8, 13)] 3) ≠ [] ∧
    printTextStatement (idStr (.shared .scriptContent initPipe.ctr))
        (scriptStyleCb throwingFormatter throwingFormatter (S "<script>var a</script>") 0
          (S "<script>var a</script>") [(1, 1, 7), (2, 7, 7), (3, 8, 13)] initPipe).2.entries
        false =
      .embedded (trimJS (capStr (S "<script>var a</script>")
        [(1, 1, 7), (2, 7, 7), (3, 8, 13)] 3)) :=
  ⟨by decide,
   (c7_throwing_formatter_fallback (S "<script>var a</script>") 0
     (S "<script>var a</script>") [(1, 1, 7), (2, 7, 7), (3, 8, 13)] initPipe
     (by decide) (by decide) (by decide) (by decide)).2⟩

/-! ### C8: quote preservation -/

/-- C8 counterexample: for the claim's own example — a *plain* attribute
`name='a "b" c'` — no protection pass records anything (the single-quote
conversion pass skips values containing `"`), and `printAttribute` emits the
default double quote on both sides, not single quotes as the claim
requires. -/
theorem c8_plain_attr_uses_double_quotes :
    protectPipeline idFormatter idFormatter (S "<p name='a \"b\" c'>") =
      (S "<p name='a \"b\" c'>", [], []) ∧
    printAttribute ⟨S "name", some (.stringLit (S "a \"b\" c"))⟩ [] =
      .withValue (S "name") '"' (.printedString (S "a \"b\" c") none) '"' ∧
    ('"' : Char) ≠ '\'' := by
  decide

/-- C8 (amended): the spec-modelled quote-selection scan obeys the stated
rules (a forced quote always wins; an unmasked single quote forces double
quotes; else an unmasked double quote forces single quotes; else the
default), and for a *directive* attribute `:f='a "b" c'` — rewritten to a
`data-vue-alpine-` name, single-quoted, with an unmasked double quote and no
single quote in the value — the seventh pass records the single quote and
`printAttribute` emits the value with single quotes on both sides, the
recorded quote overriding the default double quote. -/
theorem c8_quote_selection :
    (∀ (d q : Char) (s : Str), selectQuote (some q) d s = q) ∧
    (∀ (d : Char) (s : Str), hasUnmaskedQuote '\'' s = true →
      selectQuote none d s = '"') ∧
    (∀ (d : Char) (s : Str), hasUnmaskedQuote '\'' s = false →
      hasUnmaskedQuote '"' s = true → selectQuote none d s = '\'') ∧
    (∀ (d : Char) (s : Str), hasUnmaskedQuote '\'' s = false →
      hasUnmaskedQuote '"' s = false → selectQuote none d s = d) ∧
    ((preprocessVueAlpineAttributes idFormatter idFormatter
        (S "<i :f='a \"b\" c'>")).1 = S "<i data-vue-alpine-0=\"vue-alpine-value-1\">" ∧
     mapGet (preprocessVueAlpineAttributes idFormatter idFormatter
        (S "<i :f='a \"b\" c'>")).2.entries (S "vue-alpine-value-1") =
       some (.quoted (S "a \"b\" c") '\'') ∧
     printAttribute ⟨S "data-vue-alpine-0", some (.stringLit (S "vue-alpine-value-1"))⟩
        (preprocessVueAlpineAttributes idFormatter idFormatter
          (S "<i :f='a \"b\" c'>")).2.entries =
       .withValue (S ":f") '\'' (.mapRestored (S "a \"b\" c")) '\'') := by
  refine ⟨fun d q s => rfl, fun d s h => ?_, fun d s h1 h2 => ?_, fun d s h1 h2 => ?_, ?_⟩
  · simp [selectQuote, h]
  · simp [selectQuote, h1, h2]
  · simp [selectQuote, h1, h2]
  · decide

/-- C8 witness: the scan rules applied to the claim's value `a "b" c`. -/
theorem c8_quote_selection_witness :
    hasUnmaskedQuote '\'' (S "a \"b\" c") = false ∧
    hasUnmaskedQuote '"' (S "a \"b\" c") = true ∧
    selectQuote none '"' (S "a \"b\" c") = '\'' :=
  ⟨by decide, by decide,
   c8_quote_selection.2.2.1 '"' (S "a \"b\" c") (by decide) (by decide)⟩

end TwigMelody

namespace TwigMelody

/-- `Matches o r i c j caps`: some fuel admits this candidate. -/
def Matches (o : Str) (r : RE) (i : Nat) (c : Caps) (j : Nat) (caps : Caps) : Prop :=
  ∃ fuel, (j, caps) ∈ reM o fuel r i c

theorem matches_of_reFirst (r : RE) (o : Str) (i j : Nat) (caps : Caps)
    (h : reFirst r o i = some (j, caps)) : Matches o r i [] j caps := by
  refine ⟨reFuel r o, ?_⟩
  unfold reFirst at h
  exact List.mem_of_mem_head? (by rw [h]; rfl)

theorem matches_zero_absurd (o : Str) (r : RE) (i : Nat) (c : Caps) (j : Nat)
    (caps : Caps) (h : (j, caps) ∈ reM o 0 r i c) : False := by
  simp [reM] at h

theorem matches_seq (o : Str) (a b : RE) (i : Nat) (c : Caps) (j : Nat) (caps : Caps)
    (h : Matches o (.seq a b) i c j caps) :
    ∃ k c', Matches o a i c k c' ∧ Matches o b k c' j caps := by
  obtain ⟨fuel, h⟩ := h
  cases fuel with
  | zero => exact absurd h (by simp [reM])
  | succ fuel =>
      simp only [reM, List.mem_flatMap] at h
      obtain ⟨p, hp, hb⟩ := h
      exact ⟨p.1, p.2, ⟨fuel, hp⟩, ⟨fuel, hb⟩⟩

theorem matches_alt (o : Str) (a b : RE) (i : Nat) (c : Caps) (j : Nat) (caps : Caps)
    (h : Matches o (.alt a b) i c j caps) :
    Matches o a i c j caps ∨ Matches o b i c j caps := by
  obtain ⟨fuel, h⟩ := h
  cases fuel with
  | zero => exact absurd h (by simp [reM])
  | succ fuel =>
      simp only [reM, List.mem_append] at h
      rcases h with h | h
      · exact Or.inl ⟨fuel, h⟩
      · exact Or.inr ⟨fuel, h⟩

theorem matches_group (o : Str) (g : Nat) (r : RE) (i : Nat) (c : Caps) (j : Nat)
    (caps : Caps) (h : Matches o (.group g r) i c j caps) :
    ∃ c', Matches o r i c j c' := by
  obtain ⟨fuel, h⟩ := h
  cases fuel with
  | zero => exact absurd h (by simp [reM])
  | succ fuel =>
      simp only [reM, List.mem_map] at h
      obtain ⟨p, hp, he⟩ := h
      have h1 : p.1 = j := congrArg Prod.fst he
      refine ⟨p.2, ⟨fuel, ?_⟩⟩
      rw [← h1]
      simpa using hp

theorem matches_lit (o : Str) (ch : Char) (i : Nat) (c : Caps) (j : Nat) (caps : Caps)
    (h : Matches o (.lit ch) i c j caps) : charAt o i = some ch ∧ j = i + 1 := by
  obtain ⟨fuel, h⟩ := h
  cases fuel with
  | zero => exact absurd h (by simp [reM])
  | succ fuel =>
      simp only [reM] at h
      rcases hc : charAt o i with _ | d <;> rw [hc] at h
      · simp at h
      · by_cases hd : d = ch
        · simp [hd] at h
          exact ⟨congrArg some hd, h.1⟩
        · simp [hd] at h

theorem matches_litCI (o : Str) (ch : Char) (i : Nat) (c : Caps) (j : Nat) (caps : Caps)
    (h : Matches o (.litCI ch) i c j caps) :
    ∃ d, charAt o i = some d ∧ lowerC d = lowerC ch ∧ j = i + 1 := by
  obtain ⟨fuel, h⟩ := h
  cases fuel with
  | zero => exact absurd h (by simp [reM])
  | succ fuel =>
      simp only [reM] at h
      rcases hc : charAt o i with _ | d <;> rw [hc] at h
      · simp at h
      · by_cases hd : lowerC d = lowerC ch
        · simp [hd] at h
          exact ⟨d, rfl, hd, h.1⟩
        · simp [hd] at h

theorem matches_cls (o : Str) (k : Cls) (i : Nat) (c : Caps) (j : Nat) (caps : Caps)
    (h : Matches o (.cls k) i c j caps) :
    ∃ d, charAt o i = some d ∧ clsFn k d = true ∧ j = i + 1 := by
  obtain ⟨fuel, h⟩ := h
  cases fuel with
  | zero => exact absurd h (by simp [reM])
  | succ fuel =>
      simp only [reM] at h
      rcases hc : charAt o i with _ | d <;> rw [hc] at h
      · simp at h
      · by_cases hd : clsFn k d = true
        · simp [hd] at h
          exact ⟨d, rfl, hd, h.1⟩
        · simp [hd] at h

theorem matches_star (o : Str) (r : RE) (lz : Bool) (i : Nat) (c : Caps) (j : Nat)
    (caps : Caps) (h : Matches o (.star r lz) i c j caps) :
    (j = i ∧ caps = c) ∨
    ∃ k c', Matches o r i c k c' ∧ Matches o (.star r lz) k c' j caps := by
  obtain ⟨fuel, h⟩ := h
  cases fuel with
  | zero => exact absurd h (by simp [reM])
  | succ fuel =>
      simp only [reM] at h
      rcases Bool.dichotomy lz with hlz | hlz <;> subst hlz <;> simp only [if_true, if_false, Bool.false_eq_true, List.mem_append] at h
      · rcases h with h | h
        · obtain ⟨p, hp, hin⟩ := List.mem_flatMap.mp h
          by_cases hpi : p.1 = i
          · rw [if_pos hpi] at hin
            simp at hin
          · rw [if_neg hpi] at hin
            exact Or.inr ⟨p.1, p.2, ⟨fuel, hp⟩, ⟨fuel, hin⟩⟩
        · simp at h
          exact Or.inl ⟨h.1, h.2⟩
      · rcases h with h | h
        · simp at h
          exact Or.inl ⟨h.1, h.2⟩
        · obtain ⟨p, hp, hin⟩ := List.mem_flatMap.mp h
          by_cases hpi : p.1 = i
          · rw [if_pos hpi] at hin
            simp at hin
          · rw [if_neg hpi] at hin
            exact Or.inr ⟨p.1, p.2, ⟨fuel, hp⟩, ⟨fuel, hin⟩⟩

end TwigMelody

namespace TwigMelody

theorem matches_wordB (o : Str) (i : Nat) (c : Caps) (j : Nat) (caps : Caps)
    (h : Matches o .wordB i c j caps) : j = i ∧ caps = c := by
  obtain ⟨fuel, h⟩ := h
  cases fuel with
  | zero => exact absurd h (by simp [reM])
  | succ fuel =>
      simp only [reM] at h
      by_cases hw : wordBAt o i <;> simp [hw] at h
      exact ⟨h.1, h.2⟩

theorem matches_look (o : Str) (neg : Bool) (r : RE) (i : Nat) (c : Caps) (j : Nat)
    (caps : Caps) (h : Matches o (.look neg r) i c j caps) : j = i ∧ caps = c := by
  obtain ⟨fuel, h⟩ := h
  cases fuel with
  | zero => exact absurd h (by simp [reM])
  | succ fuel =>
      simp only [reM] at h
      rcases Bool.dichotomy neg with hn | hn <;> subst hn <;>
        simp only [if_true, if_false, Bool.false_eq_true] at h <;>
        split at h <;> simp at h <;> exact ⟨h.1, h.2⟩

theorem matches_behind (o : Str) (k : Cls) (i : Nat) (c : Caps) (j : Nat)
    (caps : Caps) (h : Matches o (.behindCls k) i c j caps) : j = i ∧ caps = c := by
  obtain ⟨fuel, h⟩ := h
  cases fuel with
  | zero => exact absurd h (by simp [reM])
  | succ fuel =>
      simp only [reM] at h
      by_cases h0 : i = 0
      · simp [h0] at h
      · rw [if_neg h0] at h
        rcases hc : charAt o (i - 1) with _ | d <;> rw [hc] at h
        · simp at h
        · by_cases hd : clsFn k d = true <;> simp [hd] at h
          exact ⟨h.1, h.2⟩

theorem drop_eq_cons_of_get (o : Str) (i : Nat) (ch : Char)
    (h : o.get? i = some ch) : o.drop i = ch :: o.drop (i + 1) := by
  have hlt : i < o.length := by
    by_contra hc
    rw [List.get?_eq_none.mpr (by omega)] at h
    exact absurd h (by simp)
  rw [List.drop_eq_getElem_cons hlt]
  congr 1
  have h3 := List.get?_eq_getElem? o i
  rw [List.getElem?_eq_getElem hlt, h] at h3
  exact (Option.some_inj.mp h3.symm)

theorem matches_lits (o : Str) (w : Str) :
    ∀ (i : Nat) (c : Caps) (j : Nat) (caps : Caps),
      Matches o (lits w) i c j caps → substrAt o i w = true := by
  induction w with
  | nil =>
      intro i c j caps _
      simp [substrAt]
  | cons ch rest ih =>
      intro i c j caps h
      rw [show lits (ch :: rest) = .seq (.lit ch) (lits rest) from rfl] at h
      obtain ⟨k, c', h1, h2⟩ := matches_seq o _ _ i c j caps h
      obtain ⟨hch, hk⟩ := matches_lit o ch i c k c' h1
      subst hk
      have hrest := ih (i + 1) c' j caps h2
      unfold substrAt at hrest ⊢
      simp only [List.length_cons, decide_eq_true_eq] at hrest ⊢
      rw [drop_eq_cons_of_get o i ch hch, List.take_succ_cons, hrest]

theorem matches_litsCI (o : Str) (w : Str) :
    ∀ (i : Nat) (c : Caps) (j : Nat) (caps : Caps),
      Matches o (litsCI w) i c j caps → substrAtCI o i w = true := by
  induction w with
  | nil =>
      intro i c j caps _
      simp [substrAtCI]
  | cons ch rest ih =>
      intro i c j caps h
      rw [show litsCI (ch :: rest) = .seq (.litCI ch) (litsCI rest) from rfl] at h
      obtain ⟨k, c', h1, h2⟩ := matches_seq o _ _ i c j caps h
      obtain ⟨d, hch, hlow, hk⟩ := matches_litCI o ch i c k c' h1
      subst hk
      have hrest := ih (i + 1) c' j caps h2
      unfold substrAtCI at hrest ⊢
      simp only [List.length_cons, decide_eq_true_eq] at hrest ⊢
      rw [drop_eq_cons_of_get o i d hch, List.take_succ_cons]
      unfold toLowerStr at hrest ⊢
      simp only [List.map_cons, List.cons.injEq]
      exact ⟨hlow, hrest⟩

end TwigMelody

namespace TwigMelody

theorem substrAt_take_pre (s : Str) (i : Nat) (w : Str) (n : Nat)
    (h : substrAt s i w = true) : substrAt s i (w.take n) = true := by
  rcases Nat.le_total n w.length with hle | hle
  · unfold substrAt at h ⊢
    simp only [decide_eq_true_eq] at h ⊢
    rw [List.length_take, Nat.min_eq_left hle, ← h, List.take_take,
      Nat.min_eq_left hle]
  · rw [List.take_of_length_le hle]
    exact h

theorem substrAt_bound (s : Str) (i : Nat) (w : Str) (hw : w ≠ [])
    (h : substrAt s i w = true) : i < s.length := by
  unfold substrAt at h
  simp only [decide_eq_true_eq] at h
  by_contra hc
  rw [List.drop_eq_nil_of_le (by omega)] at h
  simp at h
  exact hw h

theorem hasSubstr_of_substrAt (s : Str) (i : Nat) (w : Str) (hw : w ≠ [])
    (h : substrAt s i w = true) : hasSubstr s w = true := by
  unfold hasSubstr
  rw [List.any_eq_true]
  exact ⟨i, by
    rw [List.mem_range]
    have := substrAt_bound s i w hw h
    omega, h⟩

theorem mem_of_charAt (o : Str) (i : Nat) (d : Char) (h : charAt o i = some d) :
    d ∈ o := by
  unfold charAt at h
  exact List.get?_mem h

theorem mem_of_substrAt_head (s : Str) (i : Nat) (c : Char) (w : Str)
    (h : substrAt s i (c :: w) = true) : c ∈ s := by
  unfold substrAt at h
  simp only [decide_eq_true_eq] at h
  have hc : c ∈ (s.drop i).take (c :: w).length := by rw [h]; simp
  exact List.mem_of_mem_drop (List.mem_of_mem_take hc)

theorem hasSubstr_head_mem (s : Str) (c : Char) (w : Str)
    (h : hasSubstr s (c :: w) = true) : c ∈ s := by
  unfold hasSubstr at h
  rw [List.any_eq_true] at h
  obtain ⟨i, _, hs⟩ := h
  exact mem_of_substrAt_head s i c w hs

theorem substrAt_toLower (s : Str) (i : Nat) (w : Str)
    (h : substrAt s i w = true) :
    substrAt (toLowerStr s) i (toLowerStr w) = true := by
  unfold substrAt at h ⊢
  simp only [decide_eq_true_eq] at h ⊢
  unfold toLowerStr
  rw [List.length_map, ← List.map_drop, ← List.map_take, h]

theorem substrAtCI_toLower (s : Str) (i : Nat) (w : Str)
    (h : substrAtCI s i w = true) :
    substrAt (toLowerStr s) i (toLowerStr w) = true := by
  unfold substrAtCI at h
  unfold substrAt
  simp only [decide_eq_true_eq] at h ⊢
  unfold toLowerStr at h ⊢
  rw [List.length_map, ← List.map_drop, ← List.map_take, h]

theorem mem_seg (o : Str) (a b : Nat) (c : Char) (h : c ∈ seg o a b) : c ∈ o := by
  unfold seg at h
  exact List.mem_of_mem_drop (List.mem_of_mem_take h)

theorem mem_capStr (o : Str) (caps : Caps) (g : Nat) (c : Char)
    (h : c ∈ capStr o caps g) : c ∈ o := by
  unfold capStr at h
  rcases hl : capLookup caps g with _ | p <;> rw [hl] at h
  · simp at h
  · exact mem_seg o p.1 p.2 c h

end TwigMelody

namespace TwigMelody

theorem trig_alpineBind (o : Str) (i : Nat) (c : Caps) (j : Nat) (caps : Caps)
    (h : Matches o reAlpineBind i c j caps) :
    hasSubstr (toLowerStr o) (S "x-") = true := by
  obtain ⟨k, c1, h1, _⟩ := matches_seq o _ _ i c j caps h
  obtain ⟨c2, h2⟩ := matches_group o _ _ i c k c1 h1
  obtain ⟨k2, c3, h3, _⟩ := matches_seq o _ _ i c k c2 h2
  have hsub := matches_lits o _ i c k2 c3 h3
  have h2' := substrAt_take_pre o i _ 2 hsub
  have hl := substrAt_toLower o i _ h2'
  exact hasSubstr_of_substrAt _ i _ (by decide) (by exact hl)

theorem trig_alpineAt (o : Str) (i : Nat) (c : Caps) (j : Nat) (caps : Caps)
    (h : Matches o reAlpineAt i c j caps) : '@' ∈ o := by
  obtain ⟨k, c1, h1, _⟩ := matches_seq o _ _ i c j caps h
  obtain ⟨c2, h2⟩ := matches_group o _ _ i c k c1 h1
  obtain ⟨k2, c3, h3, _⟩ := matches_seq o _ _ i c k c2 h2
  exact mem_of_charAt o i '@' (matches_lit o '@' i c k2 c3 h3).1

theorem trig_alpineColon (o : Str) (i : Nat) (c : Caps) (j : Nat) (caps : Caps)
    (h : Matches o reAlpineColon i c j caps) : ':' ∈ o := by
  obtain ⟨k, c1, h1, _⟩ := matches_seq o _ _ i c j caps h
  obtain ⟨c2, h2⟩ := matches_group o _ _ i c k c1 h1
  obtain ⟨k2, c3, h3, _⟩ := matches_seq o _ _ i c k c2 h2
  exact mem_of_charAt o i ':' (matches_lit o ':' i c k2 c3 h3).1

theorem trig_alpineStd (attr : Str) (hattr : attr.take 2 = S "x-")
    (o : Str) (i : Nat) (c : Caps) (j : Nat) (caps : Caps)
    (h : Matches o (reAlpineStd attr) i c j caps) :
    hasSubstr (toLowerStr o) (S "x-") = true := by
  obtain ⟨k, c1, h1, _⟩ := matches_seq o _ _ i c j caps h
  obtain ⟨c2, h2⟩ := matches_group o _ _ i c k c1 h1
  obtain ⟨k2, c3, h3, _⟩ := matches_seq o _ _ i c k c2 h2
  have hsub := matches_lits o _ i c k2 c3 h3
  have h2' := substrAt_take_pre o i _ 2 hsub
  rw [hattr] at h2'
  have hl := substrAt_toLower o i _ h2'
  exact hasSubstr_of_substrAt _ i _ (by decide) (by exact hl)

theorem trig_vPre (o : Str) (i : Nat) (c : Caps) (j : Nat) (caps : Caps)
    (h : Matches o reVPre i c j caps) :
    hasSubstr (toLowerStr o) (S "v-") = true := by
  obtain ⟨k1, c1, _, h1⟩ := matches_seq o _ _ i c j caps h
  obtain ⟨k2, c2, _, h2⟩ := matches_seq o _ _ k1 c1 j caps h1
  obtain ⟨k3, c3, h3, _⟩ := matches_seq o _ _ k2 c2 j caps h2
  obtain ⟨c4, h4⟩ := matches_group o _ _ k2 c2 k3 c3 h3
  obtain ⟨k5, c5, _, h5⟩ := matches_seq o _ _ k2 c2 k3 c4 h4
  obtain ⟨k6, c6, h6, h7⟩ := matches_seq o _ _ k5 c5 k3 c4 h5
  obtain ⟨k8, c8, h8, _⟩ := matches_seq o _ _ k6 c6 k3 c4 h7
  have hsub := matches_litsCI o _ k6 c6 k8 c8 h8
  have hl := substrAtCI_toLower o k6 _ hsub
  have h2' := substrAt_take_pre _ k6 _ 2 hl
  exact hasSubstr_of_substrAt _ k6 _ (by decide) (by exact h2')

theorem trig_scriptStyle (o : Str) (i : Nat) (c : Caps) (j : Nat) (caps : Caps)
    (h : Matches o reScriptStyle i c j caps) :
    hasSubstr (toLowerStr o) (S "script") = true ∨
    hasSubstr (toLowerStr o) (S "style") = true := by
  obtain ⟨k1, c1, _, h1⟩ := matches_seq o _ _ i c j caps h
  obtain ⟨k2, c2, h2, _⟩ := matches_seq o _ _ k1 c1 j caps h1
  obtain ⟨c3, h3⟩ := matches_group o _ _ k1 c1 k2 c2 h2
  rcases matches_alt o _ _ k1 c1 k2 c3 h3 with h4 | h4
  · left
    have hsub := matches_litsCI o _ k1 c1 k2 c3 h4
    exact hasSubstr_of_substrAt _ k1 _ (by decide)
      (by exact substrAtCI_toLower o k1 _ hsub)
  · right
    have hsub := matches_litsCI o _ k1 c1 k2 c3 h4
    exact hasSubstr_of_substrAt _ k1 _ (by decide)
      (by exact substrAtCI_toLower o k1 _ hsub)

theorem trig_entityNum (o : Str) (i : Nat) (c : Caps) (j : Nat) (caps : Caps)
    (h : Matches o reEntityNum i c j caps) : '&' ∈ o := by
  obtain ⟨k, c1, h1, _⟩ := matches_seq o _ _ i c j caps h
  exact mem_of_charAt o i '&' (matches_lit o '&' i c k c1 h1).1

theorem trig_entityName (o : Str) (i : Nat) (c : Caps) (j : Nat) (caps : Caps)
    (h : Matches o reEntityName i c j caps) : '&' ∈ o := by
  obtain ⟨k, c1, h1, _⟩ := matches_seq o _ _ i c j caps h
  exact mem_of_charAt o i '&' (matches_lit o '&' i c k c1 h1).1

end TwigMelody

namespace TwigMelody

theorem trig_vOnMods (o : Str) (i : Nat) (c : Caps) (j : Nat) (caps : Caps)
    (h : Matches o reVOnMods i c j caps) :
    hasSubstr (toLowerStr o) (S "v-") = true := by
  obtain ⟨k1, c1, _, h1⟩ := matches_seq o _ _ i c j caps h
  obtain ⟨k2, c2, h2, _⟩ := matches_seq o _ _ k1 c1 j caps h1
  obtain ⟨c3, h3⟩ := matches_group o _ _ k1 c1 k2 c2 h2
  obtain ⟨k4, c4, h4, _⟩ := matches_seq o _ _ k1 c1 k2 c3 h3
  have hsub := matches_lits o _ k1 c1 k4 c4 h4
  have h2' := substrAt_take_pre o k1 _ 2 hsub
  exact hasSubstr_of_substrAt _ k1 _ (by decide)
    (by exact substrAt_toLower o k1 _ h2')

theorem trig_vBindName (o : Str) (i : Nat) (c : Caps) (j : Nat) (caps : Caps)
    (h : Matches o reVBindName i c j caps) :
    hasSubstr (toLowerStr o) (S "v-") = true := by
  obtain ⟨k1, c1, _, h1⟩ := matches_seq o _ _ i c j caps h
  obtain ⟨k2, c2, h2, _⟩ := matches_seq o _ _ k1 c1 j caps h1
  obtain ⟨c3, h3⟩ := matches_group o _ _ k1 c1 k2 c2 h2
  obtain ⟨k4, c4, h4, _⟩ := matches_seq o _ _ k1 c1 k2 c3 h3
  have hsub := matches_lits o _ k1 c1 k4 c4 h4
  have h2' := substrAt_take_pre o k1 _ 2 hsub
  exact hasSubstr_of_substrAt _ k1 _ (by decide)
    (by exact substrAt_toLower o k1 _ h2')

theorem trig_vStdName (o : Str) (i : Nat) (c : Caps) (j : Nat) (caps : Caps)
    (h : Matches o reVStdName i c j caps) :
    hasSubstr (toLowerStr o) (S "v-") = true := by
  obtain ⟨k1, c1, _, h1⟩ := matches_seq o _ _ i c j caps h
  obtain ⟨k2, c2, h2, _⟩ := matches_seq o _ _ k1 c1 j caps h1
  obtain ⟨c3, h3⟩ := matches_group o _ _ k1 c1 k2 c2 h2
  obtain ⟨k4, c4, h4, _⟩ := matches_seq o _ _ k1 c1 k2 c3 h3
  have hsub := matches_lits o _ k1 c1 k4 c4 h4
  exact hasSubstr_of_substrAt _ k1 _ (by decide)
    (by exact substrAt_toLower o k1 _ hsub)

theorem trig_xOnMods (o : Str) (i : Nat) (c : Caps) (j : Nat) (caps : Caps)
    (h : Matches o reXOnMods i c j caps) :
    hasSubstr (toLowerStr o) (S "x-") = true := by
  obtain ⟨k1, c1, _, h1⟩ := matches_seq o _ _ i c j caps h
  obtain ⟨k2, c2, h2, _⟩ := matches_seq o _ _ k1 c1 j caps h1
  obtain ⟨c3, h3⟩ := matches_group o _ _ k1 c1 k2 c2 h2
  obtain ⟨k4, c4, h4, _⟩ := matches_seq o _ _ k1 c1 k2 c3 h3
  have hsub := matches_lits o _ k1 c1 k4 c4 h4
  have h2' := substrAt_take_pre o k1 _ 2 hsub
  exact hasSubstr_of_substrAt _ k1 _ (by decide)
    (by exact substrAt_toLower o k1 _ h2')

theorem trig_xDotted (o : Str) (i : Nat) (c : Caps) (j : Nat) (caps : Caps)
    (h : Matches o reXDotted i c j caps) :
    hasSubstr (toLowerStr o) (S "x-") = true := by
  obtain ⟨k1, c1, _, h1⟩ := matches_seq o _ _ i c j caps h
  obtain ⟨k2, c2, h2, _⟩ := matches_seq o _ _ k1 c1 j caps h1
  obtain ⟨c3, h3⟩ := matches_group o _ _ k1 c1 k2 c2 h2
  obtain ⟨k4, c4, h4, _⟩ := matches_seq o _ _ k1 c1 k2 c3 h3
  have hsub := matches_lits o _ k1 c1 k4 c4 h4
  exact hasSubstr_of_substrAt _ k1 _ (by decide)
    (by exact substrAt_toLower o k1 _ hsub)

theorem trig_atName (o : Str) (i : Nat) (c : Caps) (j : Nat) (caps : Caps)
    (h : Matches o reAtName i c j caps) : '@' ∈ o := by
  obtain ⟨k, c1, h1, _⟩ := matches_seq o _ _ i c j caps h
  exact mem_of_charAt o i '@' (matches_lit o '@' i c k c1 h1).1

theorem trig_colonName (o : Str) (i : Nat) (c : Caps) (j : Nat) (caps : Caps)
    (h : Matches o reColonName i c j caps) : ':' ∈ o := by
  obtain ⟨k1, c1, _, h1⟩ := matches_seq o _ _ i c j caps h
  obtain ⟨k2, c2, h2, _⟩ := matches_seq o _ _ k1 c1 j caps h1
  exact mem_of_charAt o k1 ':' (matches_lit o ':' k1 c1 k2 c2 h2).1

theorem trig_vueAlpineAttr (o : Str) (i : Nat) (c : Caps) (j : Nat) (caps : Caps)
    (h : Matches o reVueAlpineAttr i c j caps) :
    hasSubstr o (S "data-vue-alpine-") = true := by
  obtain ⟨k1, c1, h1, _⟩ := matches_seq o _ _ i c j caps h
  obtain ⟨c2, h2⟩ := matches_group o _ _ i c k1 c1 h1
  obtain ⟨k3, c3, h3, _⟩ := matches_seq o _ _ i c k1 c2 h2
  have hsub := matches_lits o _ i c k3 c3 h3
  exact hasSubstr_of_substrAt _ i _ (by decide) hsub

theorem trig_vueExpression (o : Str) (i : Nat) (c : Caps) (j : Nat) (caps : Caps)
    (h : Matches o reVueExpression i c j caps) : '$' ∈ o := by
  obtain ⟨k, c1, h1, _⟩ := matches_seq o _ _ i c j caps h
  exact mem_of_charAt o i '$' (matches_lit o '$' i c k c1 h1).1

theorem trig_singleQuoted (o : Str) (i : Nat) (c : Caps) (j : Nat) (caps : Caps)
    (h : Matches o reSingleQuoted i c j caps) : '\'' ∈ o := by
  obtain ⟨k1, c1, _, h1⟩ := matches_seq o _ _ i c j caps h
  obtain ⟨k2, c2, _, h2⟩ := matches_seq o _ _ k1 c1 j caps h1
  obtain ⟨k3, c3, _, h3⟩ := matches_seq o _ _ k2 c2 j caps h2
  obtain ⟨k4, c4, h4, _⟩ := matches_seq o _ _ k3 c3 j caps h3
  exact mem_of_charAt o k3 '\'' (matches_lit o '\'' k3 c3 k4 c4 h4).1

theorem trig_arrowInFilter (o : Str) (i : Nat) (c : Caps) (j : Nat) (caps : Caps)
    (h : Matches o reArrowInFilter i c j caps) : hasSubstr o (S "=>") = true := by
  obtain ⟨k1, c1, _, h1⟩ := matches_seq o _ _ i c j caps h
  obtain ⟨k2, c2, h2, _⟩ := matches_seq o _ _ k1 c1 j caps h1
  obtain ⟨c3, h3⟩ := matches_group o _ _ k1 c1 k2 c2 h2
  obtain ⟨k4, c4, _, h4⟩ := matches_seq o _ _ k1 c1 k2 c3 h3
  obtain ⟨k5, c5, h5, _⟩ := matches_seq o _ _ k4 c4 k2 c3 h4
  have hsub := matches_lits o _ k4 c4 k5 c5 h5
  exact hasSubstr_of_substrAt _ k4 _ (by decide) hsub

theorem trig_arrowSimple (o : Str) (i : Nat) (c : Caps) (j : Nat) (caps : Caps)
    (h : Matches o reArrowSimple i c j caps) : hasSubstr o (S "=>") = true := by
  obtain ⟨k1, c1, h1, _⟩ := matches_seq o _ _ i c j caps h
  obtain ⟨c2, h2⟩ := matches_group o _ _ i c k1 c1 h1
  obtain ⟨k3, c3, _, h3⟩ := matches_seq o _ _ i c k1 c2 h2
  obtain ⟨k4, c4, _, h4⟩ := matches_seq o _ _ k3 c3 k1 c2 h3
  obtain ⟨k5, c5, h5, _⟩ := matches_seq o _ _ k4 c4 k1 c2 h4
  have hsub := matches_lits o _ k4 c4 k5 c5 h5
  exact hasSubstr_of_substrAt _ k4 _ (by decide) hsub

end TwigMelody

namespace TwigMelody

theorem fold_pass_keep {σ : Type} (act : Str → Nat → Str → Caps → σ → Str × σ)
    (ps : List RE) (text : Str) (st : σ)
    (h : ∀ re ∈ ps, ∀ i j caps (st' : σ), i < text.length →
         reFirst re text i = some (j, caps) →
         act text i (seg text i j) caps st' = (seg text i j, st')) :
    ps.foldl (fun acc re => runREPass re act acc.1 acc.2) (text, st) = (text, st) := by
  induction ps generalizing st with
  | nil => rfl
  | cons re rest ih =>
      rw [List.foldl_cons]
      have hkeep : runREPass re act text st = (text, st) :=
        runREPass_keep re act text st (fun i j caps st' hi hm =>
          h re (List.mem_cons_self re rest) i j caps st' hi hm)
      rw [hkeep]
      exact ih st (fun q hq => h q (List.mem_cons_of_mem re hq))

theorem fold_sixth_keep (ps : List (Nat × RE)) (text : Str) (st : PipeState)
    (h : ∀ p ∈ ps, ∀ i j caps (st' : PipeState), i < text.length →
         reFirst p.2 text i = some (j, caps) →
         sixthCb p.1 text i (seg text i j) caps st' = (seg text i j, st')) :
    ps.foldl (fun acc p => runREPass p.2 (sixthCb p.1) acc.1 acc.2) (text, st) =
      (text, st) := by
  induction ps generalizing st with
  | nil => rfl
  | cons p rest ih =>
      rw [List.foldl_cons]
      have hkeep : runREPass p.2 (sixthCb p.1) text st = (text, st) :=
        runREPass_keep _ _ text st (fun i j caps st' hi hm =>
          h p (List.mem_cons_self p rest) i j caps st' hi hm)
      rw [hkeep]
      exact ih st (fun q hq => h q (List.mem_cons_of_mem p hq))

/-- The absence of every trigger shape of the rewrite pipeline: no directive
attributes or directive-name shapes (`@`, boundary colons, `x-`/`v-`
prefixes), no in-tag template blocks or comments and no `${…}` expressions
(no `{` and no `$` at all), no character references (`&`), no script/style
elements, no arrow tokens, no single-quoted attributes, and no text shaped
like an internal placeholder. -/
def NoForeign (s : Str) : Prop :=
  '@' ∉ s ∧ ':' ∉ s ∧ '&' ∉ s ∧ '\'' ∉ s ∧ '$' ∉ s ∧ '\x7b' ∉ s ∧
  hasSubstr (toLowerStr s) (S "x-") = false ∧
  hasSubstr (toLowerStr s) (S "v-") = false ∧
  hasSubstr s (S "=>") = false ∧
  hasSubstr s (S "data-vue-alpine-") = false ∧
  hasSubstr (toLowerStr s) (S "script") = false ∧
  hasSubstr (toLowerStr s) (S "style") = false

theorem elementCb_keep (o : Str) (hlb : '\x7b' ∉ o) (i : Nat) (m : Str)
    (caps : Caps) (st : PipeState) : elementCb o i m caps st = (m, st) := by
  have h2 : hasSubstr (capStr o caps 1) (S "\x7b%") = false := by
    rw [Bool.eq_false_iff]
    intro htrue
    exact hlb (mem_capStr o caps 1 '\x7b' (hasSubstr_head_mem _ _ _ htrue))
  have h3 : hasSubstr (capStr o caps 1) (S "\x7b#") = false := by
    rw [Bool.eq_false_iff]
    intro htrue
    exact hlb (mem_capStr o caps 1 '\x7b' (hasSubstr_head_mem _ _ _ htrue))
  unfold elementCb
  by_cases g1 : lastOccSub (o.take i) (S "\x7b#") > lastOccSub (o.take i) (S "#\x7d")
  · rw [if_pos g1]
  · rw [if_neg g1]
    rw [h2, h3]
    simp


/-- C5: for every input text containing no foreign-syntax fragments (no `@`,
`:`, `&`, `'`, `$` or `\x7b` characters, no `x-`/`v-` prefixes, `script` or
`style` words even case-insensitively, no `=>` tokens and no
`data-vue-alpine-` ids), the protect pipeline returns the input text
unchanged, an empty combined replacements map and an empty placeholder
ledger, whatever the two external sub-formatters do. -/
theorem c5_no_foreign_identity (fmtJS fmtCSS : Str → Option Str) (s : Str) (h : NoForeign s) :
    protectPipeline fmtJS fmtCSS s = (s, [], []) := by
  obtain ⟨hat, hcolon, hamp, hsq, hdollar, hlb, hx, hv, harrow, hdva, hscript, hstyle⟩ := h
  have hA : preprocessAlpineJSAttributes s initPipe = (s, initPipe) := by
    unfold preprocessAlpineJSAttributes
    apply fold_pass_keep
    intro re hre i j caps st' hi hm
    exfalso
    have hmem := matches_of_reFirst re s i j caps hm
    simp only [alpinePatterns, List.mem_append, List.mem_cons, List.mem_map,
      List.not_mem_nil, or_false] at hre
    rcases hre with (rfl | rfl | rfl) | ⟨attr, hattr, rfl⟩
    · rw [trig_alpineBind s i [] j caps hmem] at hx
      exact absurd hx (by simp)
    · exact hat (trig_alpineAt s i [] j caps hmem)
    · exact hcolon (trig_alpineColon s i [] j caps hmem)
    · have htake : attr.take 2 = S "x-" := by
        have hall : ∀ a ∈ alpineAttrNames, a.take 2 = S "x-" := by decide
        exact hall attr hattr
      rw [trig_alpineStd attr htake s i [] j caps hmem] at hx
      exact absurd hx (by simp)
  have hB : runREPass reVPre vPreCb s initPipe = (s, initPipe) := by
    apply runREPass_keep
    intro i j caps st' hi hm
    exfalso
    rw [trig_vPre s i [] j caps (matches_of_reFirst _ s i j caps hm)] at hv
    exact absurd hv (by simp)
  have hC : preprocessUnicodeCharacters s = (s, initPipe) := by
    unfold preprocessUnicodeCharacters
    have h1 : runREPass reEntityNum entityCb s (⟨0, [], []⟩ : PipeState) =
        (s, (⟨0, [], []⟩ : PipeState)) := by
      apply runREPass_keep
      intro i j caps st' hi hm
      exact absurd (trig_entityNum s i [] j caps (matches_of_reFirst _ s i j caps hm)) hamp
    rw [h1]
    apply runREPass_keep
    intro i j caps st' hi hm
    exact absurd (trig_entityName s i [] j caps (matches_of_reFirst _ s i j caps hm)) hamp
  have hD : ∀ st : PipeState,
      runREPass reScriptStyle (scriptStyleCb fmtJS fmtCSS) s st = (s, st) := by
    intro st
    apply runREPass_keep
    intro i j caps st' hi hm
    exfalso
    rcases trig_scriptStyle s i [] j caps (matches_of_reFirst _ s i j caps hm) with hc | hc
    · rw [hc] at hscript; exact absurd hscript (by simp)
    · rw [hc] at hstyle; exact absurd hstyle (by simp)
  have hE : ∀ st : PipeState, runREPass reElementTag elementCb s st = (s, st) := by
    intro st
    apply runREPass_keep
    intro i j caps st' hi hm
    exact elementCb_keep s hlb i _ caps st'
  have hF : ∀ st : PipeState, sixthPass s st = (s, st) := by
    intro st
    unfold sixthPass
    apply fold_sixth_keep
    intro p hp i j caps st' hi hm
    exfalso
    have hmem := matches_of_reFirst p.2 s i j caps hm
    have hp7 : p ∈ [(0, reVOnMods), (1, reVBindName), (2, reVStdName),
        (3, reXOnMods), (4, reXDotted), (5, reAtName), (6, reColonName)] := by
      simpa [sixthPassPatterns, List.enum] using hp
    simp only [List.mem_cons, List.not_mem_nil, or_false] at hp7
    rcases hp7 with rfl | rfl | rfl | rfl | rfl | rfl | rfl
    · rw [trig_vOnMods s i [] j caps hmem] at hv; exact absurd hv (by simp)
    · rw [trig_vBindName s i [] j caps hmem] at hv; exact absurd hv (by simp)
    · rw [trig_vStdName s i [] j caps hmem] at hv; exact absurd hv (by simp)
    · rw [trig_xOnMods s i [] j caps hmem] at hx; exact absurd hx (by simp)
    · rw [trig_xDotted s i [] j caps hmem] at hx; exact absurd hx (by simp)
    · exact hat (trig_atName s i [] j caps hmem)
    · exact hcolon (trig_colonName s i [] j caps hmem)
  have hG : ∀ st : PipeState, runREPass reVueAlpineAttr seventhCb s st = (s, st) := by
    intro st
    apply runREPass_keep
    intro i j caps st' hi hm
    exfalso
    rw [trig_vueAlpineAttr s i [] j caps (matches_of_reFirst _ s i j caps hm)] at hdva
    exact absurd hdva (by simp)
  have hH : ∀ st : PipeState, runREPass reVueExpression vueExprCb s st = (s, st) := by
    intro st
    apply runREPass_keep
    intro i j caps st' hi hm
    exact absurd (trig_vueExpression s i [] j caps (matches_of_reFirst _ s i j caps hm)) hdollar
  have hI : ∀ st : PipeState, runREPass reSingleQuoted eighthCb s st = (s, st) := by
    intro st
    apply runREPass_keep
    intro i j caps st' hi hm
    exact absurd (trig_singleQuoted s i [] j caps (matches_of_reFirst _ s i j caps hm)) hsq
  have hJ : ∀ st : PipeState, runREPass reArrowInFilter arrowFilterCb s st = (s, st) := by
    intro st
    apply runREPass_keep
    intro i j caps st' hi hm
    rw [trig_arrowInFilter s i [] j caps (matches_of_reFirst _ s i j caps hm)] at harrow
    exact absurd harrow (by simp)
  have hK : ∀ st : PipeState, runREPass reArrowSimple arrowSimpleCb s st = (s, st) := by
    intro st
    apply runREPass_keep
    intro i j caps st' hi hm
    rw [trig_arrowSimple s i [] j caps (matches_of_reFirst _ s i j caps hm)] at harrow
    exact absurd harrow (by simp)
  have hvue : preprocessVueAlpineAttributes fmtJS fmtCSS s = (s, initPipe) := by
    simp only [initPipe] at hA hB hC
    simp only [preprocessVueAlpineAttributes, initPipe, hA, hB, hC, hD, hE, hF, hG,
      hH, hI, List.foldl_nil, List.append_nil]
  have harr : preprocessTwigArrowFunctions s = (s, initPipe) := by
    simp only [preprocessTwigArrowFunctions, hJ, hK]
  simp only [protectPipeline, hvue, harr, initPipe, List.foldl_nil, List.append_nil]


/-- Witness for C5 at the concrete input `<div class="a">hello</div>`. -/
theorem c5_no_foreign_identity_witness :
    NoForeign (S "<div class=\"a\">hello</div>") ∧
    protectPipeline (fun s => some s) (fun s => some s)
        (S "<div class=\"a\">hello</div>") =
      (S "<div class=\"a\">hello</div>", [], []) := by
  have hnf : NoForeign (S "<div class=\"a\">hello</div>") := by
    unfold NoForeign
    decide
  exact ⟨hnf, c5_no_foreign_identity _ _ _ hnf⟩

end TwigMelody

namespace TwigMelody

/-! ### C6: distinctness of the generated placeholder ids

The ghost `log` component of `PipeState` records every id the allocators
produce, in order.  `FamRun f c ext c'` says the ids of `ext` all belong to
the family selected by `f` and carry the consecutive counter values
`c, c+1, …, c'-1`; `Extends f st st'` says one processing step turned `st`
into `st'` by appending such a run to the log. -/

/-- Select the counter value of a shared-counter id. -/
def fShared : GenId → Option Nat
  | .shared _ n => some n
  | _ => none

/-- Select the counter value of an entity id. -/
def fEntity : GenId → Option Nat
  | .entity n => some n
  | _ => none

/-- Select the counter value of an arrow id. -/
def fArrow : GenId → Option Nat
  | .arrow n => some n
  | _ => none

/-- A run of family-`f` ids with consecutive counter values from `c` (incl.)
to `c'` (excl.). -/
def FamRun (f : GenId → Option Nat) : Nat → List GenId → Nat → Prop
  | c, [], c' => c' = c
  | c, g :: rest, c' => f g = some c ∧ FamRun f (c + 1) rest c'

/-- `st'` extends `st` by one family run appended to the log. -/
def Extends (f : GenId → Option Nat) (st st' : PipeState) : Prop :=
  ∃ ext, st'.log = st.log ++ ext ∧ FamRun f st.ctr ext st'.ctr

theorem famRun_append (f : GenId → Option Nat) (e1 : List GenId) :
    ∀ (c1 c2 c3 : Nat) (e2 : List GenId), FamRun f c1 e1 c2 →
      FamRun f c2 e2 c3 → FamRun f c1 (e1 ++ e2) c3 := by
  induction e1 with
  | nil =>
      intro c1 c2 c3 e2 h1 h2
      rw [List.nil_append]
      cases h1
      exact h2
  | cons g rest ih =>
      intro c1 c2 c3 e2 h1 h2
      obtain ⟨hg, h1'⟩ := h1
      exact ⟨hg, ih _ _ _ _ h1' h2⟩

theorem extends_refl (f : GenId → Option Nat) (st : PipeState) :
    Extends f st st :=
  ⟨[], (List.append_nil _).symm, rfl⟩

theorem extends_trans (f : GenId → Option Nat) {st1 st2 st3 : PipeState}
    (h1 : Extends f st1 st2) (h2 : Extends f st2 st3) : Extends f st1 st3 := by
  obtain ⟨e1, hl1, hr1⟩ := h1
  obtain ⟨e2, hl2, hr2⟩ := h2
  exact ⟨e1 ++ e2, by rw [hl2, hl1, List.append_assoc],
    famRun_append f e1 _ _ _ e2 hr1 hr2⟩

theorem extends_allocShared (k : SharedKind) (st : PipeState) :
    Extends fShared st (allocShared k st).2 :=
  ⟨[.shared k st.ctr], rfl, ⟨rfl, rfl⟩⟩

theorem extends_allocEntity (st : PipeState) :
    Extends fEntity st (allocEntity st).2 :=
  ⟨[.entity st.ctr], rfl, ⟨rfl, rfl⟩⟩

theorem extends_allocArrow (st : PipeState) :
    Extends fArrow st (allocArrow st).2 :=
  ⟨[.arrow st.ctr], rfl, ⟨rfl, rfl⟩⟩

theorem extends_store (f : GenId → Option Nat) (st : PipeState)
    (k : Str) (v : Payload) : Extends f st (store st k v) :=
  ⟨[], (List.append_nil _).symm, rfl⟩

theorem extends_store_right (f : GenId → Option Nat) {st st' : PipeState}
    (h : Extends f st st') (k : Str) (v : Payload) :
    Extends f st (store st' k v) :=
  extends_trans f h (extends_store f st' k v)

theorem extends_allocShared_right {st st' : PipeState}
    (h : Extends fShared st st') (k : SharedKind) :
    Extends fShared st (allocShared k st').2 :=
  extends_trans fShared h (extends_allocShared k st')

theorem extends_allocEntity_right {st st' : PipeState}
    (h : Extends fEntity st st') :
    Extends fEntity st (allocEntity st').2 :=
  extends_trans fEntity h (extends_allocEntity st')

theorem extends_allocArrow_right {st st' : PipeState}
    (h : Extends fArrow st st') :
    Extends fArrow st (allocArrow st').2 :=
  extends_trans fArrow h (extends_allocArrow st')

theorem runREPassGo_extends (f : GenId → Option Nat) (re : RE)
    (act : Str → Nat → Str → Caps → PipeState → Str × PipeState) (o : Str)
    (hact : ∀ o i m caps st, Extends f st (act o i m caps st).2) :
    ∀ fuel i (st : PipeState), Extends f st (runREPassGo re act o fuel i st).2 := by
  intro fuel
  induction fuel with
  | zero => intro i st; exact extends_refl f st
  | succ fuel ih =>
      intro i st
      rw [runREPassGo]
      by_cases hi : i < o.length
      · rw [if_pos hi]
        rcases hm : reFirst re o i with _ | p
        · dsimp only
          exact ih (i + 1) st
        · obtain ⟨j, caps⟩ := p
          dsimp only
          by_cases hij : i < j
          · rw [if_pos hij]
            dsimp only
            exact extends_trans f (hact o i (seg o i j) caps st) (ih j _)
          · rw [if_neg hij]
            dsimp only
            exact extends_trans f (hact o i (seg o i j) caps st) (ih (i + 1) _)
      · rw [if_neg hi]
        exact extends_refl f st

theorem runREPass_extends (f : GenId → Option Nat) (re : RE)
    (act : Str → Nat → Str → Caps → PipeState → Str × PipeState)
    (hact : ∀ o i m caps st, Extends f st (act o i m caps st).2)
    (o : Str) (st : PipeState) : Extends f st (runREPass re act o st).2 :=
  runREPassGo_extends f re act o hact (o.length + 1) 0 st


theorem alpineCb_extends (o : Str) (i : Nat) (m : Str) (caps : Caps)
    (st : PipeState) : Extends fShared st (alpineCb o i m caps st).2 := by
  simp only [alpineCb]
  split
  · exact extends_store_right fShared
      (extends_store_right fShared
        (extends_allocShared_right
          (extends_allocShared_right (extends_refl fShared st) _) _) _ _) _ _
  · exact extends_store_right fShared
      (extends_store_right fShared
        (extends_allocShared_right
          (extends_allocShared_right (extends_refl fShared st) _) _) _ _) _ _

theorem vPreCb_extends (o : Str) (i : Nat) (m : Str) (caps : Caps)
    (st : PipeState) : Extends fShared st (vPreCb o i m caps st).2 := by
  simp only [vPreCb]
  exact extends_store_right fShared
    (extends_allocShared_right (extends_refl fShared st) _) _ _

theorem entityCb_extends (o : Str) (i : Nat) (m : Str) (caps : Caps)
    (st : PipeState) : Extends fEntity st (entityCb o i m caps st).2 := by
  simp only [entityCb]
  exact extends_store_right fEntity
    (extends_allocEntity_right (extends_refl fEntity st)) _ _

theorem scriptStyleCb_extends (fmtJS fmtCSS : Str → Option Str) (o : Str)
    (i : Nat) (m : Str) (caps : Caps) (st : PipeState) :
    Extends fShared st (scriptStyleCb fmtJS fmtCSS o i m caps st).2 := by
  simp only [scriptStyleCb]
  split
  · exact extends_store_right fShared
      (extends_allocShared_right (extends_refl fShared st) _) _ _
  · exact extends_store_right fShared
      (extends_allocShared_right (extends_refl fShared st) _) _ _

theorem spliceBlocks_extends (kind : SharedKind) (blocks : List Block)
    (c : Str) (st : PipeState) :
    Extends fShared st (spliceBlocks kind blocks c st).2 := by
  unfold spliceBlocks
  generalize blocks.reverse = bs
  induction bs generalizing c st with
  | nil => exact extends_refl fShared st
  | cons b rest ih =>
      rw [List.foldl_cons]
      exact extends_trans fShared
        (extends_store_right fShared
          (extends_allocShared_right (extends_refl fShared st) _) _ _)
        (ih _ _)

theorem eAttrCb_extends (o : Str) (i : Nat) (m : Str) (caps : Caps)
    (st : PipeState) : Extends fShared st (eAttrCb o i m caps st).2 := by
  simp only [eAttrCb]
  exact extends_store_right fShared
    (extends_allocShared_right (extends_refl fShared st) _) _ _

theorem elementCb_extends (o : Str) (i : Nat) (m : Str) (caps : Caps)
    (st : PipeState) : Extends fShared st (elementCb o i m caps st).2 := by
  simp only [elementCb]
  split
  · exact extends_refl fShared st
  · split
    · exact extends_refl fShared st
    · exact extends_trans fShared
        (extends_trans fShared (spliceBlocks_extends _ _ _ _)
          (spliceBlocks_extends _ _ _ _))
        (runREPass_extends fShared reEAttr eAttrCb eAttrCb_extends _ _)

theorem sixthCb_extends (idx : Nat) (o : Str) (i : Nat) (m : Str)
    (caps : Caps) (st : PipeState) :
    Extends fShared st (sixthCb idx o i m caps st).2 := by
  simp only [sixthCb]
  split
  · exact extends_refl fShared st
  · split
    · exact extends_refl fShared st
    · split
      · exact extends_refl fShared st
      · exact extends_store_right fShared
          (extends_allocShared_right (extends_refl fShared st) _) _ _

theorem seventhCb_extends (o : Str) (i : Nat) (m : Str) (caps : Caps)
    (st : PipeState) : Extends fShared st (seventhCb o i m caps st).2 := by
  simp only [seventhCb]
  split
  · exact extends_refl fShared st
  · exact extends_store_right fShared
      (extends_allocShared_right (extends_refl fShared st) _) _ _

theorem vueExprCb_extends (o : Str) (i : Nat) (m : Str) (caps : Caps)
    (st : PipeState) : Extends fShared st (vueExprCb o i m caps st).2 := by
  simp only [vueExprCb]
  exact extends_store_right fShared
    (extends_allocShared_right (extends_refl fShared st) _) _ _

theorem eighthCb_extends (o : Str) (i : Nat) (m : Str) (caps : Caps)
    (st : PipeState) : Extends fShared st (eighthCb o i m caps st).2 := by
  simp only [eighthCb]
  split
  · exact extends_refl fShared st
  · exact extends_refl fShared st

theorem arrowFilterCb_extends (o : Str) (i : Nat) (m : Str) (caps : Caps)
    (st : PipeState) : Extends fArrow st (arrowFilterCb o i m caps st).2 := by
  simp only [arrowFilterCb]
  exact extends_store_right fArrow
    (extends_allocArrow_right (extends_refl fArrow st)) _ _

theorem arrowSimpleCb_extends (o : Str) (i : Nat) (m : Str) (caps : Caps)
    (st : PipeState) : Extends fArrow st (arrowSimpleCb o i m caps st).2 := by
  simp only [arrowSimpleCb]
  exact extends_store_right fArrow
    (extends_allocArrow_right (extends_refl fArrow st)) _ _

theorem alpine_pass_extends (t : Str) (st : PipeState) :
    Extends fShared st (preprocessAlpineJSAttributes t st).2 := by
  unfold preprocessAlpineJSAttributes
  generalize alpinePatterns = ps
  induction ps generalizing t st with
  | nil => exact extends_refl fShared st
  | cons re rest ih =>
      rw [List.foldl_cons]
      exact extends_trans fShared
        (runREPass_extends fShared re alpineCb alpineCb_extends t st) (ih _ _)

theorem entity_pass_extends (t : Str) :
    Extends fEntity ⟨0, [], []⟩ (preprocessUnicodeCharacters t).2 := by
  unfold preprocessUnicodeCharacters
  exact extends_trans fEntity
    (runREPass_extends fEntity reEntityNum entityCb entityCb_extends t _)
    (runREPass_extends fEntity reEntityName entityCb entityCb_extends _ _)

theorem sixth_pass_extends (t : Str) (st : PipeState) :
    Extends fShared st (sixthPass t st).2 := by
  unfold sixthPass
  generalize sixthPassPatterns.enum = ps
  induction ps generalizing t st with
  | nil => exact extends_refl fShared st
  | cons p rest ih =>
      rw [List.foldl_cons]
      exact extends_trans fShared
        (runREPass_extends fShared p.2 (sixthCb p.1) (sixthCb_extends p.1) t st)
        (ih _ _)

theorem arrow_pass_extends (t : Str) :
    Extends fArrow initPipe (preprocessTwigArrowFunctions t).2 := by
  unfold preprocessTwigArrowFunctions
  exact extends_trans fArrow
    (runREPass_extends fArrow reArrowInFilter arrowFilterCb arrowFilterCb_extends t _)
    (runREPass_extends fArrow reArrowSimple arrowSimpleCb arrowSimpleCb_extends _ _)


theorem famRun_le (f : GenId → Option Nat) (ext : List GenId) :
    ∀ (c c' : Nat), FamRun f c ext c' → c ≤ c' := by
  induction ext with
  | nil => intro c c' h; cases h; exact Nat.le_refl _
  | cons g rest ih =>
      intro c c' h
      obtain ⟨_, h'⟩ := h
      exact Nat.le_of_succ_le (ih (c + 1) c' h')

theorem famRun_mem (f : GenId → Option Nat) (ext : List GenId) :
    ∀ (c c' : Nat), FamRun f c ext c' →
      ∀ g ∈ ext, ∃ n, f g = some n ∧ c ≤ n ∧ n < c' := by
  induction ext with
  | nil => intro c c' _ g hg; exact absurd hg (List.not_mem_nil g)
  | cons g0 rest ih =>
      intro c c' h g hg
      obtain ⟨hg0, h'⟩ := h
      rcases List.mem_cons.mp hg with rfl | hmem
      · exact ⟨c, hg0, Nat.le_refl c, Nat.lt_of_succ_le (famRun_le f rest _ _ h')⟩
      · obtain ⟨n, hn, hlo, hhi⟩ := ih (c + 1) c' h' g hmem
        exact ⟨n, hn, Nat.le_of_succ_le hlo, hhi⟩

theorem famRun_nodup (f : GenId → Option Nat) (ext : List GenId) :
    ∀ (c c' : Nat), FamRun f c ext c' → ext.Nodup := by
  induction ext with
  | nil => intro _ _ _; exact List.nodup_nil
  | cons g rest ih =>
      intro c c' h
      obtain ⟨hg, h'⟩ := h
      refine List.nodup_cons.mpr ⟨?_, ih (c + 1) c' h'⟩
      intro hmem
      obtain ⟨n, hn, hlo, _⟩ := famRun_mem f rest (c + 1) c' h' g hmem
      rw [hg] at hn
      have : n = c := by injection hn.symm
      omega

/-! #### Injectivity of the concrete id strings -/

theorem digit_run_append_inj (d1 : Str) : ∀ (d2 s1 s2 : Str),
    (∀ c ∈ d1, 48 ≤ c.toNat ∧ c.toNat ≤ 57) →
    (∀ c ∈ d2, 48 ≤ c.toNat ∧ c.toNat ≤ 57) →
    (∀ c, s1.head? = some c → ¬(48 ≤ c.toNat ∧ c.toNat ≤ 57)) →
    (∀ c, s2.head? = some c → ¬(48 ≤ c.toNat ∧ c.toNat ≤ 57)) →
    d1 ++ s1 = d2 ++ s2 → d1 = d2 ∧ s1 = s2 := by
  induction d1 with
  | nil =>
      intro d2 s1 s2 _ hd2 hs1 _ h
      cases d2 with
      | nil => exact ⟨rfl, h⟩
      | cons c2 r2 =>
          exfalso
          rw [List.nil_append, List.cons_append] at h
          exact hs1 c2 (by rw [h]; rfl) (hd2 c2 (List.mem_cons_self c2 r2))
  | cons c1 r1 ih =>
      intro d2 s1 s2 hd1 hd2 hs1 hs2 h
      cases d2 with
      | nil =>
          exfalso
          rw [List.nil_append, List.cons_append] at h
          exact hs2 c1 (by rw [← h]; rfl) (hd1 c1 (List.mem_cons_self c1 r1))
      | cons c2 r2 =>
          rw [List.cons_append, List.cons_append] at h
          obtain ⟨hc, h'⟩ := List.cons.injEq c1 _ c2 _ ▸ h
          obtain ⟨hd, hs⟩ := ih r2 s1 s2
            (fun c hc' => hd1 c (List.mem_cons_of_mem _ hc'))
            (fun c hc' => hd2 c (List.mem_cons_of_mem _ hc')) hs1 hs2 h'
          exact ⟨by rw [hc, hd], hs⟩

theorem natStr_rev_digits (n : Nat) :
    ∀ c ∈ (natStr n).reverse, 48 ≤ c.toNat ∧ c.toNat ≤ 57 :=
  fun c hc => natStr_digits n c (List.mem_reverse.mp hc)

theorem sharedKindStr_rev_head (k : SharedKind) :
    (sharedKindStr k).reverse.head? = some '-' := by
  cases k <;> rfl

theorem sharedKindStr_inj (k1 k2 : SharedKind)
    (h : sharedKindStr k1 = sharedKindStr k2) : k1 = k2 := by
  cases k1 <;> cases k2 <;> first | rfl | exact absurd h (by decide)

theorem idStr_shared_head (k : SharedKind) (n : Nat) :
    ∃ c, (idStr (.shared k n)).head? = some c ∧ c ≠ '_' := by
  cases k <;> exact ⟨_, rfl, by decide⟩

theorem idStr_inj : Function.Injective idStr := by
  intro g1 g2 h
  cases g1 with
  | shared k1 n1 =>
      cases g2 with
      | shared k2 n2 =>
          simp only [idStr] at h
          have hrev := congrArg List.reverse h
          rw [List.reverse_append, List.reverse_append] at hrev
          obtain ⟨hd, hp⟩ := digit_run_append_inj _ _ _ _
            (natStr_rev_digits n1) (natStr_rev_digits n2)
            (fun c hc => by
              rw [sharedKindStr_rev_head k1] at hc
              cases hc
              decide)
            (fun c hc => by
              rw [sharedKindStr_rev_head k2] at hc
              cases hc
              decide)
            hrev
          have hn : n1 = n2 := natStr_injective (List.reverse_injective hd)
          have hk : k1 = k2 := sharedKindStr_inj k1 k2 (List.reverse_injective hp)
          rw [hn, hk]
      | entity n2 =>
          exfalso
          obtain ⟨c, hc, hne⟩ := idStr_shared_head k1 n1
          rw [h] at hc
          have h2 : (idStr (.entity n2)).head? = some '_' := rfl
          rw [h2] at hc
          exact hne (Option.some.inj hc).symm
      | arrow n2 =>
          exfalso
          obtain ⟨c, hc, hne⟩ := idStr_shared_head k1 n1
          rw [h] at hc
          have h2 : (idStr (.arrow n2)).head? = some '_' := rfl
          rw [h2] at hc
          exact hne (Option.some.inj hc).symm
  | entity n1 =>
      cases g2 with
      | shared k2 n2 =>
          exfalso
          obtain ⟨c, hc, hne⟩ := idStr_shared_head k2 n2
          rw [← h] at hc
          have h2 : (idStr (.entity n1)).head? = some '_' := rfl
          rw [h2] at hc
          exact hne (Option.some.inj hc).symm
      | entity n2 =>
          simp only [idStr] at h
          rw [List.append_assoc, List.append_assoc] at h
          have h2 := List.append_cancel_left h
          obtain ⟨hd, _⟩ := digit_run_append_inj _ _ _ _
            (natStr_digits n1) (natStr_digits n2)
            (fun c hc => by cases hc; decide)
            (fun c hc => by cases hc; decide) h2
          rw [natStr_injective hd]
      | arrow n2 =>
          exfalso
          have h1 : ((idStr (.entity n1)).drop 2).head? = some 'H' := rfl
          rw [h] at h1
          have h2 : ((idStr (.arrow n2)).drop 2).head? = some 'T' := rfl
          rw [h2] at h1
          exact absurd h1 (by decide)
  | arrow n1 =>
      cases g2 with
      | shared k2 n2 =>
          exfalso
          obtain ⟨c, hc, hne⟩ := idStr_shared_head k2 n2
          rw [← h] at hc
          have h2 : (idStr (.arrow n1)).head? = some '_' := rfl
          rw [h2] at hc
          exact hne (Option.some.inj hc).symm
      | entity n2 =>
          exfalso
          have h1 : ((idStr (.arrow n1)).drop 2).head? = some 'T' := rfl
          rw [h] at h1
          have h2 : ((idStr (.entity n2)).drop 2).head? = some 'H' := rfl
          rw [h2] at h1
          exact absurd h1 (by decide)
      | arrow n2 =>
          simp only [idStr] at h
          rw [List.append_assoc, List.append_assoc] at h
          have h2 := List.append_cancel_left h
          obtain ⟨hd, _⟩ := digit_run_append_inj _ _ _ _
            (natStr_digits n1) (natStr_digits n2)
            (fun c hc => by cases hc; decide)
            (fun c hc => by cases hc; decide) h2
          rw [natStr_injective hd]


/-- The first two passes of `preprocessVueAlpineAttributes` (Alpine
attributes, then v-pre), as they appear before the entity merge. -/
def afterVPre (text : Str) : Str × PipeState :=
  let r1 := preprocessAlpineJSAttributes text initPipe
  runREPass reVPre vPreCb r1.1 r1.2

/-- The merge of the entity-pass state into the main state (lines 392-393:
`entityReplacements.forEach(...)` over the shared map). -/
def mergedState (r2 ent : Str × PipeState) : PipeState :=
  { ctr := r2.2.ctr,
    entries := ent.2.entries.foldl (fun es kv => mapSet es kv.1 kv.2) r2.2.entries,
    log := r2.2.log ++ ent.2.log }

/-- Passes four to eight of `preprocessVueAlpineAttributes`. -/
def vueTail (fmtJS fmtCSS : Str → Option Str) (t : Str) (st : PipeState) :
    Str × PipeState :=
  let r4 := runREPass reScriptStyle (scriptStyleCb fmtJS fmtCSS) t st
  let r5 := runREPass reElementTag elementCb r4.1 r4.2
  let r6 := sixthPass r5.1 r5.2
  let r7 := runREPass reVueAlpineAttr seventhCb r6.1 r6.2
  let r8 := runREPass reVueExpression vueExprCb r7.1 r7.2
  runREPass reSingleQuoted eighthCb r8.1 r8.2

theorem mergedState_log (a b : Str × PipeState) :
    (mergedState a b).log = a.2.log ++ b.2.log := rfl

theorem mergedState_ctr (a b : Str × PipeState) :
    (mergedState a b).ctr = a.2.ctr := rfl

theorem vue_eq_tail (fmtJS fmtCSS : Str → Option Str) (text : Str) :
    preprocessVueAlpineAttributes fmtJS fmtCSS text =
      vueTail fmtJS fmtCSS
        (preprocessUnicodeCharacters (afterVPre text).1).1
        (mergedState (afterVPre text)
          (preprocessUnicodeCharacters (afterVPre text).1)) := by
  simp only [preprocessVueAlpineAttributes, vueTail, afterVPre, mergedState]

theorem vueTail_extends (fmtJS fmtCSS : Str → Option Str) (t : Str)
    (st : PipeState) : Extends fShared st (vueTail fmtJS fmtCSS t st).2 := by
  simp only [vueTail]
  exact extends_trans fShared
    (runREPass_extends fShared _ _ (scriptStyleCb_extends fmtJS fmtCSS) t st)
    (extends_trans fShared (runREPass_extends fShared _ _ elementCb_extends _ _)
      (extends_trans fShared (sixth_pass_extends _ _)
        (extends_trans fShared (runREPass_extends fShared _ _ seventhCb_extends _ _)
          (extends_trans fShared (runREPass_extends fShared _ _ vueExprCb_extends _ _)
            (runREPass_extends fShared _ _ eighthCb_extends _ _)))))

theorem vue_log_structure (fmtJS fmtCSS : Str → Option Str) (text : Str) :
    ∃ eS1 eE eS2 c1 c2 c3,
      (preprocessVueAlpineAttributes fmtJS fmtCSS text).2.log =
        (eS1 ++ eE) ++ eS2 ∧
      FamRun fShared 0 eS1 c1 ∧ FamRun fEntity 0 eE c2 ∧
      FamRun fShared c1 eS2 c3 := by
  have h1 : Extends fShared initPipe (afterVPre text).2 := by
    simp only [afterVPre]
    exact extends_trans fShared (alpine_pass_extends text initPipe)
      (runREPass_extends fShared reVPre vPreCb vPreCb_extends _ _)
  have h2 : Extends fEntity ⟨0, [], []⟩
      (preprocessUnicodeCharacters (afterVPre text).1).2 :=
    entity_pass_extends _
  have h3 : Extends fShared
      (mergedState (afterVPre text) (preprocessUnicodeCharacters (afterVPre text).1))
      (preprocessVueAlpineAttributes fmtJS fmtCSS text).2 := by
    rw [vue_eq_tail]
    exact vueTail_extends fmtJS fmtCSS _ _
  obtain ⟨e1, hl1, hr1⟩ := h1
  obtain ⟨e2, hl2, hr2⟩ := h2
  obtain ⟨e3, hl3, hr3⟩ := h3
  rw [show initPipe.log = [] from rfl, List.nil_append] at hl1
  rw [show initPipe.ctr = 0 from rfl] at hr1
  rw [show (PipeState.log ⟨0, [], []⟩) = [] from rfl, List.nil_append] at hl2
  rw [show (PipeState.ctr ⟨0, [], []⟩) = 0 from rfl] at hr2
  rw [mergedState_log] at hl3
  rw [mergedState_ctr] at hr3
  exact ⟨e1, e2, e3, _, _, _, by rw [hl3, hl1, hl2], hr1, hr2, hr3⟩

theorem fam_clash_SE (g : GenId) (a b : Nat) (h1 : fShared g = some a)
    (h2 : fEntity g = some b) : False := by
  cases g <;> simp [fShared, fEntity] at h1 h2

theorem fam_clash_SA (g : GenId) (a b : Nat) (h1 : fShared g = some a)
    (h2 : fArrow g = some b) : False := by
  cases g <;> simp [fShared, fArrow] at h1 h2

theorem fam_clash_EA (g : GenId) (a b : Nat) (h1 : fEntity g = some a)
    (h2 : fArrow g = some b) : False := by
  cases g <;> simp [fEntity, fArrow] at h1 h2

theorem log_nodup (eS1 eE eS2 eA : List GenId) (c1 c2 c3 c4 : Nat)
    (h1 : FamRun fShared 0 eS1 c1) (h2 : FamRun fEntity 0 eE c2)
    (h3 : FamRun fShared c1 eS2 c3) (h4 : FamRun fArrow 0 eA c4) :
    (((eS1 ++ eE) ++ eS2) ++ eA).Nodup := by
  have m1 := famRun_mem _ _ _ _ h1
  have m2 := famRun_mem _ _ _ _ h2
  have m3 := famRun_mem _ _ _ _ h3
  have m4 := famRun_mem _ _ _ _ h4
  rw [List.nodup_append, List.nodup_append, List.nodup_append]
  refine ⟨⟨⟨famRun_nodup _ _ _ _ h1, famRun_nodup _ _ _ _ h2, ?_⟩,
    famRun_nodup _ _ _ _ h3, ?_⟩, famRun_nodup _ _ _ _ h4, ?_⟩
  · intro g hgA hgB
    obtain ⟨a, ha, _, _⟩ := m1 g hgA
    obtain ⟨b, hb, _, _⟩ := m2 g hgB
    exact fam_clash_SE g a b ha hb
  · intro g hgA hgB
    obtain ⟨b, hb, hblo, _⟩ := m3 g hgB
    rcases List.mem_append.mp hgA with hg1 | hg2
    · obtain ⟨a, ha, _, hahi⟩ := m1 g hg1
      rw [ha] at hb
      have : a = b := by injection hb
      omega
    · obtain ⟨a, ha, _, _⟩ := m2 g hg2
      exact fam_clash_SE g b a hb ha
  · intro g hgA hgB
    obtain ⟨b, hb, _, _⟩ := m4 g hgB
    rcases List.mem_append.mp hgA with hg12 | hg3
    · rcases List.mem_append.mp hg12 with hg1 | hg2
      · obtain ⟨a, ha, _, _⟩ := m1 g hg1
        exact fam_clash_SA g a b ha hb
      · obtain ⟨a, ha, _, _⟩ := m2 g hg2
        exact fam_clash_EA g a b ha hb
    · obtain ⟨a, ha, _, _⟩ := m3 g hg3
      exact fam_clash_SA g a b ha hb

/-- C6: for every input and any sub-formatters, the placeholder ids generated
within one pipeline run — across the Vue/Alpine passes, the entity pass and
the arrow pass, in the order recorded by the allocation ledger attached to
the pipeline result — are pairwise distinct as strings. -/
theorem c6_placeholder_ids_distinct (fmtJS fmtCSS : Str → Option Str)
    (text : Str) :
    ((protectPipeline fmtJS fmtCSS text).2.2.map idStr).Nodup := by
  obtain ⟨eS1, eE, eS2, c1, c2, c3, hlog, hr1, hr2, hr3⟩ :=
    vue_log_structure fmtJS fmtCSS text
  obtain ⟨eA, haLog, hrA⟩ :=
    arrow_pass_extends (preprocessVueAlpineAttributes fmtJS fmtCSS text).1
  rw [show initPipe.log = [] from rfl, List.nil_append] at haLog
  rw [show initPipe.ctr = 0 from rfl] at hrA
  have hP : (protectPipeline fmtJS fmtCSS text).2.2 =
      (preprocessVueAlpineAttributes fmtJS fmtCSS text).2.log ++
        (preprocessTwigArrowFunctions
          (preprocessVueAlpineAttributes fmtJS fmtCSS text).1).2.log := rfl
  rw [hP, hlog, haLog]
  exact (log_nodup eS1 eE eS2 eA c1 c2 c3 _ hr1 hr2 hr3 hrA).map idStr_inj

end TwigMelody

namespace TwigMelody

theorem matches_vueExpr_dollar (o : Str) (i : Nat) (c : Caps) (j : Nat)
    (caps : Caps) (h : Matches o reVueExpression i c j caps) :
    charAt o i = some '$' := by
  obtain ⟨k, c1, h1, _⟩ := matches_seq o _ _ i c j caps h
  exact (matches_lit o '$' i c k c1 h1).1

theorem matches_elementTag_lt (o : Str) (i : Nat) (c : Caps) (j : Nat)
    (caps : Caps) (h : Matches o reElementTag i c j caps) :
    charAt o i = some '<' := by
  obtain ⟨k, c1, h1, _⟩ := matches_seq o _ _ i c j caps h
  exact (matches_lit o '<' i c k c1 h1).1

theorem hasSubstr_mem (s w : Str) (h : hasSubstr s w = true) :
    ∀ c ∈ w, c ∈ s := by
  unfold hasSubstr at h
  rw [List.any_eq_true] at h
  obtain ⟨i, _, hs⟩ := h
  unfold substrAt at hs
  rw [decide_eq_true_eq] at hs
  intro c hc
  rw [← hs] at hc
  exact List.mem_of_mem_drop (List.mem_of_mem_take hc)

theorem seg_cons (o : Str) (i k : Nat) (hik : i < k) (hil : i < o.length) :
    seg o i k = o.getD i ' ' :: seg o (i + 1) k := by
  unfold seg
  rw [← getD_cons_drop o i hil]
  have hk : k - i = (k - (i + 1)) + 1 := by omega
  rw [hk, List.take_succ_cons]

theorem runREPassGo_fuel {σ : Type} (re : RE)
    (act : Str → Nat → Str → Caps → σ → Str × σ) (o : Str) :
    ∀ f1 f2 i (st : σ), o.length - i < f1 → o.length - i < f2 →
      runREPassGo re act o f1 i st = runREPassGo re act o f2 i st := by
  intro f1
  induction f1 with
  | zero => intro f2 i st h1 _; omega
  | succ f1 ih =>
      intro f2 i st h1 h2
      obtain ⟨f2', rfl⟩ : ∃ f2', f2 = f2' + 1 := ⟨f2 - 1, by omega⟩
      rw [runREPassGo, runREPassGo]
      by_cases hi : i < o.length
      · rw [if_pos hi, if_pos hi]
        rcases hm : reFirst re o i with _ | p
        · try dsimp only
          rw [ih f2' (i + 1) st (by omega) (by omega)]
        · obtain ⟨j, caps⟩ := p
          try dsimp only
          by_cases hij : i < j
          · rw [if_pos hij, if_pos hij]
            try dsimp only
            rw [ih f2' j _ (by omega) (by omega)]
          · rw [if_neg hij, if_neg hij]
            try dsimp only
            rw [ih f2' (i + 1) _ (by omega) (by omega)]
      · rw [if_neg hi, if_neg hi]

theorem runREPassGo_none {σ : Type} (re : RE)
    (act : Str → Nat → Str → Caps → σ → Str × σ) (o : Str) (k : Nat)
    (hnone : ∀ t, k ≤ t → t < o.length → reFirst re o t = none) :
    ∀ fuel i (st : σ), k ≤ i → o.length - i ≤ fuel →
      runREPassGo re act o fuel i st = (o.drop i, st) := by
  intro fuel
  induction fuel with
  | zero =>
      intro i st hki hf
      rw [runREPassGo, List.drop_eq_nil_of_le (by omega)]
  | succ fuel ih =>
      intro i st hki hf
      rw [runREPassGo]
      by_cases hi : i < o.length
      · rw [if_pos hi, hnone i hki hi]
        try dsimp only
        rw [ih (i + 1) st (by omega) (by omega), getD_cons_drop o i hi]
      · rw [if_neg hi, List.drop_eq_nil_of_le (by omega)]

theorem runREPassGo_copy {σ : Type} (re : RE)
    (act : Str → Nat → Str → Caps → σ → Str × σ) (o : Str) (k : Nat)
    (hnone : ∀ t, t < k → reFirst re o t = none) (hk : k ≤ o.length) :
    ∀ fuel i (st : σ), i ≤ k → o.length - i < fuel →
      runREPassGo re act o fuel i st =
        (seg o i k ++ (runREPassGo re act o (o.length + 1) k st).1,
         (runREPassGo re act o (o.length + 1) k st).2) := by
  intro fuel
  induction fuel with
  | zero => intro i st _ h; omega
  | succ fuel ih =>
      intro i st hik hf
      by_cases hike : i = k
      · subst hike
        have hseg : seg o i i = [] := by
          unfold seg
          rw [Nat.sub_self, List.take_zero]
        rw [hseg, List.nil_append,
          runREPassGo_fuel re act o (fuel + 1) (o.length + 1) i st (by omega) (by omega)]
      · have hilt : i < k := by omega
        have hi : i < o.length := by omega
        rw [runREPassGo, if_pos hi, hnone i hilt]
        try dsimp only
        rw [ih (i + 1) st (by omega) (by omega)]
        rw [seg_cons o i k hilt hi]
        rw [List.cons_append]

theorem runREPass_single {σ : Type} (re : RE)
    (act : Str → Nat → Str → Caps → σ → Str × σ) (o : Str) (p j : Nat)
    (caps : Caps) (st : σ)
    (hnone1 : ∀ t, t < p → reFirst re o t = none)
    (hp : reFirst re o p = some (j, caps))
    (hplen : p < o.length) (hij : p < j) (hjlen : j ≤ o.length)
    (hnone2 : ∀ t, j ≤ t → t < o.length → reFirst re o t = none) :
    runREPass re act o st =
      (o.take p ++ (act o p (seg o p j) caps st).1 ++ o.drop j,
       (act o p (seg o p j) caps st).2) := by
  unfold runREPass
  rw [runREPassGo_copy re act o p hnone1 (by omega) (o.length + 1) 0 st
    (Nat.zero_le p) (by omega)]
  have hmain : runREPassGo re act o (o.length + 1) p st =
      ((act o p (seg o p j) caps st).1 ++ o.drop j,
       (act o p (seg o p j) caps st).2) := by
    obtain ⟨f, hfe⟩ : ∃ f, o.length + 1 = f + 1 := ⟨o.length, rfl⟩
    rw [hfe, runREPassGo, if_pos hplen, hp]
    try dsimp only
    rw [if_pos hij]
    try dsimp only
    rw [runREPassGo_none re act o j hnone2 f j _ (Nat.le_refl j) (by omega)]
  rw [hmain]
  have hseg : seg o 0 p = o.take p := by
    unfold seg
    rw [List.drop_zero, Nat.sub_zero]
  rw [hseg, List.append_assoc]

end TwigMelody

namespace TwigMelody

theorem star_cls_run (k : Cls) (o : Str) (caps : Caps) :
    ∀ (L i : Nat),
      (∀ t, t < L → ∃ c, charAt o (i + t) = some c ∧ clsFn k c = true) →
      (∀ c, charAt o (i + L) = some c → clsFn k c = false) →
      ∀ fuel, L + 2 ≤ fuel →
        reM o fuel (.star (.cls k) false) i caps =
          (List.range (L + 1)).map (fun t => (i + L - t, caps)) := by
  intro L
  induction L with
  | zero =>
      intro i hrun hstop fuel hfuel
      obtain ⟨f, rfl⟩ : ∃ f, fuel = f + 1 := ⟨fuel - 1, by omega⟩
      obtain ⟨g, rfl⟩ : ∃ g, f = g + 1 := ⟨f - 1, by omega⟩
      simp only [reM]
      rw [show List.range 1 = [0] from rfl]
      rcases hc : charAt o i with _ | c
      · simp [hc]
      · have hF := hstop c hc
        simp [hF]
  | succ L ih =>
      intro i hrun hstop fuel hfuel
      obtain ⟨f, rfl⟩ : ∃ f, fuel = f + 1 := ⟨fuel - 1, by omega⟩
      obtain ⟨g, rfl⟩ : ∃ g, f = g + 1 := ⟨f - 1, by omega⟩
      obtain ⟨c, hc, hP⟩ := hrun 0 (by omega)
      have hc' : charAt o i = some c := hc
      have hstar : reM o (g + 1) (.star (.cls k) false) (i + 1) caps =
          (List.range (L + 1)).map (fun t => (i + 1 + L - t, caps)) := by
        refine ih (i + 1) ?_ ?_ (g + 1) (by omega)
        · intro t ht
          obtain ⟨d, hd, hPd⟩ := hrun (t + 1) (by omega)
          refine ⟨d, ?_, hPd⟩
          rw [show i + 1 + t = i + (t + 1) from by omega]
          exact hd
        · intro d hd
          refine hstop d ?_
          rw [show i + (L + 1) = i + 1 + L from by omega]
          exact hd
      conv_lhs => rw [reM]
      rw [if_neg (by simp)]
      have hcls : reM o (g + 1) (.cls k) i caps = [(i + 1, caps)] := by
        rw [reM, hc']
        simp [hP]
      rw [hcls]
      rw [List.flatMap_cons, List.flatMap_nil, List.append_nil]
      rw [if_neg (by omega : ¬(i + 1 = i))]
      rw [hstar]
      have h1 : (List.range (L + 1)).map (fun t => (i + 1 + L - t, caps)) =
          (List.range (L + 1)).map (fun t => (i + (L + 1) - t, caps)) := by
        refine List.map_congr_left ?_
        intro t _
        rw [show i + 1 + L - t = i + (L + 1) - t from by omega]
      rw [h1]
      conv_rhs => rw [List.range_succ, List.map_append]
      simp

end TwigMelody

namespace TwigMelody

theorem charAt_append_left (a b : Str) (t : Nat) (h : t < a.length) :
    charAt (a ++ b) t = charAt a t := by
  unfold charAt
  rw [List.get?_eq_getElem?, List.get?_eq_getElem?, List.getElem?_append, if_pos h]

theorem charAt_append_right (a b : Str) (t : Nat) :
    charAt (a ++ b) (a.length + t) = charAt b t := by
  unfold charAt
  rw [List.get?_eq_getElem?, List.get?_eq_getElem?]
  rw [List.getElem?_append_right (by omega)]
  congr 1
  omega

theorem get_mem_of_charAt (o : Str) (i : Nat) (c : Char)
    (h : charAt o i = some c) : c ∈ o :=
  mem_of_charAt o i c h

end TwigMelody

namespace TwigMelody

theorem ca_pre (pre e suf : Str) (t : Nat) (ht : t < pre.length) :
    charAt (pre ++ S "$\x7b" ++ e ++ S "\x7d" ++ suf) t = charAt pre t := by
  have l2 : (S "$\x7b").length = 2 := rfl
  have l1 : (S "\x7d").length = 1 := rfl
  rw [charAt_append_left _ suf t (by
    rw [List.length_append, List.length_append, List.length_append, l2, l1]; omega)]
  rw [charAt_append_left _ _ t (by
    rw [List.length_append, List.length_append, l2]; omega)]
  rw [charAt_append_left _ e t (by rw [List.length_append, l2]; omega)]
  rw [charAt_append_left pre _ t ht]

theorem ca_dollar (pre e suf : Str) :
    charAt (pre ++ S "$\x7b" ++ e ++ S "\x7d" ++ suf) pre.length = some '$' := by
  have l2 : (S "$\x7b").length = 2 := rfl
  have l1 : (S "\x7d").length = 1 := rfl
  rw [charAt_append_left _ suf _ (by
    rw [List.length_append, List.length_append, List.length_append, l2, l1]; omega)]
  rw [charAt_append_left _ _ _ (by
    rw [List.length_append, List.length_append, l2]; omega)]
  rw [charAt_append_left _ e _ (by rw [List.length_append, l2]; omega)]
  have h := charAt_append_right pre (S "$\x7b") 0
  rw [Nat.add_zero] at h
  rw [h]
  rfl

theorem ca_lbrace (pre e suf : Str) :
    charAt (pre ++ S "$\x7b" ++ e ++ S "\x7d" ++ suf) (pre.length + 1) =
      some '\x7b' := by
  have l2 : (S "$\x7b").length = 2 := rfl
  have l1 : (S "\x7d").length = 1 := rfl
  rw [charAt_append_left _ suf _ (by
    rw [List.length_append, List.length_append, List.length_append, l2, l1]; omega)]
  rw [charAt_append_left _ _ _ (by
    rw [List.length_append, List.length_append, l2]; omega)]
  rw [charAt_append_left _ e _ (by rw [List.length_append, l2]; omega)]
  have h := charAt_append_right pre (S "$\x7b") 1
  rw [h]
  rfl

theorem ca_e (pre e suf : Str) (u : Nat) (hu : u < e.length) :
    charAt (pre ++ S "$\x7b" ++ e ++ S "\x7d" ++ suf) (pre.length + 2 + u) =
      charAt e u := by
  have l2 : (S "$\x7b").length = 2 := rfl
  have l1 : (S "\x7d").length = 1 := rfl
  rw [charAt_append_left _ suf _ (by
    rw [List.length_append, List.length_append, List.length_append, l2, l1]; omega)]
  rw [charAt_append_left _ _ _ (by
    rw [List.length_append, List.length_append, l2]; omega)]
  have h := charAt_append_right (pre ++ S "$\x7b") e u
  rw [List.length_append, l2] at h
  rw [h]

theorem ca_rbrace (pre e suf : Str) :
    charAt (pre ++ S "$\x7b" ++ e ++ S "\x7d" ++ suf)
      (pre.length + 2 + e.length) = some '\x7d' := by
  have l2 : (S "$\x7b").length = 2 := rfl
  rw [List.append_assoc (pre ++ S "$\x7b" ++ e) (S "\x7d") suf]
  have h := charAt_append_right (pre ++ S "$\x7b" ++ e) (S "\x7d" ++ suf) 0
  rw [Nat.add_zero, List.length_append, List.length_append, l2] at h
  rw [h]
  rfl

theorem ca_suf (pre e suf : Str) (u : Nat) :
    charAt (pre ++ S "$\x7b" ++ e ++ S "\x7d" ++ suf)
      (pre.length + 2 + e.length + 1 + u) = charAt suf u := by
  have l2 : (S "$\x7b").length = 2 := rfl
  have l1 : (S "\x7d").length = 1 := rfl
  have h := charAt_append_right (pre ++ S "$\x7b" ++ e ++ S "\x7d") suf u
  rw [List.length_append, List.length_append, List.length_append, l2, l1] at h
  rw [h]

theorem noDollar (pre e suf : Str) (h1 : '$' ∉ pre) (h2 : '$' ∉ e)
    (h3 : '$' ∉ suf) (t : Nat) (ht : t ≠ pre.length) :
    charAt (pre ++ S "$\x7b" ++ e ++ S "\x7d" ++ suf) t ≠ some '$' := by
  intro hc
  rcases Nat.lt_trichotomy t pre.length with hlt | heq | hgt
  · rw [ca_pre pre e suf t hlt] at hc
    exact h1 (mem_of_charAt _ _ _ hc)
  · exact ht heq
  · by_cases h4 : t = pre.length + 1
    · rw [h4, ca_lbrace] at hc
      simp at hc
    · by_cases h5 : t < pre.length + 2 + e.length
      · have hu : t = pre.length + 2 + (t - pre.length - 2) := by omega
        rw [hu, ca_e pre e suf _ (by omega)] at hc
        exact h2 (mem_of_charAt _ _ _ hc)
      · by_cases h6 : t = pre.length + 2 + e.length
        · rw [h6, ca_rbrace] at hc
          simp at hc
        · have hu : t = pre.length + 2 + e.length + 1 +
              (t - (pre.length + 2 + e.length + 1)) := by omega
          rw [hu, ca_suf] at hc
          exact h3 (mem_of_charAt _ _ _ hc)

theorem vueExpr_none (pre e suf : Str) (h1 : '$' ∉ pre) (h2 : '$' ∉ e)
    (h3 : '$' ∉ suf) (t : Nat) (ht : t ≠ pre.length) :
    reFirst reVueExpression (pre ++ S "$\x7b" ++ e ++ S "\x7d" ++ suf) t =
      none := by
  rcases hm : reFirst reVueExpression (pre ++ S "$\x7b" ++ e ++ S "\x7d" ++ suf) t
    with _ | p
  · rfl
  · exfalso
    obtain ⟨j, caps⟩ := p
    exact noDollar pre e suf h1 h2 h3 t ht
      (matches_vueExpr_dollar _ t [] j caps (matches_of_reFirst _ _ t j caps hm))

end TwigMelody

namespace TwigMelody

theorem reM_lit_eq (o : Str) (f : Nat) (c : Char) (i : Nat) (caps : Caps)
    (h : charAt o i = some c) :
    reM o (f + 1) (.lit c) i caps = [(i + 1, caps)] := by
  simp [reM, h]

theorem reM_lit_ne (o : Str) (f : Nat) (c d : Char) (i : Nat) (caps : Caps)
    (h : charAt o i = some d) (hne : d ≠ c) :
    reM o (f + 1) (.lit c) i caps = [] := by
  simp [reM, h, hne]

theorem vueExpr_first (pre e suf : Str) (hbe : '\x7d' ∉ e) :
    reFirst reVueExpression (pre ++ S "$\x7b" ++ e ++ S "\x7d" ++ suf)
      pre.length =
    some (pre.length + 2 + e.length + 1,
      [(1, pre.length + 2, pre.length + 2 + e.length)]) := by
  have hlen : (pre ++ S "$\x7b" ++ e ++ S "\x7d" ++ suf).length =
      pre.length + 2 + e.length + 1 + suf.length := by
    simp [List.length_append, S]
    omega
  have hsz : reFuel reVueExpression (pre ++ S "$\x7b" ++ e ++ S "\x7d" ++ suf) =
      11 * ((pre ++ S "$\x7b" ++ e ++ S "\x7d" ++ suf).length + 2) := rfl
  have hFeq : reFuel reVueExpression (pre ++ S "$\x7b" ++ e ++ S "\x7d" ++ suf) =
      (reFuel reVueExpression (pre ++ S "$\x7b" ++ e ++ S "\x7d" ++ suf) - 4) + 4 := by
    rw [hsz, hlen]
    omega
  have hf3 : e.length + 2 ≤
      reFuel reVueExpression (pre ++ S "$\x7b" ++ e ++ S "\x7d" ++ suf) - 4 := by
    rw [hsz, hlen]
    omega
  generalize hf : reFuel reVueExpression (pre ++ S "$\x7b" ++ e ++ S "\x7d" ++ suf) - 4 = f3 at hFeq hf3
  -- the greedy class run over the expression body
  have hstar : reM (pre ++ S "$\x7b" ++ e ++ S "\x7d" ++ suf) f3
      (.star (.cls .notRbrace) false) (pre.length + 2) [] =
      (List.range (e.length + 1)).map
        (fun t => (pre.length + 2 + e.length - t, [])) := by
    refine star_cls_run .notRbrace _ [] e.length (pre.length + 2) ?_ ?_ f3 hf3
    · intro t ht
      rcases hc : charAt e t with _ | c
      · exfalso
        unfold charAt at hc
        rw [List.get?_eq_getElem?, List.getElem?_eq_none_iff] at hc
        omega
      · refine ⟨c, ?_, ?_⟩
        · rw [ca_e pre e suf t ht]
          exact hc
        · have hmem : c ∈ e := mem_of_charAt e t c hc
          have hne : c ≠ '\x7d' := fun hh => hbe (hh ▸ hmem)
          simp [clsFn, hne]
    · intro c hc
      rw [show pre.length + 2 + e.length = pre.length + 2 + e.length from rfl,
        ca_rbrace pre e suf] at hc
      have : c = '\x7d' := by injection hc.symm
      simp [clsFn, this]
  -- the capture group around it
  have hgroup : reM (pre ++ S "$\x7b" ++ e ++ S "\x7d" ++ suf) (f3 + 1)
      (.group 1 (.star (.cls .notRbrace) false)) (pre.length + 2) [] =
      (List.range (e.length + 1)).map
        (fun t => (pre.length + 2 + e.length - t,
          [(1, pre.length + 2, pre.length + 2 + e.length - t)])) := by
    simp only [reM]
    rw [hstar, List.map_map]
    rfl
  -- the group followed by the closing brace
  have hseq2 : reM (pre ++ S "$\x7b" ++ e ++ S "\x7d" ++ suf) (f3 + 2)
      (.seq (.group 1 (.star (.cls .notRbrace) false)) (.lit '\x7d'))
      (pre.length + 2) [] =
      [(pre.length + 2 + e.length + 1,
        [(1, pre.length + 2, pre.length + 2 + e.length)])] := by
    show (reM (pre ++ S "$\x7b" ++ e ++ S "\x7d" ++ suf) (f3 + 1)
        (.group 1 (.star (.cls .notRbrace) false)) (pre.length + 2) []).flatMap
        (fun q => reM (pre ++ S "$\x7b" ++ e ++ S "\x7d" ++ suf) (f3 + 1)
          (.lit '\x7d') q.1 q.2) = _
    rw [hgroup, List.range_succ_eq_map, List.map_cons, List.flatMap_cons, List.map_map]
    have h0 : reM (pre ++ S "$\x7b" ++ e ++ S "\x7d" ++ suf) (f3 + 1)
        (.lit '\x7d') (pre.length + 2 + e.length - 0)
        [(1, pre.length + 2, pre.length + 2 + e.length - 0)] =
        [(pre.length + 2 + e.length + 1,
          [(1, pre.length + 2, pre.length + 2 + e.length)])] := by
      rw [Nat.sub_zero]
      rw [reM_lit_eq _ f3 '\x7d' _ _ (ca_rbrace pre e suf)]
    rw [h0]
    have hrest : (List.map ((fun t => (pre.length + 2 + e.length - t,
          [(1, pre.length + 2, pre.length + 2 + e.length - t)])) ∘ Nat.succ)
        (List.range e.length)).flatMap
        (fun q => reM (pre ++ S "$\x7b" ++ e ++ S "\x7d" ++ suf) (f3 + 1)
          (.lit '\x7d') q.1 q.2) = [] := by
      rw [List.flatMap_eq_nil_iff]
      intro q hq
      rw [List.mem_map] at hq
      obtain ⟨u, hu, rfl⟩ := hq
      rw [List.mem_range] at hu
      simp only [Function.comp_apply]
      have harith : pre.length + 2 + e.length - Nat.succ u =
          pre.length + 2 + (e.length - u - 1) := by omega
      rw [harith]
      have hlt : e.length - u - 1 < e.length := by omega
      rcases hc : charAt e (e.length - u - 1) with _ | c
      · exfalso
        unfold charAt at hc
        rw [List.get?_eq_getElem?, List.getElem?_eq_none_iff] at hc
        omega
      · have hca : charAt (pre ++ S "$\x7b" ++ e ++ S "\x7d" ++ suf)
            (pre.length + 2 + (e.length - u - 1)) = some c := by
          rw [ca_e pre e suf _ hlt]
          exact hc
        have hmem : c ∈ e := mem_of_charAt e _ c hc
        have hne : c ≠ '\x7d' := fun hh => hbe (hh ▸ hmem)
        exact reM_lit_ne _ f3 '\x7d' c _ _ hca hne
    rw [hrest, List.append_nil]
  -- prefix the two literal characters
  have hseq1 : reM (pre ++ S "$\x7b" ++ e ++ S "\x7d" ++ suf) (f3 + 3)
      (.seq (.lit '\x7b')
        (.seq (.group 1 (.star (.cls .notRbrace) false)) (.lit '\x7d')))
      (pre.length + 1) [] =
      [(pre.length + 2 + e.length + 1,
        [(1, pre.length + 2, pre.length + 2 + e.length)])] := by
    show (reM (pre ++ S "$\x7b" ++ e ++ S "\x7d" ++ suf) (f3 + 2)
        (.lit '\x7b') (pre.length + 1) []).flatMap
        (fun q => reM (pre ++ S "$\x7b" ++ e ++ S "\x7d" ++ suf) (f3 + 2)
          (.seq (.group 1 (.star (.cls .notRbrace) false)) (.lit '\x7d'))
          q.1 q.2) = _
    rw [reM_lit_eq _ (f3 + 1) '\x7b' _ _ (ca_lbrace pre e suf),
      List.flatMap_cons, List.flatMap_nil, List.append_nil]
    exact hseq2
  unfold reFirst
  rw [hFeq]
  show ((reM (pre ++ S "$\x7b" ++ e ++ S "\x7d" ++ suf) (f3 + 3)
      (.lit '$') pre.length []).flatMap
      (fun q => reM (pre ++ S "$\x7b" ++ e ++ S "\x7d" ++ suf) (f3 + 3)
        (.seq (.lit '\x7b')
          (.seq (.group 1 (.star (.cls .notRbrace) false)) (.lit '\x7d')))
        q.1 q.2)).head? = _
  rw [reM_lit_eq _ (f3 + 2) '$' _ _ (ca_dollar pre e suf),
    List.flatMap_cons, List.flatMap_nil, List.append_nil]
  rw [hseq1]
  rfl

end TwigMelody

namespace TwigMelody

theorem s_take_pre (pre e suf : Str) :
    (pre ++ S "$\x7b" ++ e ++ S "\x7d" ++ suf).take pre.length = pre := by
  rw [List.append_assoc, List.append_assoc, List.append_assoc]
  exact List.take_left pre _

theorem s_drop_j (pre e suf : Str) :
    (pre ++ S "$\x7b" ++ e ++ S "\x7d" ++ suf).drop
      (pre.length + 2 + e.length + 1) = suf := by
  have hl : (pre ++ S "$\x7b" ++ e ++ S "\x7d").length =
      pre.length + 2 + e.length + 1 := by
    simp [List.length_append, S]
    omega
  rw [← hl]
  exact List.drop_left _ suf

theorem s_seg_e (pre e suf : Str) :
    seg (pre ++ S "$\x7b" ++ e ++ S "\x7d" ++ suf) (pre.length + 2)
      (pre.length + 2 + e.length) = e := by
  unfold seg
  rw [show pre.length + 2 + e.length - (pre.length + 2) = e.length from by omega]
  have hl : (pre ++ S "$\x7b").length = pre.length + 2 := by
    simp [List.length_append, S]
  rw [List.append_assoc (pre ++ S "$\x7b" ++ e) (S "\x7d") suf]
  rw [List.append_assoc (pre ++ S "$\x7b") e (S "\x7d" ++ suf)]
  rw [← hl, List.drop_left]
  exact List.take_left e _

theorem vueExpr_pass (pre e suf : Str) (h1 : '$' ∉ pre) (h2 : '$' ∉ e)
    (h3 : '$' ∉ suf) (hbe : '\x7d' ∉ e) (st : PipeState) :
    runREPass reVueExpression vueExprCb
      (pre ++ S "$\x7b" ++ e ++ S "\x7d" ++ suf) st =
      (pre ++ idStr (.shared .vueExpression st.ctr) ++ suf,
       store (allocShared .vueExpression st).2
         (idStr (.shared .vueExpression st.ctr))
         (.text (S "$\x7b" ++ normalizeJavaScriptWhitespace e ++ S "\x7d"))) := by
  have hlen : (pre ++ S "$\x7b" ++ e ++ S "\x7d" ++ suf).length =
      pre.length + 2 + e.length + 1 + suf.length := by
    simp [List.length_append, S]
    omega
  have hnone1 : ∀ t, t < pre.length →
      reFirst reVueExpression (pre ++ S "$\x7b" ++ e ++ S "\x7d" ++ suf) t =
        none :=
    fun t ht => vueExpr_none pre e suf h1 h2 h3 t (by omega)
  have hnone2 : ∀ t, pre.length + 2 + e.length + 1 ≤ t →
      t < (pre ++ S "$\x7b" ++ e ++ S "\x7d" ++ suf).length →
      reFirst reVueExpression (pre ++ S "$\x7b" ++ e ++ S "\x7d" ++ suf) t =
        none :=
    fun t ht _ => vueExpr_none pre e suf h1 h2 h3 t (by omega)
  rw [runREPass_single reVueExpression vueExprCb
    (pre ++ S "$\x7b" ++ e ++ S "\x7d" ++ suf) pre.length
    (pre.length + 2 + e.length + 1)
    [(1, pre.length + 2, pre.length + 2 + e.length)] st hnone1
    (vueExpr_first pre e suf hbe) (by omega) (by omega) (by omega) hnone2]
  rw [s_take_pre, s_drop_j]
  simp only [vueExprCb, capStr, capLookup, if_true]
  rw [s_seg_e]
  rfl

end TwigMelody

namespace TwigMelody

theorem alpine_pass_id (t : Str) (st : PipeState) (hat : '@' ∉ t)
    (hcolon : ':' ∉ t) (hx : hasSubstr (toLowerStr t) (S "x-") = false) :
    preprocessAlpineJSAttributes t st = (t, st) := by
  unfold preprocessAlpineJSAttributes
  apply fold_pass_keep
  intro re hre i j caps st' hi hm
  exfalso
  have hmem := matches_of_reFirst re t i j caps hm
  simp only [alpinePatterns, List.mem_append, List.mem_cons, List.mem_map,
    List.not_mem_nil, or_false] at hre
  rcases hre with (rfl | rfl | rfl) | ⟨attr, hattr, rfl⟩
  · rw [trig_alpineBind t i [] j caps hmem] at hx
    exact absurd hx (by simp)
  · exact hat (trig_alpineAt t i [] j caps hmem)
  · exact hcolon (trig_alpineColon t i [] j caps hmem)
  · have htake : attr.take 2 = S "x-" := by
      have hall : ∀ a ∈ alpineAttrNames, a.take 2 = S "x-" := by decide
      exact hall attr hattr
    rw [trig_alpineStd attr htake t i [] j caps hmem] at hx
    exact absurd hx (by simp)

theorem vpre_pass_id (t : Str) (st : PipeState)
    (hv : hasSubstr (toLowerStr t) (S "v-") = false) :
    runREPass reVPre vPreCb t st = (t, st) := by
  apply runREPass_keep
  intro i j caps st' hi hm
  exfalso
  rw [trig_vPre t i [] j caps (matches_of_reFirst _ t i j caps hm)] at hv
  exact absurd hv (by simp)

theorem entity_pass_id (t : Str) (hamp : '&' ∉ t) :
    preprocessUnicodeCharacters t = (t, (⟨0, [], []⟩ : PipeState)) := by
  unfold preprocessUnicodeCharacters
  have h1 : runREPass reEntityNum entityCb t (⟨0, [], []⟩ : PipeState) =
      (t, (⟨0, [], []⟩ : PipeState)) := by
    apply runREPass_keep
    intro i j caps st' hi hm
    exact absurd (trig_entityNum t i [] j caps (matches_of_reFirst _ t i j caps hm)) hamp
  rw [h1]
  apply runREPass_keep
  intro i j caps st' hi hm
  exact absurd (trig_entityName t i [] j caps (matches_of_reFirst _ t i j caps hm)) hamp

theorem script_pass_id (fmtJS fmtCSS : Str → Option Str) (t : Str)
    (st : PipeState) (hscript : hasSubstr (toLowerStr t) (S "script") = false)
    (hstyle : hasSubstr (toLowerStr t) (S "style") = false) :
    runREPass reScriptStyle (scriptStyleCb fmtJS fmtCSS) t st = (t, st) := by
  apply runREPass_keep
  intro i j caps st' hi hm
  exfalso
  rcases trig_scriptStyle t i [] j caps (matches_of_reFirst _ t i j caps hm) with hc | hc
  · rw [hc] at hscript
    exact absurd hscript (by simp)
  · rw [hc] at hstyle
    exact absurd hstyle (by simp)

theorem element_pass_id (t : Str) (st : PipeState) (hlt : '<' ∉ t) :
    runREPass reElementTag elementCb t st = (t, st) := by
  apply runREPass_keep
  intro i j caps st' hi hm
  exfalso
  exact hlt (mem_of_charAt t i '<'
    (matches_elementTag_lt t i [] j caps (matches_of_reFirst _ t i j caps hm)))

theorem sixth_pass_id (t : Str) (st : PipeState) (hat : '@' ∉ t)
    (hcolon : ':' ∉ t) (hx : hasSubstr (toLowerStr t) (S "x-") = false)
    (hv : hasSubstr (toLowerStr t) (S "v-") = false) :
    sixthPass t st = (t, st) := by
  unfold sixthPass
  apply fold_sixth_keep
  intro p hp i j caps st' hi hm
  exfalso
  have hmem := matches_of_reFirst p.2 t i j caps hm
  have hp7 : p ∈ [(0, reVOnMods), (1, reVBindName), (2, reVStdName),
      (3, reXOnMods), (4, reXDotted), (5, reAtName), (6, reColonName)] := by
    simpa [sixthPassPatterns, List.enum] using hp
  simp only [List.mem_cons, List.not_mem_nil, or_false] at hp7
  rcases hp7 with rfl | rfl | rfl | rfl | rfl | rfl | rfl
  · rw [trig_vOnMods t i [] j caps hmem] at hv
    exact absurd hv (by simp)
  · rw [trig_vBindName t i [] j caps hmem] at hv
    exact absurd hv (by simp)
  · rw [trig_vStdName t i [] j caps hmem] at hv
    exact absurd hv (by simp)
  · rw [trig_xOnMods t i [] j caps hmem] at hx
    exact absurd hx (by simp)
  · rw [trig_xDotted t i [] j caps hmem] at hx
    exact absurd hx (by simp)
  · exact hat (trig_atName t i [] j caps hmem)
  · exact hcolon (trig_colonName t i [] j caps hmem)

theorem seventh_pass_id (t : Str) (st : PipeState)
    (hdva : hasSubstr t (S "data-vue-alpine-") = false) :
    runREPass reVueAlpineAttr seventhCb t st = (t, st) := by
  apply runREPass_keep
  intro i j caps st' hi hm
  exfalso
  rw [trig_vueAlpineAttr t i [] j caps (matches_of_reFirst _ t i j caps hm)] at hdva
  exact absurd hdva (by simp)

theorem eighth_pass_id (t : Str) (st : PipeState) (hsq : '\'' ∉ t) :
    runREPass reSingleQuoted eighthCb t st = (t, st) := by
  apply runREPass_keep
  intro i j caps st' hi hm
  exact absurd (trig_singleQuoted t i [] j caps (matches_of_reFirst _ t i j caps hm)) hsq

theorem arrows_id (t : Str) (hgt : '>' ∉ t) :
    preprocessTwigArrowFunctions t = (t, initPipe) := by
  unfold preprocessTwigArrowFunctions
  have h1 : runREPass reArrowInFilter arrowFilterCb t initPipe = (t, initPipe) := by
    apply runREPass_keep
    intro i j caps st' hi hm
    exfalso
    have hsub := trig_arrowInFilter t i [] j caps (matches_of_reFirst _ t i j caps hm)
    exact hgt (hasSubstr_mem t (S "=>") hsub '>' (by decide))
  rw [h1]
  apply runREPass_keep
  intro i j caps st' hi hm
  exfalso
  have hsub := trig_arrowSimple t i [] j caps (matches_of_reFirst _ t i j caps hm)
  exact hgt (hasSubstr_mem t (S "=>") hsub '>' (by decide))

end TwigMelody

namespace TwigMelody

theorem mem_pre_s (pre e suf : Str) (c : Char) (h : c ∈ pre) :
    c ∈ pre ++ S "$\x7b" ++ e ++ S "\x7d" ++ suf := by
  simp [List.mem_append, h]

theorem mem_suf_s (pre e suf : Str) (c : Char) (h : c ∈ suf) :
    c ∈ pre ++ S "$\x7b" ++ e ++ S "\x7d" ++ suf := by
  simp [List.mem_append, h]

theorem c1_protect (fmtJS fmtCSS : Str → Option Str) (pre e suf : Str)
    (hd1 : '$' ∉ pre) (hd2 : '$' ∉ e) (hd3 : '$' ∉ suf) (hbe : '\x7d' ∉ e)
    (hat : '@' ∉ pre ++ S "$\x7b" ++ e ++ S "\x7d" ++ suf)
    (hcolon : ':' ∉ pre ++ S "$\x7b" ++ e ++ S "\x7d" ++ suf)
    (hamp : '&' ∉ pre ++ S "$\x7b" ++ e ++ S "\x7d" ++ suf)
    (hsq : '\'' ∉ pre ++ S "$\x7b" ++ e ++ S "\x7d" ++ suf)
    (hlt : '<' ∉ pre ++ S "$\x7b" ++ e ++ S "\x7d" ++ suf)
    (hgt : '>' ∉ pre ++ S "$\x7b" ++ e ++ S "\x7d" ++ suf)
    (hx : hasSubstr (toLowerStr (pre ++ S "$\x7b" ++ e ++ S "\x7d" ++ suf))
      (S "x-") = false)
    (hv : hasSubstr (toLowerStr (pre ++ S "$\x7b" ++ e ++ S "\x7d" ++ suf))
      (S "v-") = false)
    (hscript : hasSubstr (toLowerStr (pre ++ S "$\x7b" ++ e ++ S "\x7d" ++ suf))
      (S "script") = false)
    (hstyle : hasSubstr (toLowerStr (pre ++ S "$\x7b" ++ e ++ S "\x7d" ++ suf))
      (S "style") = false)
    (hdva : hasSubstr (pre ++ S "$\x7b" ++ e ++ S "\x7d" ++ suf)
      (S "data-vue-alpine-") = false) :
    protectPipeline fmtJS fmtCSS (pre ++ S "$\x7b" ++ e ++ S "\x7d" ++ suf) =
      (pre ++ idStr (.shared .vueExpression 0) ++ suf,
       [(idStr (.shared .vueExpression 0),
         .text (S "$\x7b" ++ normalizeJavaScriptWhitespace e ++ S "\x7d"))],
       [.shared .vueExpression 0]) := by
  have hsq1 : '\'' ∉ pre ++ idStr (.shared .vueExpression 0) ++ suf := by
    intro hmem
    rcases List.mem_append.mp hmem with hm1 | hm2
    · rcases List.mem_append.mp hm1 with hm3 | hm4
      · exact hsq (mem_pre_s pre e suf _ hm3)
      · exact absurd hm4 (by decide)
    · exact hsq (mem_suf_s pre e suf _ hm2)
  have hgt1 : '>' ∉ pre ++ idStr (.shared .vueExpression 0) ++ suf := by
    intro hmem
    rcases List.mem_append.mp hmem with hm1 | hm2
    · rcases List.mem_append.mp hm1 with hm3 | hm4
      · exact hgt (mem_pre_s pre e suf _ hm3)
      · exact absurd hm4 (by decide)
    · exact hgt (mem_suf_s pre e suf _ hm2)
  have hA : ∀ st, preprocessAlpineJSAttributes
      (pre ++ S "$\x7b" ++ e ++ S "\x7d" ++ suf) st =
      (pre ++ S "$\x7b" ++ e ++ S "\x7d" ++ suf, st) :=
    fun st => alpine_pass_id _ st hat hcolon hx
  have hB : ∀ st, runREPass reVPre vPreCb
      (pre ++ S "$\x7b" ++ e ++ S "\x7d" ++ suf) st =
      (pre ++ S "$\x7b" ++ e ++ S "\x7d" ++ suf, st) :=
    fun st => vpre_pass_id _ st hv
  have hC : preprocessUnicodeCharacters
      (pre ++ S "$\x7b" ++ e ++ S "\x7d" ++ suf) =
      (pre ++ S "$\x7b" ++ e ++ S "\x7d" ++ suf, (⟨0, [], []⟩ : PipeState)) :=
    entity_pass_id _ hamp
  have hD : ∀ st, runREPass reScriptStyle (scriptStyleCb fmtJS fmtCSS)
      (pre ++ S "$\x7b" ++ e ++ S "\x7d" ++ suf) st =
      (pre ++ S "$\x7b" ++ e ++ S "\x7d" ++ suf, st) :=
    fun st => script_pass_id fmtJS fmtCSS _ st hscript hstyle
  have hE : ∀ st, runREPass reElementTag elementCb
      (pre ++ S "$\x7b" ++ e ++ S "\x7d" ++ suf) st =
      (pre ++ S "$\x7b" ++ e ++ S "\x7d" ++ suf, st) :=
    fun st => element_pass_id _ st hlt
  have hF : ∀ st, sixthPass (pre ++ S "$\x7b" ++ e ++ S "\x7d" ++ suf) st =
      (pre ++ S "$\x7b" ++ e ++ S "\x7d" ++ suf, st) :=
    fun st => sixth_pass_id _ st hat hcolon hx hv
  have hG : ∀ st, runREPass reVueAlpineAttr seventhCb
      (pre ++ S "$\x7b" ++ e ++ S "\x7d" ++ suf) st =
      (pre ++ S "$\x7b" ++ e ++ S "\x7d" ++ suf, st) :=
    fun st => seventh_pass_id _ st hdva
  have hH : ∀ st, runREPass reVueExpression vueExprCb
      (pre ++ S "$\x7b" ++ e ++ S "\x7d" ++ suf) st =
      (pre ++ idStr (.shared .vueExpression st.ctr) ++ suf,
       store (allocShared .vueExpression st).2
         (idStr (.shared .vueExpression st.ctr))
         (.text (S "$\x7b" ++ normalizeJavaScriptWhitespace e ++ S "\x7d"))) :=
    fun st => vueExpr_pass pre e suf hd1 hd2 hd3 hbe st
  have hI : ∀ st, runREPass reSingleQuoted eighthCb
      (pre ++ idStr (.shared .vueExpression 0) ++ suf) st =
      (pre ++ idStr (.shared .vueExpression 0) ++ suf, st) :=
    fun st => eighth_pass_id _ st hsq1
  have harr : preprocessTwigArrowFunctions
      (pre ++ idStr (.shared .vueExpression 0) ++ suf) =
      (pre ++ idStr (.shared .vueExpression 0) ++ suf, initPipe) :=
    arrows_id _ hgt1
  simp only [protectPipeline, preprocessVueAlpineAttributes, initPipe,
    hA, hB, hC, hD, hE, hF, hG, hH, hI, harr,
    List.foldl_nil, List.append_nil, List.nil_append, List.foldl_cons,
    store, allocShared, mapSet]

end TwigMelody

namespace TwigMelody

theorem dropWhile_head_false (p : Char → Bool) (s : Str)
    (h : ∀ c, s.head? = some c → p c = false) : s.dropWhile p = s := by
  cases s with
  | nil => rfl
  | cons c rest =>
      rw [List.dropWhile_cons, h c rfl]
      simp

theorem trimJS_ends (s : Str)
    (h1 : ∀ c, s.head? = some c → isSpaceJS c = false)
    (h2 : ∀ c, s.getLast? = some c → isSpaceJS c = false) : trimJS s = s := by
  unfold trimJS
  rw [dropWhile_head_false _ s h1,
    dropWhile_head_false _ s.reverse
      (fun c hc => h2 c (by rwa [List.head?_reverse] at hc)),
    List.reverse_reverse]

theorem substrAt_char (s : Str) (i : Nat) (w : Str) (h : substrAt s i w = true)
    (d : Nat) (hd : d < w.length) : charAt s (i + d) = w.get? d := by
  unfold substrAt at h
  rw [decide_eq_true_eq] at h
  unfold charAt
  conv_rhs => rw [← h]
  rw [List.get?_eq_getElem?, List.get?_eq_getElem?]
  rw [List.getElem?_take_of_lt hd, List.getElem?_drop]

theorem find?_first {α : Type} (p : α → Bool) (l1 : List α) :
    ∀ (l2 : List α) (a : α), (∀ x ∈ l1, p x = false) → p a = true →
      List.find? p (l1 ++ a :: l2) = some a := by
  induction l1 with
  | nil =>
      intro l2 a _ h2
      rw [List.nil_append, List.find?_cons_of_pos _ h2]
  | cons x rest ih =>
      intro l2 a h1 h2
      rw [List.cons_append,
        List.find?_cons_of_neg _ (by simp [h1 x (List.mem_cons_self x rest)])]
      exact ih l2 a (fun y hy => h1 y (List.mem_cons_of_mem x hy)) h2

theorem firstOcc_at (s w : Str) (k : Nat) (hk : k < s.length + 1)
    (hbefore : ∀ t, t < k → substrAt s t w = false)
    (hat : substrAt s k w = true) : firstOcc s w = some k := by
  unfold firstOcc
  rw [show s.length + 1 = k + ((s.length - k) + 1) from by omega]
  rw [List.range_add, List.range_succ_eq_map, List.map_cons]
  have hres := find?_first (fun i => substrAt s i w) (List.range k)
    (List.map (fun x => k + x) (List.map Nat.succ (List.range (s.length - k))))
    (k + 0) (fun x hx => hbefore x (List.mem_range.mp hx))
    (by rw [Nat.add_zero]; exact hat)
  rw [Nat.add_zero] at hres
  exact hres

theorem substrAt_mid (a w b : Str) : substrAt (a ++ w ++ b) a.length w = true := by
  unfold substrAt
  rw [decide_eq_true_eq, List.append_assoc, List.drop_left, List.take_left]

theorem replaceFirst_mid (a w b rep : Str)
    (hbefore : ∀ t, t < a.length → substrAt (a ++ w ++ b) t w = false) :
    replaceFirst (a ++ w ++ b) w rep = a ++ rep ++ b := by
  unfold replaceFirst
  have hlen : (a ++ w ++ b).length = a.length + w.length + b.length := by
    simp [List.length_append]
    omega
  rw [firstOcc_at _ w a.length (by omega) hbefore (substrAt_mid a w b)]
  dsimp only
  have h1 : (a ++ w ++ b).take a.length = a := by
    rw [List.append_assoc]
    exact List.take_left a _
  have h2 : (a ++ w ++ b).drop (a.length + w.length) = b := by
    rw [show a.length + w.length = (a ++ w).length from (List.length_append a w).symm]
    exact List.drop_left _ b
  rw [h1, h2]

end TwigMelody

namespace TwigMelody

theorem no_early_occ (pre suf : Str)
    (hpre : hasSubstr pre (S "vue-expression-") = false) (t : Nat)
    (ht : t < pre.length) :
    substrAt (pre ++ idStr (.shared .vueExpression 0) ++ suf) t
      (idStr (.shared .vueExpression 0)) = false := by
  have hlen16 : (idStr (.shared .vueExpression 0)).length = 16 := by decide
  rw [Bool.eq_false_iff]
  intro hc
  by_cases hcase : t + 16 ≤ pre.length
  · have hsub : substrAt pre t (idStr (.shared .vueExpression 0)) = true := by
      unfold substrAt at hc ⊢
      rw [decide_eq_true_eq] at hc ⊢
      rw [List.append_assoc, List.drop_append_of_le_length (by omega)] at hc
      rw [List.take_append_of_le_length (by
        rw [List.length_drop]; omega)] at hc
      exact hc
    have h15 : substrAt pre t (S "vue-expression-") = true := by
      have h' := substrAt_take_pre pre t _ 15 hsub
      rwa [show (idStr (.shared .vueExpression 0)).take 15 =
        S "vue-expression-" from by decide] at h'
    have hhs : hasSubstr pre (S "vue-expression-") = true :=
      hasSubstr_of_substrAt _ t _ (by decide) h15
    rw [hhs] at hpre
    exact absurd hpre (by simp)
  · have hd0 : pre.length - t < (idStr (.shared .vueExpression 0)).length := by
      omega
    have hch := substrAt_char _ t _ hc (pre.length - t) hd0
    rw [show t + (pre.length - t) = pre.length from by omega] at hch
    have hv : charAt (pre ++ idStr (.shared .vueExpression 0) ++ suf)
        pre.length = some 'v' := by
      rw [List.append_assoc]
      have h0 := charAt_append_right pre (idStr (.shared .vueExpression 0) ++ suf) 0
      rw [Nat.add_zero] at h0
      rw [h0]
      rfl
    rw [hv] at hch
    have hne : ∀ d, d < 16 → d ≠ 0 →
        (idStr (.shared .vueExpression 0)).get? d ≠ some 'v' := by decide
    exact hne (pre.length - t) (by omega) (by omega) hch.symm

theorem c1_restore (pre suf w : Str) (c1 c2 : Char)
    (hh : pre.head? = some c1) (hh1 : isSpaceJS c1 = false) (hh2 : c1 ≠ '"')
    (hl : suf.getLast? = some c2) (hl1 : isSpaceJS c2 = false)
    (hpre : hasSubstr pre (S "vue-expression-") = false) :
    printTextStatement (pre ++ idStr (.shared .vueExpression 0) ++ suf)
      [(idStr (.shared .vueExpression 0), .text w)] false =
      .vueInline (pre ++ w ++ suf) := by
  have hsufne : suf ≠ [] := by
    intro hn
    rw [hn] at hl
    exact absurd hl (by simp)
  have hprene : pre ≠ [] := by
    intro hn
    rw [hn] at hh
    exact absurd hh (by simp)
  have hheadS : ∀ (x : Str), (pre ++ x ++ suf).head? = some c1 := by
    intro x
    cases pre with
    | nil => exact absurd hh (by simp)
    | cons a rest =>
        have : a = c1 := by injection hh
        rw [this]
        rfl
  have hlastS : ∀ (x : Str), (pre ++ x ++ suf).getLast? = some c2 := by
    intro x
    rw [List.getLast?_append]
    rw [hl]
    rfl
  have htrim : ∀ (x : Str), trimJS (pre ++ x ++ suf) = pre ++ x ++ suf := by
    intro x
    refine trimJS_ends _ ?_ ?_
    · intro c hc
      rw [hheadS x] at hc
      have : c1 = c := by injection hc
      rw [← this]
      exact hh1
    · intro c hc
      rw [hlastS x] at hc
      have : c2 = c := by injection hc
      rw [← this]
      exact hl1
  have hlenS : (pre ++ idStr (.shared .vueExpression 0) ++ suf).length =
      pre.length + 16 + suf.length := by
    simp [List.length_append]
    have : (idStr (.shared .vueExpression 0)).length = 16 := by decide
    omega
  have hprelen : 1 ≤ pre.length := by
    cases pre with
    | nil => exact absurd hh (by simp)
    | cons a rest => simp
  have hsuflen : 1 ≤ suf.length := by
    cases suf with
    | nil => exact absurd hl (by simp)
    | cons a rest => simp
  have hne : idStr (.shared .vueExpression 0) ≠
      pre ++ idStr (.shared .vueExpression 0) ++ suf := by
    intro heq
    have := congrArg List.length heq
    rw [hlenS, show (idStr (.shared .vueExpression 0)).length = 16 from by decide]
      at this
    omega
  have hmget : mapGet [(idStr (.shared .vueExpression 0), Payload.text w)]
      (pre ++ idStr (.shared .vueExpression 0) ++ suf) = none := by
    unfold mapGet
    rw [if_neg hne]
    rfl
  have hhs : hasSubstr (pre ++ idStr (.shared .vueExpression 0) ++ suf)
      (idStr (.shared .vueExpression 0)) = true := by
    refine hasSubstr_of_substrAt _ pre.length _ (by decide) ?_
    exact substrAt_mid pre _ suf
  have hrepl : replaceFirst (pre ++ idStr (.shared .vueExpression 0) ++ suf)
      (idStr (.shared .vueExpression 0)) w = pre ++ w ++ suf :=
    replaceFirst_mid pre _ suf w (no_early_occ pre suf hpre)
  have hraw : ¬(List.head? (pre ++ idStr (.shared .vueExpression 0) ++ suf) =
      some '"' ∧ List.getLast? (pre ++ idStr (.shared .vueExpression 0) ++ suf) =
      some '"') := by
    intro hcon
    obtain ⟨hcon1, _⟩ := hcon
    rw [hheadS] at hcon1
    have hc1 : c1 = '"' := by injection hcon1
    exact hh2 hc1
  simp only [printTextStatement]
  rw [if_neg hraw]
  rw [htrim]
  simp only [mapHas, hmget, Option.isSome_none, Bool.false_and, Bool.false_eq_true,
    if_false]
  simp only [List.foldl_cons, List.foldl_nil, hhs, if_true]
  rw [show strStarts (idStr (.shared .vueExpression 0)) (S "v-pre-content-") =
    false from by decide]
  simp only [Bool.false_eq_true, if_false]
  rw [show strStarts (idStr (.shared .vueExpression 0)) (S "vue-expression-") =
    true from by decide]
  simp only [if_true, payloadRaw]
  rw [hrepl]
  have hhs2 : hasSubstr (pre ++ (idStr (.shared .vueExpression 0) ++ suf))
      (idStr (.shared .vueExpression 0)) = true := by
    rw [← List.append_assoc]
    exact hhs
  have htrim2 : trimJS (pre ++ (w ++ suf)) = pre ++ (w ++ suf) := by
    rw [← List.append_assoc]
    exact htrim w
  simp [List.any_cons, List.any_nil, hhs2, htrim2,
    show strStarts (idStr (.shared .vueExpression 0)) (S "vue-expression-") =
      true from by decide]

end TwigMelody

namespace TwigMelody

theorem hasSubstr_append_left (a rest w : Str) (hw : w ≠ [])
    (h : hasSubstr a w = true) : hasSubstr (a ++ rest) w = true := by
  unfold hasSubstr at h
  rw [List.any_eq_true] at h
  obtain ⟨i, _, hs⟩ := h
  have hib := substrAt_bound a i w hw hs
  refine hasSubstr_of_substrAt _ i _ hw ?_
  unfold substrAt at hs ⊢
  rw [decide_eq_true_eq] at hs ⊢
  have hlw : w.length ≤ a.length - i := by
    have := congrArg List.length hs
    rw [List.length_take, List.length_drop] at this
    omega
  rw [List.drop_append_of_le_length (by omega),
    List.take_append_of_le_length (by rw [List.length_drop]; omega)]
  exact hs

/-- C1 (amended): for an input of the §8 micro-expression shape
`pre ++ "$\x7b" ++ e ++ "\x7d" ++ suf` that contains no other
foreign-syntax fragments, running the protect pipeline (with arbitrary
sub-formatters, in particular identities) and then the text printer yields
the input with the expression body replaced by
`normalizeJavaScriptWhitespace e` — i.e. the roundtrip reproduces the
original exactly iff the expression's whitespace is already normal; internal
line breaks inside `$\x7b…\x7d` are collapsed, not reproduced. -/
theorem c1_roundtrip_normalizes_expression (fmtJS fmtCSS : Str → Option Str)
    (pre e suf : Str) (c1 c2 : Char)
    (hd1 : '$' ∉ pre) (hd2 : '$' ∉ e) (hd3 : '$' ∉ suf) (hbe : '\x7d' ∉ e)
    (hat : '@' ∉ pre ++ S "$\x7b" ++ e ++ S "\x7d" ++ suf)
    (hcolon : ':' ∉ pre ++ S "$\x7b" ++ e ++ S "\x7d" ++ suf)
    (hamp : '&' ∉ pre ++ S "$\x7b" ++ e ++ S "\x7d" ++ suf)
    (hsq : '\'' ∉ pre ++ S "$\x7b" ++ e ++ S "\x7d" ++ suf)
    (hlt : '<' ∉ pre ++ S "$\x7b" ++ e ++ S "\x7d" ++ suf)
    (hgt : '>' ∉ pre ++ S "$\x7b" ++ e ++ S "\x7d" ++ suf)
    (hx : hasSubstr (toLowerStr (pre ++ S "$\x7b" ++ e ++ S "\x7d" ++ suf))
      (S "x-") = false)
    (hv : hasSubstr (toLowerStr (pre ++ S "$\x7b" ++ e ++ S "\x7d" ++ suf))
      (S "v-") = false)
    (hscript : hasSubstr (toLowerStr (pre ++ S "$\x7b" ++ e ++ S "\x7d" ++ suf))
      (S "script") = false)
    (hstyle : hasSubstr (toLowerStr (pre ++ S "$\x7b" ++ e ++ S "\x7d" ++ suf))
      (S "style") = false)
    (hdva : hasSubstr (pre ++ S "$\x7b" ++ e ++ S "\x7d" ++ suf)
      (S "data-vue-alpine-") = false)
    (hvexp : hasSubstr pre (S "vue-expression-") = false)
    (hh : pre.head? = some c1) (hh1 : isSpaceJS c1 = false) (hh2 : c1 ≠ '"')
    (hl : suf.getLast? = some c2) (hl1 : isSpaceJS c2 = false) :
    printTextStatement
      (protectPipeline fmtJS fmtCSS (pre ++ S "$\x7b" ++ e ++ S "\x7d" ++ suf)).1
      (protectPipeline fmtJS fmtCSS (pre ++ S "$\x7b" ++ e ++ S "\x7d" ++ suf)).2.1
      false =
      .vueInline (pre ++ S "$\x7b" ++ normalizeJavaScriptWhitespace e ++
        S "\x7d" ++ suf) := by
  rw [c1_protect fmtJS fmtCSS pre e suf hd1 hd2 hd3 hbe hat hcolon hamp hsq hlt
    hgt hx hv hscript hstyle hdva]
  rw [show ((pre ++ idStr (.shared .vueExpression 0) ++ suf,
      [(idStr (.shared .vueExpression 0),
        Payload.text (S "$\x7b" ++ normalizeJavaScriptWhitespace e ++ S "\x7d"))],
      [GenId.shared .vueExpression 0]) :
        Str × List (Str × Payload) × List GenId).1 =
    pre ++ idStr (.shared .vueExpression 0) ++ suf from rfl]
  rw [show ((pre ++ idStr (.shared .vueExpression 0) ++ suf,
      [(idStr (.shared .vueExpression 0),
        Payload.text (S "$\x7b" ++ normalizeJavaScriptWhitespace e ++ S "\x7d"))],
      [GenId.shared .vueExpression 0]) :
        Str × List (Str × Payload) × List GenId).2.1 =
    [(idStr (.shared .vueExpression 0),
      Payload.text (S "$\x7b" ++ normalizeJavaScriptWhitespace e ++ S "\x7d"))]
    from rfl]
  rw [c1_restore pre suf _ c1 c2 hh hh1 hh2 hl hl1 hvexp]
  simp [List.append_assoc]

/-- C1 counterexample: on the corpus input `x $\x7ba\n b\x7d y` — an inline
micro-expression with an internal line break — protect followed by the text
printer yields `x $\x7ba b\x7d y` (the line break inside the expression is
collapsed by `normalizeJavaScriptWhitespace`), which differs from the
original input, so the roundtrip is not exact. -/
theorem c1_roundtrip_not_exact :
    printTextStatement
      (protectPipeline idFormatter idFormatter (S "x $\x7ba\n b\x7d y")).1
      (protectPipeline idFormatter idFormatter (S "x $\x7ba\n b\x7d y")).2.1
      false = .vueInline (S "x $\x7ba b\x7d y") ∧
    S "x $\x7ba b\x7d y" ≠ S "x $\x7ba\n b\x7d y" := by
  constructor
  · decide
  · decide

end TwigMelody

namespace TwigMelody

/-- Witness for the amended C1 theorem at the concrete corpus input
`x $\x7ba\n b\x7d y`. -/
theorem c1_roundtrip_normalizes_expression_witness :
    ('$' ∉ S "x ") ∧ ('$' ∉ S "a\n b") ∧ ('$' ∉ S " y") ∧
    ('\x7d' ∉ S "a\n b") ∧
    ('@' ∉ S "x " ++ S "$\x7b" ++ S "a\n b" ++ S "\x7d" ++ S " y") ∧
    (hasSubstr (toLowerStr (S "x " ++ S "$\x7b" ++ S "a\n b" ++ S "\x7d" ++ S " y"))
      (S "v-") = false) ∧
    ((S "x ").head? = some 'x') ∧ (isSpaceJS 'x' = false) ∧
    ((S " y").getLast? = some 'y') ∧ (isSpaceJS 'y' = false) ∧
    printTextStatement
      (protectPipeline idFormatter idFormatter
        (S "x " ++ S "$\x7b" ++ S "a\n b" ++ S "\x7d" ++ S " y")).1
      (protectPipeline idFormatter idFormatter
        (S "x " ++ S "$\x7b" ++ S "a\n b" ++ S "\x7d" ++ S " y")).2.1
      false =
      .vueInline (S "x " ++ S "$\x7b" ++
        normalizeJavaScriptWhitespace (S "a\n b") ++ S "\x7d" ++ S " y") :=
  ⟨by decide, by decide, by decide, by decide, by decide, by decide, by decide,
   by decide, by decide, by decide,
   c1_roundtrip_normalizes_expression idFormatter idFormatter
     (S "x ") (S "a\n b") (S " y") 'x' 'y'
     (by decide) (by decide) (by decide) (by decide) (by decide) (by decide)
     (by decide) (by decide) (by decide) (by decide) (by decide) (by decide)
     (by decide) (by decide) (by decide) (by decide) (by decide) (by decide)
     (by decide) (by decide) (by decide)⟩

end TwigMelody
